import Mathlib

/-!
Verification of the devplan-mcp-server brief-to-plan pipeline.

Strings are modelled as `List Char` (`Str`).  Python string operations
(`str.strip`, `str.lower`, substring search, `str.find`, slicing) are given
executable models, and each source function of the repository is translated
into a Lean definition carrying the same name where possible.
-/

namespace DevPlanMCP

/-- Strings of the model: lists of characters. -/
abbrev Str := List Char

/-- Conversion from Lean string literals. -/
def lit (s : String) : Str := s.data

/-- Python whitespace (the characters stripped by `str.strip` and matched by
regex whitespace, restricted to ASCII). -/
def pyIsSpace (c : Char) : Bool :=
  c == ' ' || c == '\t' || c == '\n' || c == '\r' || c == '\x0b' || c == '\x0c'

/-- Model of Python `str.lstrip()`. -/
def pyLstrip (s : Str) : Str := s.dropWhile pyIsSpace

/-- Model of Python `str.rstrip()`. -/
def pyRstrip (s : Str) : Str := (s.reverse.dropWhile pyIsSpace).reverse

/-- Model of Python `str.strip()`. -/
def pyStrip (s : Str) : Str := pyRstrip (pyLstrip s)

/-- Model of Python `str.lower()` (ASCII case folding). -/
def lowerStr (s : Str) : Str := s.map Char.toLower

/-- The pattern `pat` occurs in `s` at index `i`. -/
def occursAt (pat s : Str) (i : Nat) : Bool := pat.isPrefixOf (s.drop i)

/-- Index of the first occurrence of `pat` in `s` (model of `str.find` when
the result is non-negative, `none` when Python returns `-1`). -/
def findPat (pat : Str) : Str → Option Nat
  | [] => if pat.isEmpty then some 0 else none
  | c :: t => if pat.isPrefixOf (c :: t) then some 0 else (findPat pat t).map (· + 1)

/-- Model of Python substring containment (`pat in s`). -/
def containsPat (pat s : Str) : Bool := (findPat pat s).isSome

/-! ### Data model (`models.py`), restricted to the fields the claims use -/

/-- Model of `Subtask` (`models.py`): the fields used by plan validation. -/
structure Subtask where
  id : Str
  title : Str
  prerequisites : List Str
deriving DecidableEq

/-- Model of `Task` (`models.py`). -/
structure Task where
  id : Str
  title : Str
  subtasks : List Subtask
deriving DecidableEq

/-- Model of `Phase` (`models.py`). -/
structure Phase where
  id : Str
  title : Str
  goal : Str
  days : Str
  description : Str
  tasks : List Task
deriving DecidableEq

/-- Model of `TechStack` (`models.py`). -/
structure TechStack where
  language : Str
  framework : Str
  database : Str
  testing : Str
  linting : Str
  type_checking : Str
  deployment : Str
  ci_cd : Str
  additional_tools : List (Str × Str)
deriving DecidableEq

/-- Model of `ProjectBrief` (`models.py`), restricted to the fields consumed
by the generators. -/
structure ProjectBrief where
  project_name : Str
  project_type : Str
  primary_goal : Str
  target_users : Str
  timeline : Str
  team_size : Str
  key_features : List Str
  nice_to_have_features : List Str
  must_use_tech : List Str
  cannot_use_tech : List Str
  deployment_target : Option Str
deriving DecidableEq

/-- Model of `DevelopmentPlan` (`models.py`). -/
structure DevelopmentPlan where
  project_name : Str
  phases : List Phase
  tech_stack : Option TechStack
deriving DecidableEq

/-- Pydantic validity of a `ProjectBrief` after whitespace stripping, plus the
data-model invariant that `must_use_tech` and `cannot_use_tech` share no entry
case-insensitively. -/
def ProjectBrief.Valid (b : ProjectBrief) : Prop :=
  pyStrip b.project_name ≠ [] ∧ pyStrip b.project_type ≠ [] ∧
  pyStrip b.primary_goal ≠ [] ∧ pyStrip b.target_users ≠ [] ∧
  pyStrip b.timeline ≠ [] ∧
  ∀ s ∈ b.must_use_tech.map lowerStr, s ∉ b.cannot_use_tech.map lowerStr

instance (b : ProjectBrief) : Decidable b.Valid := by
  unfold ProjectBrief.Valid; infer_instance

/-! ### Template selection (`templates.py`) -/

/-- The `project_types` alias lists of the non-base entries of `TEMPLATES`
(`templates.py`), in dictionary insertion order. -/
def templateProjectTypes : List (String × List Str) :=
  [("cli", [lit "cli", lit "cli tool", lit "command line", lit "command-line"]),
   ("web_app", [lit "web app", lit "web application", lit "webapp", lit "web"]),
   ("api", [lit "api", lit "rest api", lit "graphql", lit "backend", lit "service"]),
   ("library", [lit "library", lit "package", lit "module", lit "sdk"])]

/-- Model of `select_template` (`templates.py`): fuzzy two-directional
substring match of the normalized project type against each alias list,
falling back to `"base"`. -/
def selectTemplate (project_type : Str) : String :=
  let normalized := pyStrip (lowerStr project_type)
  match templateProjectTypes.find? (fun e =>
      e.2.any (fun p => normalized == p || containsPat normalized p || containsPat p normalized)) with
  | some e => e.1
  | none => "base"

/-! ### Plan generation (`generators.py`) -/

/-- A phase placeholder of `DEFAULT_PHASES` (`generators.py`). -/
structure PhaseTemplate where
  title : Str
  goal : Str
deriving DecidableEq

/-- Model of `DEFAULT_PHASES.get(name, DEFAULT_PHASES["base"])`
(`generators.py`). -/
def defaultPhases (name : String) : List PhaseTemplate :=
  if name = "cli" then
    [⟨lit "Foundation", lit "Set up CLI project structure and argument parsing"⟩,
     ⟨lit "Core Commands", lit "Implement primary CLI commands"⟩,
     ⟨lit "Advanced Features", lit "Add options, configuration, and error handling"⟩,
     ⟨lit "Polish & Release", lit "Testing, documentation, and PyPI packaging"⟩]
  else if name = "web_app" then
    [⟨lit "Foundation", lit "Set up frontend and backend infrastructure"⟩,
     ⟨lit "Authentication & Users", lit "Implement user management and auth flows"⟩,
     ⟨lit "Core Features", lit "Build primary application features"⟩,
     ⟨lit "Integration & Polish", lit "Connect components, add styling, deploy"⟩]
  else if name = "api" then
    [⟨lit "Foundation", lit "Set up API framework and database connections"⟩,
     ⟨lit "Core Endpoints", lit "Implement primary API endpoints"⟩,
     ⟨lit "Auth & Security", lit "Add authentication, validation, rate limiting"⟩,
     ⟨lit "Documentation & Deploy", lit "API docs, testing, containerization"⟩]
  else if name = "library" then
    [⟨lit "Foundation", lit "Set up package structure and tooling"⟩,
     ⟨lit "Core API", lit "Implement primary library functions/classes"⟩,
     ⟨lit "Advanced Features", lit "Add edge case handling and optimizations"⟩,
     ⟨lit "Release", lit "Documentation, examples, and package publishing"⟩]
  else
    [⟨lit "Foundation", lit "Set up project infrastructure and development environment"⟩,
     ⟨lit "Core Features", lit "Implement primary functionality"⟩,
     ⟨lit "Polish & Testing", lit "Refine features and ensure quality"⟩,
     ⟨lit "Documentation & Release", lit "Complete documentation and prepare for release"⟩]

/-- Errors raised by the generation pipeline (`generators.py`): the tech
constraint conflict `ValueError` of `generate_tech_stack` (carrying the
conflicting lowercased entries) and the aggregated error of
`generate_plan`. -/
inductive GenError where
  | conflict (entries : List Str)
  | planValidation (msgs : List Str)
deriving DecidableEq

/-- The conflict set of `generate_tech_stack` (`generators.py`): the
lowercased `must_use` entries that also appear in the lowercased
`cannot_use` list (Python `set(must_use) & set(cannot_use)`, as a list). -/
def conflictsOf (brief : ProjectBrief) : List Str :=
  (brief.must_use_tech.map lowerStr).filter
    (fun t => decide (t ∈ brief.cannot_use_tech.map lowerStr))

/-- Model of `generate_tech_stack` (`generators.py`). -/
def generateTechStack (brief : ProjectBrief) : Except GenError TechStack :=
  if conflictsOf brief ≠ [] then .error (.conflict (conflictsOf brief))
  else
    let language := (brief.must_use_tech.find? (fun tech =>
        [lit "python", lit "typescript", lit "javascript", lit "go", lit "rust"].any
          (fun lang => containsPat lang (lowerStr tech)))).getD (lit "Python 3.11+")
    let is_python := containsPat (lit "python") (lowerStr language)
    let is_typescript := containsPat (lit "typescript") (lowerStr language)
    let is_javascript := containsPat (lit "javascript") (lowerStr language)
    let testing := if is_python then lit "pytest"
      else if is_typescript || is_javascript then lit "jest" else []
    let linting := if is_python then lit "ruff"
      else if is_typescript || is_javascript then lit "eslint" else []
    let type_checking := if is_python then lit "mypy"
      else if is_typescript || is_javascript then
        (if is_typescript then lit "TypeScript" else []) else []
    let project_type_lower := lowerStr brief.project_type
    let framework :=
      if containsPat (lit "cli") project_type_lower && is_python then lit "Click"
      else if containsPat (lit "api") project_type_lower && is_python then lit "FastAPI"
      else if containsPat (lit "web") project_type_lower then
        (if is_python then lit "Flask"
         else if is_typescript || is_javascript then lit "React" else [])
      else []
    .ok { language := language, framework := framework, database := [],
          testing := testing, linting := linting, type_checking := type_checking,
          deployment := brief.deployment_target.getD [],
          ci_cd := lit "GitHub Actions",
          additional_tools := brief.must_use_tech.enum.map
            (fun e => (lit ("required_" ++ toString (e.1 + 1)), e.2)) }

/-- Model of `generate_phases` (`generators.py`): one `Phase` per template
placeholder, with sequential string ids starting at `"0"`. -/
def generatePhases (brief : ProjectBrief) : List Phase :=
  ((defaultPhases (selectTemplate brief.project_type)).enum).map
    (fun e => { id := lit (toString e.1), title := e.2.title, goal := e.2.goal,
                days := [], description := [], tasks := [] })

/-- Model of `_validate_plan_structure` (`generators.py`). -/
def validatePlanStructure (plan : DevelopmentPlan) : List Str :=
  (if plan.project_name = [] || pyStrip plan.project_name = [] then
    [lit "Project name is required"] else []) ++
  (if plan.phases = [] then [lit "Plan must have at least one phase"] else []) ++
  (match plan.phases with
   | [] => []
   | p0 :: _ =>
     (if p0.id ≠ lit "0" then [lit "First phase must have ID 0"] else []) ++
     (if ¬ containsPat (lit "Foundation") p0.title then
       [lit "Phase 0 should be titled Foundation"] else [])) ++
  (if plan.tech_stack.isNone then [lit "Plan must have a tech stack"] else [])

/-- Model of `generate_plan` (`generators.py`). -/
def generatePlan (brief : ProjectBrief) : Except GenError DevelopmentPlan := do
  let tech_stack ← generateTechStack brief
  let phases := generatePhases brief
  let plan : DevelopmentPlan :=
    { project_name := brief.project_name, phases := phases, tech_stack := some tech_stack }
  let errors := validatePlanStructure plan
  if errors ≠ [] then .error (.planValidation errors) else pure plan

/-! ### Claims about the generation pipeline (C1, C2) -/

lemma defaultPhases_head (name : String) :
    ∃ t rest, defaultPhases name = t :: rest ∧ t.title = lit "Foundation" := by
  unfold defaultPhases
  repeat' first
    | exact ⟨_, _, rfl, rfl⟩
    | split

lemma conflictsOf_eq_nil (b : ProjectBrief)
    (hconf : ∀ s ∈ b.must_use_tech.map lowerStr, s ∉ b.cannot_use_tech.map lowerStr) :
    conflictsOf b = [] := by
  unfold conflictsOf
  rw [List.filter_eq_nil_iff]
  intro a ha
  simpa using hconf a ha

lemma generateTechStack_ok (b : ProjectBrief) (h : conflictsOf b = []) :
    ∃ ts, generateTechStack b = .ok ts := by
  unfold generateTechStack
  rw [if_neg (by simp [h])]
  exact ⟨_, rfl⟩

/-- C1: for every valid brief, `generate_plan` succeeds (no structural
validation error is raised) and the returned plan's first phase has id `"0"`
and a title containing `"Foundation"`. -/
theorem generate_plan_phase0_foundation (b : ProjectBrief) (hb : b.Valid) :
    ∃ plan, generatePlan b = .ok plan ∧
      validatePlanStructure plan = [] ∧
      ∃ ph0 rest, plan.phases = ph0 :: rest ∧ ph0.id = lit "0" ∧
        containsPat (lit "Foundation") ph0.title = true := by
  obtain ⟨hpn, -, -, -, -, hconf⟩ := hb
  obtain ⟨ts, hts⟩ := generateTechStack_ok b (conflictsOf_eq_nil b hconf)
  obtain ⟨t, rest, hdp, htitle⟩ := defaultPhases_head (selectTemplate b.project_type)
  have hphases : ∃ ph0 prest, generatePhases b = ph0 :: prest ∧
      ph0.id = lit "0" ∧ ph0.title = lit "Foundation" := by
    unfold generatePhases
    rw [hdp]
    refine ⟨_, _, rfl, ?_, htitle⟩
    with_unfolding_all rfl
  obtain ⟨ph0, prest, hph, hid, hft⟩ := hphases
  have hpn' : b.project_name ≠ [] := by
    intro h; rw [h] at hpn; exact hpn rfl
  have hval : validatePlanStructure
      { project_name := b.project_name, phases := generatePhases b,
        tech_stack := some ts } = [] := by
    have hfnd : containsPat (lit "Foundation") (lit "Foundation") = true := by decide
    unfold validatePlanStructure
    rw [hph]
    simp [hpn, hpn', hid, hft, hfnd]
  have hcontains : containsPat (lit "Foundation") ph0.title = true := by
    rw [hft]; decide
  refine ⟨_, ?_, hval, ph0, prest, hph, hid, hcontains⟩
  unfold generatePlan
  rw [hts]
  show (if validatePlanStructure _ ≠ [] then _ else _) = _
  rw [if_neg (by simp [hval])]
  rfl

/-- Concrete instantiation of C1 at a valid sample brief. -/
theorem generate_plan_phase0_foundation_witness :
    ∃ plan, generatePlan
      { project_name := lit "Foo", project_type := lit "CLI Tool",
        primary_goal := lit "g", target_users := lit "u", timeline := lit "2 weeks",
        team_size := lit "1", key_features := [], nice_to_have_features := [],
        must_use_tech := [lit "Python 3.12"], cannot_use_tech := [lit "Java"],
        deployment_target := none } = .ok plan ∧
      validatePlanStructure plan = [] ∧
      ∃ ph0 rest, plan.phases = ph0 :: rest ∧ ph0.id = lit "0" ∧
        containsPat (lit "Foundation") ph0.title = true :=
  generate_plan_phase0_foundation _ (by decide)

/-- C2: `generate` fails with a conflict error exactly when some string occurs
case-insensitively in both `must_use_tech` and `cannot_use_tech`; the reported
entries are exactly the shared lowercased strings, and an empty intersection
never produces a conflict error. -/
theorem generate_conflict_error (b : ProjectBrief) :
    ((∃ s, s ∈ b.must_use_tech.map lowerStr ∧ s ∈ b.cannot_use_tech.map lowerStr) →
      ∃ cs, generatePlan b = .error (.conflict cs) ∧
        ∀ s, s ∈ cs ↔ s ∈ b.must_use_tech.map lowerStr ∧
          s ∈ b.cannot_use_tech.map lowerStr) ∧
    ((¬ ∃ s, s ∈ b.must_use_tech.map lowerStr ∧ s ∈ b.cannot_use_tech.map lowerStr) →
      ∀ cs, generatePlan b ≠ .error (.conflict cs)) := by
  constructor
  · rintro ⟨s, hs₁, hs₂⟩
    have hne : conflictsOf b ≠ [] := by
      intro h
      have : s ∈ conflictsOf b := by
        unfold conflictsOf
        rw [List.mem_filter]
        exact ⟨hs₁, by simpa using hs₂⟩
      rw [h] at this
      exact absurd this (List.not_mem_nil s)
    have hts : generateTechStack b = .error (.conflict (conflictsOf b)) := by
      unfold generateTechStack
      rw [if_pos hne]
    refine ⟨conflictsOf b, ?_, ?_⟩
    · unfold generatePlan
      rw [hts]
      rfl
    · intro u
      unfold conflictsOf
      rw [List.mem_filter]
      simp
  · rintro hno cs hcontra
    have hnil : conflictsOf b = [] := by
      rcases h : conflictsOf b with _ | ⟨a, l⟩
      · rfl
      · exfalso
        have ha : a ∈ conflictsOf b := by rw [h]; exact List.mem_cons_self a l
        unfold conflictsOf at ha
        rw [List.mem_filter] at ha
        exact hno ⟨a, ha.1, by simpa using ha.2⟩
    obtain ⟨ts, hts⟩ := generateTechStack_ok b hnil
    unfold generatePlan at hcontra
    rw [hts] at hcontra
    revert hcontra
    show (if validatePlanStructure _ ≠ [] then _ else _) ≠ _
    split
    · intro h; cases h
    · intro h; cases h

/-! ### Section splitting (`parser.py`, `parse_markdown_content`) -/

/-- Model of Python `text.split(sep)` for a one-character separator: every
occurrence splits, empty pieces are kept. -/
def pySplitChar (sep : Char) : Str → List Str
  | [] => [[]]
  | c :: t =>
    if c = sep then [] :: pySplitChar sep t
    else
      match pySplitChar sep t with
      | [] => [[c]]
      | r :: rs => (c :: r) :: rs

/-- Model of Python `"\n".join(lines)`. -/
def joinLines : List Str → Str
  | [] => []
  | [l] => l
  | l :: ls => l ++ '\n' :: joinLines ls

/-- Model of ", ".join. -/
def joinCommaSpace : List Str → Str
  | [] => []
  | [l] => l
  | l :: ls => l ++ ',' :: ' ' :: joinCommaSpace ls

/-- Position-preserving insert-or-update, the assignment semantics of a Python
dict (`d[key] = value`): an existing key keeps its position, a new key is
appended. -/
def upsert {α : Type} (k : Str) (v : α) : List (Str × α) → List (Str × α)
  | [] => [(k, v)]
  | (k', v') :: rest => if k' = k then (k, v) :: rest else (k', v') :: upsert k v rest

/-- Model of the heading regex of `parse_markdown_content` (`parser.py`):
a run of one to six `#` characters followed by at least one whitespace
character and a non-empty remainder; yields the heading level and the
stripped heading text. -/
def headingMatch (line : Str) : Option (Nat × Str) :=
  let k := (line.takeWhile (fun c => c == '#')).length
  if 1 ≤ k ∧ k ≤ 6 then
    match line.drop k with
    | [] => none
    | c :: rest =>
      if pyIsSpace c ∧ rest ≠ [] then some (k, pyStrip (c :: rest)) else none
  else none

/-- The loop state of `parse_markdown_content`: the section dict, the open
section heading (if any), and the accumulated content lines. -/
structure SplitState where
  sections : List (Str × Str)
  openSection : Option Str
  content : List Str
deriving DecidableEq

/-- One line of the loop of `parse_markdown_content` (`parser.py`): a heading
line saves the open section; only headings of level at least two start a new
section (a level-one heading leaves the open section and its accumulated
content untouched); non-heading lines accumulate into the open section. -/
def splitStep (st : SplitState) (line : Str) : SplitState :=
  match headingMatch line with
  | some lt =>
    let sections := match st.openSection with
      | some cur => upsert cur (pyStrip (joinLines st.content)) st.sections
      | none => st.sections
    if 2 ≤ lt.1 then
      { sections := sections, openSection := some lt.2, content := [] }
    else
      { sections := sections, openSection := st.openSection, content := st.content }
  | none =>
    match st.openSection with
    | some _ => { st with content := st.content ++ [line] }
    | none => st

/-- The final save of `parse_markdown_content`. -/
def finalizeSplit (st : SplitState) : List (Str × Str) :=
  match st.openSection with
  | some cur => upsert cur (pyStrip (joinLines st.content)) st.sections
  | none => st.sections

/-- The section-splitting loop of `parse_markdown_content` on a line list. -/
def parseLines (lines : List Str) : List (Str × Str) :=
  finalizeSplit (lines.foldl splitStep ⟨[], none, []⟩)

/-- Model of `parse_markdown_content` (`parser.py`). -/
def parseMarkdownContent (content : Str) : List (Str × Str) :=
  parseLines (pySplitChar '\n' content)

/-! ### Claim C7: level-one headings are not section boundaries -/

lemma upsert_upsert {α : Type} (k : Str) (v v' : α) (m : List (Str × α)) :
    upsert k v' (upsert k v m) = upsert k v' m := by
  induction m with
  | nil => simp [upsert]
  | cons e rest ih =>
    obtain ⟨k', w⟩ := e
    by_cases h : k' = k
    · simp [upsert, h]
    · simp [upsert, h, ih]

lemma splitAbsorb (post : List Str) :
    ∀ (sections : List (Str × Str)) (cur : Str) (content : List Str) (v : Str),
    finalizeSplit (post.foldl splitStep ⟨upsert cur v sections, some cur, content⟩) =
    finalizeSplit (post.foldl splitStep ⟨sections, some cur, content⟩) := by
  induction post with
  | nil =>
    intro sections cur content v
    simp [finalizeSplit, upsert_upsert]
  | cons line rest ih =>
    intro sections cur content v
    simp only [List.foldl_cons]
    cases hm : headingMatch line with
    | none =>
      simp only [splitStep, hm]
      exact ih sections cur (content ++ [line]) v
    | some lt =>
      simp only [splitStep, hm]
      by_cases hl : 2 ≤ lt.1
      · simp only [if_pos hl, upsert_upsert]
      · simp only [if_neg hl, upsert_upsert]

/-- C7: a level-one heading line neither starts a new section nor closes the
open one: the section mapping of a document containing it equals the mapping
of the document with that line removed, so all following lines still belong
to the previously open section. -/
theorem level1_heading_no_boundary (pre post : List Str) (h txt : Str)
    (hh : headingMatch h = some (1, txt)) :
    parseLines (pre ++ h :: post) = parseLines (pre ++ post) := by
  unfold parseLines
  rw [List.foldl_append, List.foldl_append, List.foldl_cons]
  generalize (pre.foldl splitStep ⟨[], none, []⟩) = st
  rcases st with ⟨sections, cur?, content⟩
  cases cur? with
  | none => simp [splitStep, hh]
  | some cur =>
    simp only [splitStep, hh]
    norm_num
    exact splitAbsorb post sections cur content _

/-- Concrete instantiation of C7: inserting a level-one heading between the
lines of a two-section document does not change the section mapping. -/
theorem level1_heading_no_boundary_witness :
    parseLines ([lit "## A", lit "x"] ++ lit "# Hello" :: [lit "y", lit "## B", lit "z"]) =
    parseLines ([lit "## A", lit "x"] ++ [lit "y", lit "## B", lit "z"]) :=
  level1_heading_no_boundary [lit "## A", lit "x"] [lit "y", lit "## B", lit "z"]
    (lit "# Hello") (lit "Hello") (by decide)

/-! ### Field extraction (`parser.py`, `extract_field_value` and the
project-type special case of `extract_basic_info`) -/

/-- Case-insensitive (ASCII) literal match of `field` against a prefix of
`s`, the effect of `re.IGNORECASE` on the field-name part of the pattern. -/
def ciPrefix (field s : Str) : Bool :=
  decide (lowerStr (s.take field.length) = lowerStr field ∧ field.length ≤ s.length)

/-- The checkbox-stripping substitution of `extract_field_value`
(`re.sub` of a leading checked or unchecked box, without `IGNORECASE`). -/
def stripCheckbox : Str → Str
  | '[' :: c :: ']' :: rest =>
    if c = ' ' ∨ c = 'x' then rest.dropWhile pyIsSpace else '[' :: c :: ']' :: rest
  | v => v

/-- Model of the per-line pattern of `extract_field_value` (`parser.py`):
an optional dash, whitespace, a double-star case-insensitive field label, a
colon, and a non-empty remainder; the value is stripped and a leading
checkbox token is removed. -/
def lineFieldValue (field line : Str) : Option Str :=
  let l := pyStrip line
  let l₁ := match l with
    | '-' :: r => r
    | r => r
  match l₁.dropWhile pyIsSpace with
  | '*' :: '*' :: r =>
    if ciPrefix field r then
      match r.drop field.length with
      | '*' :: '*' :: ':' :: rest =>
        if rest ≠ [] then some (stripCheckbox (pyStrip rest)) else none
      | _ => none
    else none
  | _ => none

/-- Model of `extract_field_value` (`parser.py`): the value of the first
matching line, or the empty string. -/
def extractFieldValue (text field : Str) : Str :=
  ((pySplitChar '\n' text).findSome? (lineFieldValue field)).getD []

/-- Does the (stripped) segment start with a checked box  `[x]`
(case-insensitively), as `re.match` of the project-type loop tests? -/
def startsCheckedBox : Str → Bool
  | '[' :: c :: ']' :: _ => c = 'x' || c = 'X'
  | _ => false

lemma dropWhile_length_le (p : Char → Bool) (l : List Char) :
    (l.dropWhile p).length ≤ l.length :=
  List.Sublist.length_le (List.dropWhile_sublist p)

/-- The cleaning substitution of the project-type loop (`extract_basic_info`,
`parser.py`): removes every `[x]` (case-insensitive) together with the
following whitespace run. -/
def removeCheckedBoxes : Str → Str
  | [] => []
  | '[' :: c :: ']' :: rest =>
    if c = 'x' ∨ c = 'X' then removeCheckedBoxes (rest.dropWhile pyIsSpace)
    else '[' :: removeCheckedBoxes (c :: ']' :: rest)
  | c :: rest => c :: removeCheckedBoxes rest
termination_by s => s.length
decreasing_by
  · simp only [List.length_cons]
    have := dropWhile_length_le pyIsSpace rest
    omega
  · simp only [List.length_cons]
    omega
  · simp only [List.length_cons]
    omega

/-- Classification of one (already stripped) `+`-segment of the project-type
line: checked segments keep their cleaned text, bare segments keep their
text, bracketed unchecked segments are dropped, as is an empty remainder. -/
def projectTypeSegment (p : Str) : Option Str :=
  if startsCheckedBox p then
    let cleaned := pyStrip (removeCheckedBoxes p)
    if cleaned ≠ [] then some cleaned else none
  else if (match p with | '[' :: _ => true | _ => false) then none
  else if p ≠ [] then some p else none

/-- The project-type collection loop of `extract_basic_info` (`parser.py`),
written as the source's for-loop with an accumulating list. -/
def projectTypeLoop : List Str → List Str
  | [] => []
  | part :: rest =>
    let p := pyStrip part
    if startsCheckedBox p then
      (let cleaned := pyStrip (removeCheckedBoxes p)
       if cleaned ≠ [] then cleaned :: projectTypeLoop rest else projectTypeLoop rest)
    else if (match p with | '[' :: _ => true | _ => false) then projectTypeLoop rest
    else if p ≠ [] then p :: projectTypeLoop rest else projectTypeLoop rest

/-- The project-type extraction of `extract_basic_info` (`parser.py`): the
field line is split on `+` and each stripped segment is classified. -/
def extractProjectType (basicInfoSection : Str) : List Str :=
  let line := extractFieldValue basicInfoSection (lit "Project Type")
  if line ≠ [] then projectTypeLoop (pySplitChar '+' line) else []

/-- C5: the collected project types are exactly the checked and bare
segments, in order (unchecked bracketed segments are excluded), and the
example line of the spec extracts exactly "CLI Tool". -/
theorem project_type_extraction :
    (∀ parts : List Str,
      projectTypeLoop parts = parts.filterMap (fun part => projectTypeSegment (pyStrip part))) ∧
    joinCommaSpace (extractProjectType
      (lit "- **Project Type**: [x] CLI Tool + [ ] Library")) = lit "CLI Tool" := by
  constructor
  · intro parts
    induction parts with
    | nil => rfl
    | cons part rest ih =>
      simp only [projectTypeLoop, List.filterMap_cons, ih]
      by_cases h₁ : startsCheckedBox (pyStrip part)
      · by_cases h₂ : pyStrip (removeCheckedBoxes (pyStrip part)) = []
        · simp [projectTypeSegment, h₁, h₂]
        · simp [projectTypeSegment, h₁, h₂]
      · cases hb : (match pyStrip part with | '[' :: _ => true | _ => false) with
        | true => simp [projectTypeSegment, h₁, hb]
        | false =>
          by_cases h₃ : pyStrip part = []
          · simp [projectTypeSegment, startsCheckedBox, removeCheckedBoxes, h₁, hb, h₃]
          · simp [projectTypeSegment, h₁, hb, h₃]
  · decide

/-! ### Brief assembly (`parser.py`, `convert_to_project_brief`) -/

/-- The output shape of `extract_basic_info` (`parser.py`): the scalar basic
fields plus the project-type list. -/
structure BasicInfoFields where
  project_name : Str
  project_type : List Str
  primary_goal : Str
  target_users : Str
  timeline : Str
  team_size : Str
deriving DecidableEq

/-- Model of `_get_string_field(data, name, required=True)` (`parser.py`) for
a string-valued field: empty after stripping is a hard error naming the
field, otherwise the stripped value. -/
def getRequiredStringField (v : Str) (name : String) : Except Str Str :=
  if pyStrip v = [] then
    .error (lit ("Required field " ++ name ++ " is missing or empty"))
  else .ok (pyStrip v)

/-- Model of `convert_to_project_brief` (`parser.py`), restricted to the
fields of the modelled `ProjectBrief`.  `team_size` follows the source's
"Optional fields" block: `_get_string_field` without `required`, then the
substitution of `"1"` for a blank value. -/
def convertToProjectBrief (basic : BasicInfoFields)
    (key_features nice_to_have must_use cannot_use deployment_target : List Str) :
    Except Str ProjectBrief := do
  let project_name ← getRequiredStringField basic.project_name "project_name"
  let primary_goal ← getRequiredStringField basic.primary_goal "primary_goal"
  let target_users ← getRequiredStringField basic.target_users "target_users"
  let timeline ← getRequiredStringField basic.timeline "timeline"
  let project_type ← (match basic.project_type with
    | [] => Except.error (lit "Required field project_type is missing or empty")
    | l => Except.ok (joinCommaSpace l))
  let team_size₀ := pyStrip basic.team_size
  let team_size := if pyStrip team_size₀ = [] then lit "1" else team_size₀
  .ok { project_name := project_name, project_type := project_type,
        primary_goal := primary_goal, target_users := target_users,
        timeline := timeline, team_size := team_size,
        key_features := key_features, nice_to_have_features := nice_to_have,
        must_use_tech := must_use, cannot_use_tech := cannot_use,
        deployment_target :=
          if deployment_target ≠ [] then some (joinCommaSpace deployment_target) else none }

deriving instance DecidableEq for Except

/-- Counterexample to C8 as stated: a brief whose extracted `team_size` is
empty converts successfully, with `"1"` substituted, instead of failing. -/
theorem team_size_not_required_cex :
    convertToProjectBrief
      { project_name := lit "Foo", project_type := [lit "CLI Tool"],
        primary_goal := lit "g", target_users := lit "u",
        timeline := lit "2 weeks", team_size := lit "  " } [] [] [] [] [] =
    .ok { project_name := lit "Foo", project_type := lit "CLI Tool",
          primary_goal := lit "g", target_users := lit "u",
          timeline := lit "2 weeks", team_size := lit "1",
          key_features := [], nice_to_have_features := [],
          must_use_tech := [], cannot_use_tech := [],
          deployment_target := none } := by decide

/-- C8 (amended): `team_size` is optional — a missing or whitespace-only
extracted `team_size` yields a brief with `team_size = "1"` and no error,
while the other required basic fields remain hard errors naming the field. -/
theorem team_size_defaults_to_one :
    (∀ (basic : BasicInfoFields) (kf nth mu cu dt : List Str),
      pyStrip basic.project_name ≠ [] → pyStrip basic.primary_goal ≠ [] →
      pyStrip basic.target_users ≠ [] → pyStrip basic.timeline ≠ [] →
      basic.project_type ≠ [] → pyStrip basic.team_size = [] →
      ∃ brief, convertToProjectBrief basic kf nth mu cu dt = .ok brief ∧
        brief.team_size = lit "1") ∧
    (∀ (basic : BasicInfoFields) (kf nth mu cu dt : List Str),
      pyStrip basic.project_name = [] →
      convertToProjectBrief basic kf nth mu cu dt =
        .error (lit "Required field project_name is missing or empty")) := by
  constructor
  · intro basic kf nth mu cu dt h1 h2 h3 h4 h5 h6
    cases hpt : basic.project_type with
    | nil => exact absurd hpt h5
    | cons a l =>
      have hconv : convertToProjectBrief basic kf nth mu cu dt =
          .ok { project_name := pyStrip basic.project_name,
                project_type := joinCommaSpace (a :: l),
                primary_goal := pyStrip basic.primary_goal,
                target_users := pyStrip basic.target_users,
                timeline := pyStrip basic.timeline,
                team_size := if pyStrip (pyStrip basic.team_size) = [] then lit "1"
                  else pyStrip basic.team_size,
                key_features := kf, nice_to_have_features := nth,
                must_use_tech := mu, cannot_use_tech := cu,
                deployment_target :=
                  if dt ≠ [] then some (joinCommaSpace dt) else none } := by
        unfold convertToProjectBrief getRequiredStringField
        rw [if_neg h1, if_neg h2, if_neg h3, if_neg h4, hpt]
        rfl
      refine ⟨_, hconv, ?_⟩
      rw [h6]
      rfl
  · intro basic kf nth mu cu dt h1
    unfold convertToProjectBrief getRequiredStringField
    rw [if_pos h1]
    rfl

/-- Concrete instantiation of the amended C8. -/
theorem team_size_defaults_to_one_witness :
    (∃ brief, convertToProjectBrief
      { project_name := lit "Foo", project_type := [lit "CLI Tool"],
        primary_goal := lit "g", target_users := lit "u",
        timeline := lit "2 weeks", team_size := lit " " } [] [] [] [] [] =
      .ok brief ∧ brief.team_size = lit "1") ∧
    convertToProjectBrief
      { project_name := lit "   ", project_type := [lit "CLI Tool"],
        primary_goal := lit "g", target_users := lit "u",
        timeline := lit "2 weeks", team_size := lit "3" } [] [] [] [] [] =
      .error (lit "Required field project_name is missing or empty") :=
  ⟨team_size_defaults_to_one.1 _ [] [] [] [] [] (by decide) (by decide) (by decide)
      (by decide) (by decide) (by decide),
    team_size_defaults_to_one.2 _ [] [] [] [] [] (by decide)⟩

/-! ### Subtask locator and patcher (`server.py`) -/

/-- First index whose suffix satisfies the matcher `m`: the position of the
first match of a regex search. -/
def findSuffix (m : Str → Bool) : Str → Option Nat
  | [] => if m [] then some 0 else none
  | c :: t => if m (c :: t) then some 0 else (findSuffix m t).map (· + 1)

/-- The literal subtask marker `**Subtask <id>:` searched by `content.find`
in `devplan_update_progress` (`server.py`). -/
def subtaskMarker (sid : Str) : Str := lit "**Subtask " ++ sid ++ [':']

/-- One-or-more digits followed by the continuation `next` (the regex
`\d+`, whose greedy run is followed by a non-digit in every use below). -/
def digitsThen (next : Str → Bool) (s : Str) : Bool :=
  let ds := s.takeWhile Char.isDigit
  decide (ds ≠ []) && next (s.drop ds.length)

/-- Does the regex `\*\*Subtask \d+\.\d+\.\d+:` match at the head of `s`? -/
def subtaskMarkerAt (s : Str) : Bool :=
  (lit "**Subtask ").isPrefixOf s &&
  digitsThen (fun r => match r with
    | '.' :: r₂ => digitsThen (fun r₃ => match r₃ with
        | '.' :: r₄ => digitsThen (fun r₅ => match r₅ with
            | ':' :: _ => true
            | _ => false) r₄
        | _ => false) r₂
    | _ => false) (s.drop 10)

/-- Does the regex `### Task \d+\.\d+:` match at the head of `s`? -/
def taskHeadingAt (s : Str) : Bool :=
  (lit "### Task ").isPrefixOf s &&
  digitsThen (fun r => match r with
    | '.' :: r₂ => digitsThen (fun r₃ => match r₃ with
        | ':' :: _ => true
        | _ => false) r₂
    | _ => false) (s.drop 9)

/-- A well-formed subtask id: the `models.py` pattern `^\d+\.\d+\.\d+$`. -/
def wellFormedSubtaskId (sid : Str) : Bool :=
  digitsThen (fun r => match r with
    | '.' :: r₂ => digitsThen (fun r₃ => match r₃ with
        | '.' :: r₄ => digitsThen (fun r₅ => decide (r₅ = [])) r₄
        | _ => false) r₂
    | _ => false) sid

/-- Does the gate regex `\*\*Subtask <id>:[^\*]+\*\*` of
`devplan_update_progress` and `_extract_subtask_from_plan` (`server.py`)
match at index `i`: the literal marker, a non-empty star-free run, then
`**`.  (The greedy star-free run admits no other match shape.) -/
def subtaskTitleGateAt (content sid : Str) (i : Nat) : Bool :=
  occursAt (subtaskMarker sid) content i &&
  (let rest := content.drop (i + (subtaskMarker sid).length)
   let run := rest.takeWhile (fun c => c != '*')
   decide (run ≠ []) && (lit "**").isPrefixOf (rest.drop run.length))

/-- First match position of the gate regex (`re.search`). -/
def findGate (content sid : Str) : Option Nat :=
  (List.range (content.length + 1)).find? (fun i => subtaskTitleGateAt content sid i)

/-- The `section_end` computation shared by the locator and the patcher
(`server.py`): the minimum of the document length, the next subtask-marker
match and the next task-heading match, both searched from ten characters
past the section start. -/
def sectionEndFrom (content : Str) (start : Nat) : Nat :=
  let tail := content.drop (start + 10)
  let e₁ := (findSuffix subtaskMarkerAt tail).map (fun r => start + 10 + r)
  let e₂ := (findSuffix taskHeadingAt tail).map (fun r => start + 10 + r)
  min (min content.length (e₁.getD content.length)) (e₂.getD content.length)

/-- Python `s.split(pat)[0]`: the text before the first occurrence of
`pat` (the whole of `s` when `pat` does not occur). -/
def beforeFirst (pat s : Str) : Str :=
  match findPat pat s with
  | some i => s.take i
  | none => s

/-- The view returned by `_extract_subtask_from_plan` (`server.py`),
restricted to the fields the claims inspect (the deliverable and
success-criteria list extraction is omitted). -/
structure SubtaskView where
  id : Str
  title : Str
  completed : Bool
deriving DecidableEq

/-- Model of `_extract_subtask_from_plan` (`server.py`): locate the first
match of the subtask title pattern, compute the section span, and derive the
completion flag (`[x]` occurs in the span and no `[ ]` occurs before the
first completion-notes marker).  A missing subtask yields `none`, the
structured error dictionary of the source, not an exception. -/
def extractSubtaskFromPlan (planContent sid : Str) : Option SubtaskView :=
  match findGate planContent sid with
  | none => none
  | some i =>
    let titleRun := (planContent.drop (i + (subtaskMarker sid).length)).takeWhile
      (fun c => c != '*')
    let e := sectionEndFrom planContent i
    let sect := (planContent.drop i).take (e - i)
    let completed := containsPat (lit "[x]") sect &&
      ! containsPat (lit "[ ]") (beforeFirst (lit "**Completion Notes**") sect)
    some { id := sid, title := pyStrip titleRun, completed := completed }

/-- The scanner of `re.sub` with a literal pattern: `skip` counts characters
of an already-replaced match still to be consumed silently.  Structural
recursion on the string keeps the definition computable by the kernel. -/
def raGo (pat repl : Str) : Str → Nat → Str
  | [], _ => []
  | _ :: t, k + 1 => raGo pat repl t k
  | c :: t, 0 =>
    if pat ≠ [] ∧ pat.isPrefixOf (c :: t) then
      repl ++ raGo pat repl t (pat.length - 1)
    else
      c :: raGo pat repl t 0

/-- Model of `re.sub` with a literal pattern: leftmost non-overlapping
replacement of every occurrence. -/
def replaceAll (pat repl s : Str) : Str := raGo pat repl s 0

lemma raGo_skip (pat repl : Str) : ∀ (t : Str) (k : Nat),
    raGo pat repl t k = raGo pat repl (t.drop k) 0 := by
  intro t
  induction t with
  | nil => intro k; cases k <;> rfl
  | cons c t ih =>
    intro k
    cases k with
    | zero => rfl
    | succ j => exact ih j

/-- The completion-notes leading literal. -/
def notesMarker : Str := lit "**Completion Notes**:"

/-- The fixed six-field completion-notes block of `devplan_update_progress`
(`server.py`), populated with the caller-supplied notes. -/
def notesBlock (sid notes : Str) : Str :=
  lit "**Completion Notes**:\n- **Implementation**: " ++ notes ++
  lit "\n- **Files Created**: (updated by Claude Code)\n- **Files Modified**: (updated by Claude Code)\n- **Tests**: (updated by Claude Code)\n- **Build**: ✅ Success\n- **Branch**: feature/" ++
  sid.map (fun c => if c = '.' then '-' else c) ++
  lit "\n- **Notes**: Marked complete via MCP\n\n"

/-- The lookahead `(?=---|\*\*Subtask|\Z)` of the completion-notes pattern
(end of string handled by the caller). -/
def notesStop (u : Str) : Bool :=
  (lit "---").isPrefixOf u || (lit "**Subtask").isPrefixOf u

/-- The scanner of `re.sub` with the completion-notes pattern, with a skip
counter for the remainder of a replaced match (structural recursion). -/
def nsGo (blk : Str) : Str → Nat → Str
  | [], _ => []
  | _ :: t, k + 1 => nsGo blk t k
  | c :: t, 0 =>
    if notesMarker.isPrefixOf (c :: t) then
      blk ++ nsGo blk t (notesMarker.length +
        ((findSuffix notesStop ((c :: t).drop notesMarker.length)).getD
          ((c :: t).drop notesMarker.length).length) - 1)
    else c :: nsGo blk t 0

/-- Model of `re.sub` with the completion-notes pattern
`(\*\*Completion Notes\*\*:.*?)(?=---|\*\*Subtask|\Z)` under `DOTALL`: each
occurrence of the marker extends minimally to the first stop position (or to
the end of the string) and the whole match is replaced by `blk`; scanning
resumes after the match. -/
def notesScan (blk s : Str) : Str := nsGo blk s 0

lemma nsGo_skip (blk : Str) : ∀ (t : Str) (k : Nat),
    nsGo blk t k = nsGo blk (t.drop k) 0 := by
  intro t
  induction t with
  | nil => intro k; cases k <;> rfl
  | cons c t ih =>
    intro k
    cases k with
    | zero => rfl
    | succ j => exact ih j

/-- A parsed item of an `re` replacement template (`re._parser.parse_template`):
a literal character or a capture-group reference. -/
inductive TemplTok where
  | litTok (c : Char)
  | groupTok (n : Nat)
deriving DecidableEq

/-- The replacement-template character escapes of `re._parser.ESCAPES`. -/
def templEscape (c : Char) : Option Char :=
  if c = 'a' then some '\x07'
  else if c = 'b' then some '\x08'
  else if c = 'f' then some '\x0c'
  else if c = 'n' then some '\n'
  else if c = 'r' then some '\r'
  else if c = 't' then some '\t'
  else if c = 'v' then some '\x0b'
  else if c = '\\' then some '\\'
  else none

def isOctDigit (c : Char) : Bool := '0' ≤ c && c ≤ '7'

def isAsciiLetter (c : Char) : Bool :=
  ('a' ≤ c && c ≤ 'z') || ('A' ≤ c && c ≤ 'Z')

/-- Numeric value of a run of decimal digits. -/
def digitsToNat (s : Str) : Nat := s.foldl (fun a c => a * 10 + (c.toNat - 48)) 0

/-- Numeric value of a run of octal digits. -/
def octToNat (s : Str) : Nat := s.foldl (fun a c => a * 8 + (c.toNat - 48)) 0

/-- Scanner state of the replacement-template parser: between tokens, after a
backslash, after `\g`, inside a `\g<...>` name, inside an octal escape
`\0...`, after a group-reference digit, or after two octal-compatible
digits awaiting a third. -/
inductive PTState where
  | plain
  | esc
  | gOpen
  | gName (acc : Str)
  | oct (ds : Str)
  | dig (c : Char)
  | digd (c d : Char)

/-- Consume one plain character: a backslash opens an escape, anything else
is a literal. -/
def ptPlain (c : Char) : List TemplTok × PTState :=
  if c = '\\' then ([], .esc) else ([.litTok c], .plain)

/-- One step of the template parser: the emitted tokens and the next state,
or `none` for the exceptions of `parse_template` (bad escape, bad or missing
group name, invalid group reference — the pattern has exactly one group —
and out-of-range octal escapes).  Group names are restricted to ASCII
digits. -/
def ptConsume (st : PTState) (c : Char) : Option (List TemplTok × PTState) :=
  match st with
  | .plain => some (ptPlain c)
  | .esc =>
    if c = 'g' then some ([], .gOpen)
    else if c = '0' then some ([], .oct [])
    else if c.isDigit then some ([], .dig c)
    else match templEscape c with
      | some e => some ([.litTok e], .plain)
      | none =>
        if isAsciiLetter c then none
        else some ([.litTok '\\', .litTok c], .plain)
  | .gOpen => if c = '<' then some ([], .gName []) else none
  | .gName acc =>
    if c = '>' then
      if acc ≠ [] ∧ acc.all Char.isDigit ∧ digitsToNat acc ≤ 1 then
        some ([.groupTok (digitsToNat acc)], .plain)
      else none
    else some ([], .gName (acc ++ [c]))
  | .oct ds =>
    if isOctDigit c ∧ ds.length < 2 then some ([], .oct (ds ++ [c]))
    else
      let (ts, st') := ptPlain c
      some (.litTok (Char.ofNat (octToNat ds)) :: ts, st')
  | .dig c₀ =>
    if c.isDigit then
      if isOctDigit c₀ ∧ isOctDigit c then some ([], .digd c₀ c) else none
    else if c₀ = '1' then
      let (ts, st') := ptPlain c
      some (.groupTok 1 :: ts, st')
    else none
  | .digd c₀ d₀ =>
    if isOctDigit c then
      let v := octToNat [c₀, d₀, c]
      if v ≤ 255 then some ([.litTok (Char.ofNat v)], .plain) else none
    else none

/-- Finalise the parser state at the end of the template. -/
def ptFinish : PTState → Option (List TemplTok)
  | .plain => some []
  | .esc => none
  | .gOpen => none
  | .gName _ => none
  | .oct ds => some [.litTok (Char.ofNat (octToNat ds))]
  | .dig c₀ => if c₀ = '1' then some [.groupTok 1] else none
  | .digd _ _ => none

/-- Run the template parser over the template string. -/
def ptGo (st : PTState) : Str → Option (List TemplTok)
  | [] => ptFinish st
  | c :: rest =>
    match ptConsume st c with
    | none => none
    | some (ts, st') => (ptGo st' rest).map (fun r => ts ++ r)

/-- Model of `re._parser.parse_template` for a pattern with exactly one
capture group: `none` is any of the exceptions the parser raises.  Python
parses the template before scanning for matches, so a bad template raises
even when the pattern never matches. -/
def parseTemplate (tpl : Str) : Option (List TemplTok) := ptGo .plain tpl

/-- Expand a parsed template at a match (`re._parser.expand_template`): for
the completion-notes pattern both group 0 (the whole match) and group 1 (the
parenthesised body, which spans the whole match since the lookahead is
zero-width) expand to the matched text `g1`. -/
def expandToks (g1 : Str) : List TemplTok → Str
  | [] => []
  | .litTok c :: ts => c :: expandToks g1 ts
  | .groupTok _ :: ts => g1 ++ expandToks g1 ts

lemma parseTemplate_no_backslash (tpl : Str) (h : ∀ c ∈ tpl, c ≠ '\\') :
    parseTemplate tpl = some (tpl.map TemplTok.litTok) := by
  unfold parseTemplate
  induction tpl with
  | nil => rfl
  | cons c t ih =>
    have hc : c ≠ '\\' := h c (List.mem_cons_self c t)
    have h1 : ptConsume .plain c = some ([.litTok c], .plain) := by
      unfold ptConsume ptPlain
      rw [if_neg hc]
    unfold ptGo
    rw [h1]
    show (ptGo PTState.plain t).map (fun r => [TemplTok.litTok c] ++ r) =
      some ((c :: t).map TemplTok.litTok)
    rw [ih fun x hx => h x (List.mem_cons_of_mem c hx), Option.map_some']
    rfl

lemma expandToks_map_lit (g1 tpl : Str) :
    expandToks g1 (tpl.map TemplTok.litTok) = tpl := by
  induction tpl with
  | nil => rfl
  | cons c t ih =>
    rw [List.map_cons]
    unfold expandToks
    rw [ih]

/-- The scanner of `re.sub` with the completion-notes pattern and a parsed
replacement template: each minimal match (marker to first stop sequence or
end of string) is replaced by the template expanded at the match, with a
skip counter keeping the recursion structural. -/
def nsGoE (toks : List TemplTok) : Str → Nat → Str
  | [], _ => []
  | _ :: t, k + 1 => nsGoE toks t k
  | c :: t, 0 =>
    if notesMarker.isPrefixOf (c :: t) then
      expandToks ((c :: t).take (notesMarker.length +
          ((findSuffix notesStop ((c :: t).drop notesMarker.length)).getD
            ((c :: t).drop notesMarker.length).length))) toks ++
        nsGoE toks t (notesMarker.length +
          ((findSuffix notesStop ((c :: t).drop notesMarker.length)).getD
            ((c :: t).drop notesMarker.length).length) - 1)
    else c :: nsGoE toks t 0

lemma nsGoE_skip (toks : List TemplTok) : ∀ (t : Str) (k : Nat),
    nsGoE toks t k = nsGoE toks (t.drop k) 0 := by
  intro t
  induction t with
  | nil => intro k; cases k <;> rfl
  | cons c t ih =>
    intro k
    cases k with
    | zero => rfl
    | succ j => exact ih j

/-- On a backslash-free template the expansion inserts the template verbatim,
so the template-aware scanner coincides with the literal scanner. -/
lemma nsGoE_map_lit (tpl : Str) : ∀ (s : Str) (k : Nat),
    nsGoE (tpl.map TemplTok.litTok) s k = nsGo tpl s k := by
  intro s
  induction s with
  | nil => intro k; cases k <;> rfl
  | cons c t ih =>
    intro k
    cases k with
    | succ j =>
      show nsGoE (tpl.map TemplTok.litTok) t j = nsGo tpl t j
      exact ih j
    | zero =>
      unfold nsGoE nsGo
      by_cases h : notesMarker.isPrefixOf (c :: t) = true
      · rw [if_pos h, if_pos h, expandToks_map_lit, ih]
      · rw [if_neg h, if_neg h, ih]

/-- The progress-tracking pattern `- [ ] <id>:` of `devplan_update_progress`
(`server.py`). -/
def trackPat (sid : Str) : Str := lit "- [ ] " ++ sid ++ [':']

/-- The tracking replacement `- [x] <id>:` (the backreference substitution
`\1x] \2`). -/
def trackRepl (sid : Str) : Str := lit "- [x] " ++ sid ++ [':']

/-- The completion-notes branch of `devplan_update_progress` (`server.py`):
when the notes pattern matches in the section (exactly when its leading
literal occurs, since the lookahead admits end-of-string), `re.sub` first
parses the replacement template — the block text with the caller-supplied
notes interpolated — raising `re.error` or `IndexError` (modelled `none`)
for bad escapes, bad group names or invalid group references, and otherwise
rewrites every minimal match with the template expanded at that match;
when the pattern does not match, the block is appended verbatim by string
concatenation after stripping trailing whitespace, with no template
processing. -/
def sectionNotesStep (blk updSection : Str) : Option Str :=
  if containsPat notesMarker updSection then
    (parseTemplate blk).map (fun toks => nsGoE toks updSection 0)
  else some (pyRstrip updSection ++ lit "\n\n" ++ blk)

/-- Result of `devplan_update_progress`: the not-found error return (the
source returns an error message string), a propagated exception from parsing
the completion-notes replacement template, or the updated document. -/
inductive UpdateResult where
  | notFound
  | raised
  | updated (doc : Str)
deriving DecidableEq

/-- Model of `devplan_update_progress` (`server.py`): gate on the title
regex, locate the section from the first literal marker occurrence, flip
every `[ ]` to `[x]` inside the section, rewrite or append the
completion-notes block, splice the section back, and flip the progress
tracking entry `- [ ] <id>:` everywhere in the spliced document.  (The
`findPat` fallback arm is unreachable: the gate implies the literal marker
occurs.) -/
def updateProgress (content sid notes : Str) : UpdateResult :=
  if (findGate content sid).isSome then
    match findPat (subtaskMarker sid) content with
    | none => .notFound
    | some p =>
      let e := sectionEndFrom content p
      let sect := (content.drop p).take (e - p)
      let upd := replaceAll (lit "[ ]") (lit "[x]") sect
      match sectionNotesStep (notesBlock sid notes) upd with
      | none => .raised
      | some upd₂ =>
        .updated (replaceAll (trackPat sid) (trackRepl sid)
          (content.take p ++ upd₂ ++ content.drop e))
  else .notFound

/-- The span of a subtask as the spec describes it: from its literal marker
to the next subtask or task marker or the end of the document (the span rule
of the locator and patcher). -/
def subtaskSpanText (content sid : Str) : Option Str :=
  (findPat (subtaskMarker sid) content).map (fun p =>
    (content.drop p).take (sectionEndFrom content p - p))

/-- The document of an update result (empty for the not-found error and for
a raised exception). -/
def updatedDoc : UpdateResult → Str
  | .notFound => []
  | .raised => []
  | .updated d => d

/-! ### Claim C6: not-found is non-exceptional -/

lemma findSuffix_eq_none (m : Str → Bool) (s : Str) (h : findSuffix m s = none) :
    ∀ i, m (s.drop i) = false := by
  induction s with
  | nil =>
    intro i
    unfold findSuffix at h
    simp only [List.drop_nil]
    by_cases hm : m [] = true
    · rw [if_pos hm] at h; cases h
    · simpa using hm
  | cons c t ih =>
    intro i
    unfold findSuffix at h
    by_cases hm : m (c :: t) = true
    · rw [if_pos hm] at h; cases h
    · rw [if_neg hm] at h
      cases i with
      | zero => simpa using hm
      | succ j =>
        have ht : findSuffix m t = none := by
          cases hft : findSuffix m t with
          | none => rfl
          | some k => rw [hft] at h; cases h
        simpa using ih ht j

lemma findPat_eq_findSuffix (pat s : Str) :
    findPat pat s = findSuffix (fun u => pat.isPrefixOf u) s := by
  induction s with
  | nil =>
    unfold findPat findSuffix
    cases pat <;> rfl
  | cons c t ih =>
    unfold findPat findSuffix
    rw [ih]

lemma gate_false_of_marker_absent (content sid : Str)
    (habs : findPat (subtaskMarker sid) content = none) :
    ∀ i, subtaskTitleGateAt content sid i = false := by
  intro i
  have hocc : occursAt (subtaskMarker sid) content i = false := by
    rw [findPat_eq_findSuffix] at habs
    exact findSuffix_eq_none _ _ habs i
  unfold subtaskTitleGateAt
  rw [hocc]
  rfl

lemma findGate_none_of_marker_absent (content sid : Str)
    (habs : findPat (subtaskMarker sid) content = none) :
    findGate content sid = none := by
  unfold findGate
  rw [List.find?_eq_none]
  intro i _
  simp [gate_false_of_marker_absent content sid habs i]

/-- C6: for every document and well-formed subtask id whose literal marker
does not occur in the document, the locator returns the structured not-found
value and the patcher returns the not-found result; neither raises. -/
theorem locate_and_patch_not_found (content sid notes : Str)
    (hwf : wellFormedSubtaskId sid = true)
    (habs : findPat (subtaskMarker sid) content = none) :
    extractSubtaskFromPlan content sid = none ∧
    updateProgress content sid notes = .notFound := by
  have hg := findGate_none_of_marker_absent content sid habs
  constructor
  · unfold extractSubtaskFromPlan
    rw [hg]
  · unfold updateProgress
    rw [hg]
    rfl

/-- Concrete instantiation of C6. -/
theorem locate_and_patch_not_found_witness :
    extractSubtaskFromPlan (lit "## Phase 0: Foundation\nno subtasks here") (lit "1.1.1") = none ∧
    updateProgress (lit "## Phase 0: Foundation\nno subtasks here") (lit "1.1.1") (lit "n") =
      .notFound :=
  locate_and_patch_not_found _ _ _ (by decide) (by decide)

/-! ### Claim C3: patch locality -/

lemma replaceAll_cons_pos (pat repl : Str) (c : Char) (t : Str)
    (h : pat ≠ [] ∧ pat.isPrefixOf (c :: t)) :
    replaceAll pat repl (c :: t) =
      repl ++ replaceAll pat repl ((c :: t).drop pat.length) := by
  unfold replaceAll
  rw [raGo, if_pos h, raGo_skip]
  rcases hpt : pat with _ | ⟨x, xs⟩
  · exact absurd hpt h.1
  · rfl

lemma replaceAll_cons_neg (pat repl : Str) (c : Char) (t : Str)
    (h : ¬(pat ≠ [] ∧ pat.isPrefixOf (c :: t))) :
    replaceAll pat repl (c :: t) = c :: replaceAll pat repl t := by
  unfold replaceAll
  rw [raGo, if_neg h]

lemma replaceAll_no_occ (pat repl b : Str)
    (hb : ∀ i, pat.isPrefixOf (b.drop i) = false) :
    replaceAll pat repl b = b := by
  induction b with
  | nil => rfl
  | cons c t ih =>
    rw [replaceAll_cons_neg]
    · rw [ih]
      intro i
      have := hb (i + 1)
      simpa using this
    · rintro ⟨-, hpre⟩
      have := hb 0
      simp only [List.drop_zero] at this
      rw [this] at hpre
      cases hpre

lemma findPat_le_length (pat s : Str) (i : Nat) (h : findPat pat s = some i) :
    i ≤ s.length := by
  induction s generalizing i with
  | nil =>
    unfold findPat at h
    by_cases he : pat.isEmpty
    · rw [if_pos he] at h
      cases h
      exact Nat.le_refl 0
    · rw [if_neg he] at h
      cases h
  | cons c t ih =>
    unfold findPat at h
    by_cases hp : pat.isPrefixOf (c :: t)
    · rw [if_pos hp] at h
      cases h
      exact Nat.zero_le _
    · rw [if_neg hp] at h
      cases hft : findPat pat t with
      | none => rw [hft] at h; cases h
      | some j =>
        rw [hft] at h
        cases h
        have := ih j hft
        simp only [List.length_cons]
        omega

lemma findSuffix_some (m : Str → Bool) (s : Str) (i : Nat)
    (h : findSuffix m s = some i) : m (s.drop i) = true := by
  induction s generalizing i with
  | nil =>
    unfold findSuffix at h
    by_cases hm : m [] = true
    · rw [if_pos hm] at h
      cases h
      simpa using hm
    · rw [if_neg (by simpa using hm)] at h
      cases h
  | cons c t ih =>
    unfold findSuffix at h
    by_cases hm : m (c :: t) = true
    · rw [if_pos hm] at h
      cases h
      simpa using hm
    · rw [if_neg hm] at h
      cases hft : findSuffix m t with
      | none => rw [hft] at h; cases h
      | some j =>
        rw [hft] at h
        cases h
        simpa using ih j hft

/-- The main frame lemma for `re.sub` with a literal pattern: a suffix `b`
that contains no occurrence of the pattern and starts with a character the
pattern does not contain (or is empty) is returned verbatim, and no
replacement can straddle the boundary. -/
lemma replaceAll_append_noocc (pat repl b : Str)
    (hpat : ∀ c ∈ pat, c ≠ '*' ∧ c ≠ '#')
    (hb : ∀ i, pat.isPrefixOf (b.drop i) = false)
    (hhead : b = [] ∨ ∃ t, b = '*' :: t ∨ b = '#' :: t) :
    ∀ a : Str, replaceAll pat repl (a ++ b) = replaceAll pat repl a ++ b := by
  have main : ∀ n (a : Str), a.length = n →
      replaceAll pat repl (a ++ b) = replaceAll pat repl a ++ b := by
    intro n
    induction n using Nat.strong_induction_on with
    | _ n ih =>
      intro a hlen
      cases a with
      | nil =>
        have h0 : replaceAll pat repl ([] : Str) = [] := rfl
        rw [List.nil_append, h0, List.nil_append]
        exact replaceAll_no_occ pat repl b hb
      | cons c a' =>
        rw [List.cons_append]
        by_cases hp : pat ≠ [] ∧ pat.isPrefixOf (c :: (a' ++ b))
        · have hpre : pat <+: (c :: (a' ++ b)) := (List.isPrefixOf_iff_prefix).mp hp.2
          have hple : pat.length ≤ a'.length + 1 := by
            by_contra hgt
            push_neg at hgt
            have hlb : pat.length ≤ (c :: (a' ++ b)).length := hpre.length_le
            have hbne : b ≠ [] := by
              intro hbe
              rw [hbe] at hlb
              simp only [List.append_nil, List.length_cons] at hlb
              omega
            obtain ⟨d, t, hbd⟩ : ∃ d t, b = d :: t := by
              cases b with
              | nil => exact absurd rfl hbne
              | cons d t => exact ⟨d, t, rfl⟩
            have hget : pat[a'.length + 1]? = some d := by
              obtain ⟨tl, htl⟩ := hpre
              have h1 : pat[a'.length + 1]? = (c :: (a' ++ b))[a'.length + 1]? := by
                rw [← htl, List.getElem?_append_left hgt]
              rw [h1, show (c :: (a' ++ b)) = (c :: a') ++ b from by rw [List.cons_append],
                List.getElem?_append_right (by simp)]
              simp [hbd]
            have hdmem : d ∈ pat := List.getElem?_mem hget
            rcases hhead with hnil | ⟨t', ht' | ht'⟩
            · rw [hnil] at hbd; cases hbd
            · rw [ht'] at hbd
              exact (hpat d hdmem).1 ((List.cons.injEq _ _ _ _).mp hbd.symm).1
            · rw [ht'] at hbd
              exact (hpat d hdmem).2 ((List.cons.injEq _ _ _ _).mp hbd.symm).1
          have hpa : pat.isPrefixOf (c :: a') := by
            have hpt := List.prefix_iff_eq_take.mp hpre
            have h2 : (c :: (a' ++ b)).take pat.length = (c :: a').take pat.length := by
              rw [show (c :: (a' ++ b)) = (c :: a') ++ b from by rw [List.cons_append]]
              exact List.take_append_of_le_length (by simpa using hple)
            exact List.isPrefixOf_iff_prefix.mpr
              (List.prefix_iff_eq_take.mpr (hpt.trans h2))
          rw [replaceAll_cons_pos pat repl _ _ ⟨hp.1, hp.2⟩,
              replaceAll_cons_pos pat repl _ _ ⟨hp.1, hpa⟩]
          have hdrop : (c :: (a' ++ b)).drop pat.length = (c :: a').drop pat.length ++ b := by
            rw [show (c :: (a' ++ b)) = (c :: a') ++ b from by rw [List.cons_append],
              List.drop_append_of_le_length (by simpa using hple)]
          rw [hdrop]
          have hpz : 0 < pat.length := by
            cases hpt : pat with
            | nil => exact absurd hpt hp.1
            | cons x xs => simp
          have hlt : ((c :: a').drop pat.length).length < n := by
            simp only [List.length_drop, List.length_cons]
            simp only [List.length_cons] at hlen
            omega
          rw [ih _ hlt _ rfl, List.append_assoc]
        · have hp' : ¬(pat ≠ [] ∧ pat.isPrefixOf (c :: a')) := by
            rintro ⟨hne, hpre'⟩
            apply hp
            refine ⟨hne, ?_⟩
            rw [List.isPrefixOf_iff_prefix] at hpre' ⊢
            exact hpre'.trans (List.prefix_append (c :: a') b)
          rw [replaceAll_cons_neg pat repl _ _ hp, replaceAll_cons_neg pat repl _ _ hp']
          have hlt : a'.length < n := by simp only [List.length_cons] at hlen; omega
          rw [ih _ hlt _ rfl]
          rfl
  intro a
  exact main a.length a rfl

lemma head_of_subtaskMarkerAt (b : Str) (h : subtaskMarkerAt b = true) :
    ∃ t, b = '*' :: t := by
  unfold subtaskMarkerAt at h
  rw [Bool.and_eq_true] at h
  cases b with
  | nil => exact absurd h.1 (by decide)
  | cons d t =>
    obtain ⟨tl, htl⟩ := List.isPrefixOf_iff_prefix.mp h.1
    rw [show lit "**Subtask " = '*' :: lit "*Subtask " from by decide,
      List.cons_append] at htl
    have hd : d = '*' := (((List.cons.injEq _ _ _ _).mp htl).1).symm
    subst hd
    exact ⟨t, rfl⟩

lemma head_of_taskHeadingAt (b : Str) (h : taskHeadingAt b = true) :
    ∃ t, b = '#' :: t := by
  unfold taskHeadingAt at h
  rw [Bool.and_eq_true] at h
  cases b with
  | nil => exact absurd h.1 (by decide)
  | cons d t =>
    obtain ⟨tl, htl⟩ := List.isPrefixOf_iff_prefix.mp h.1
    rw [show lit "### Task " = '#' :: lit "## Task " from by decide,
      List.cons_append] at htl
    have hd : d = '#' := (((List.cons.injEq _ _ _ _).mp htl).1).symm
    subst hd
    exact ⟨t, rfl⟩

lemma sectionEnd_cases (content : Str) (p : Nat) :
    sectionEndFrom content p = content.length ∨
    subtaskMarkerAt (content.drop (sectionEndFrom content p)) = true ∨
    taskHeadingAt (content.drop (sectionEndFrom content p)) = true := by
  have he : sectionEndFrom content p =
      min (min content.length
        (((findSuffix subtaskMarkerAt (content.drop (p + 10))).map
          (fun r => p + 10 + r)).getD content.length))
        (((findSuffix taskHeadingAt (content.drop (p + 10))).map
          (fun r => p + 10 + r)).getD content.length) := rfl
  cases h₁ : findSuffix subtaskMarkerAt (content.drop (p + 10)) with
  | none =>
    cases h₂ : findSuffix taskHeadingAt (content.drop (p + 10)) with
    | none =>
      left
      rw [he, h₁, h₂]
      simp
    | some r₂ =>
      have hm₂ := findSuffix_some _ _ _ h₂
      rw [List.drop_drop] at hm₂
      rw [he, h₁, h₂]
      simp only [Option.map_none', Option.map_some', Option.getD_none, Option.getD_some]
      rcases Nat.le_total content.length (p + 10 + r₂) with hle | hle
      · left; omega
      · right; right
        rw [show min (min content.length content.length) (p + 10 + r₂) = p + 10 + r₂
          from by omega]
        exact hm₂
  | some r₁ =>
    have hm₁ := findSuffix_some _ _ _ h₁
    rw [List.drop_drop] at hm₁
    cases h₂ : findSuffix taskHeadingAt (content.drop (p + 10)) with
    | none =>
      rw [he, h₁, h₂]
      simp only [Option.map_none', Option.map_some', Option.getD_none, Option.getD_some]
      rcases Nat.le_total content.length (p + 10 + r₁) with hle | hle
      · left; omega
      · right; left
        rw [show min (min content.length (p + 10 + r₁)) content.length = p + 10 + r₁
          from by omega]
        exact hm₁
    | some r₂ =>
      have hm₂ := findSuffix_some _ _ _ h₂
      rw [List.drop_drop] at hm₂
      rw [he, h₁, h₂]
      simp only [Option.map_some', Option.getD_some]
      rcases Nat.lt_trichotomy (p + 10 + r₁) (p + 10 + r₂) with hlt | heq | hgt
      · rcases Nat.le_total content.length (p + 10 + r₁) with hle | hle
        · left; omega
        · right; left
          rw [show min (min content.length (p + 10 + r₁)) (p + 10 + r₂) = p + 10 + r₁
            from by omega]
          exact hm₁
      · rcases Nat.le_total content.length (p + 10 + r₁) with hle | hle
        · left; omega
        · right; left
          rw [show min (min content.length (p + 10 + r₁)) (p + 10 + r₂) = p + 10 + r₁
            from by omega]
          exact hm₁
      · rcases Nat.le_total content.length (p + 10 + r₂) with hle | hle
        · left; omega
        · right; right
          rw [show min (min content.length (p + 10 + r₁)) (p + 10 + r₂) = p + 10 + r₂
            from by omega]
          exact hm₂

lemma drop_takeWhile_length (p : Char → Bool) (l : Str) :
    l.drop (l.takeWhile p).length = l.dropWhile p := by
  induction l with
  | nil => rfl
  | cons c t ih =>
    by_cases h : p c
    · simp [List.takeWhile_cons, List.dropWhile_cons, h, ih]
    · simp [List.takeWhile_cons, List.dropWhile_cons, h]

lemma wellFormed_sid_chars (sid : Str) (h : wellFormedSubtaskId sid = true) :
    ∀ c ∈ sid, c.isDigit = true ∨ c = '.' := by
  unfold wellFormedSubtaskId digitsThen at h
  simp only [Bool.and_eq_true, decide_eq_true_eq] at h
  obtain ⟨-, h₂⟩ := h
  rw [drop_takeWhile_length] at h₂
  split at h₂
  case h_2 => cases h₂
  case h_1 r₂ heq =>
    simp only [Bool.and_eq_true, decide_eq_true_eq] at h₂
    obtain ⟨-, h₄⟩ := h₂
    rw [drop_takeWhile_length] at h₄
    split at h₄
    case h_2 => cases h₄
    case h_1 r₄ heq₂ =>
      simp only [Bool.and_eq_true, decide_eq_true_eq] at h₄
      obtain ⟨-, h₆⟩ := h₄
      rw [drop_takeWhile_length] at h₆
      intro c hc
      rw [← List.takeWhile_append_dropWhile (p := Char.isDigit) (l := sid), heq,
        List.mem_append] at hc
      rcases hc with hc | hc
      · exact Or.inl (List.mem_takeWhile_imp hc)
      · rcases List.mem_cons.mp hc with hc | hc
        · exact Or.inr hc
        · rw [← List.takeWhile_append_dropWhile (p := Char.isDigit) (l := r₂), heq₂,
            List.mem_append] at hc
          rcases hc with hc | hc
          · exact Or.inl (List.mem_takeWhile_imp hc)
          · rcases List.mem_cons.mp hc with hc | hc
            · exact Or.inr hc
            · rw [← List.takeWhile_append_dropWhile (p := Char.isDigit) (l := r₄), h₆,
                List.append_nil] at hc
              exact Or.inl (List.mem_takeWhile_imp hc)

lemma trackPat_chars (sid : Str) (h : wellFormedSubtaskId sid = true) :
    ∀ c ∈ trackPat sid, c ≠ '*' ∧ c ≠ '#' := by
  intro c hc
  unfold trackPat at hc
  rw [List.mem_append, List.mem_append] at hc
  rcases hc with (hc | hc) | hc
  · have hall : ∀ x ∈ lit "- [ ] ", x ≠ '*' ∧ x ≠ '#' := by decide
    exact hall c hc
  · rcases wellFormed_sid_chars sid h c hc with hd | hd
    · constructor
      · intro he; rw [he] at hd; cases hd
      · intro he; rw [he] at hd; cases hd
    · rw [hd]; decide
  · rcases List.mem_cons.mp hc with hc | hc
    · rw [hc]; decide
    · cases hc

/-- A document with subtasks 1.1.1 and 1.1.2 adjacent, where 1.1.2's span
contains the literal text `- [ ] 1.1.1:`. -/
def c3doc : Str :=
  lit "**Subtask 1.1.1: A**\n- [ ] d1\n**Subtask 1.1.2: B**\n- [ ] 1.1.1: w\n"

set_option maxRecDepth 8000 in
/-- Counterexample to C3 as stated: patching subtask 1.1.1 changes a byte
inside the adjacent subtask 1.1.2's span, because the progress-tracking
substitution rewrites `- [ ] 1.1.1:` anywhere in the document, including
inside 1.1.2's span. -/
theorem update_progress_locality_cex :
    updateProgress c3doc (lit "1.1.1") (lit "n") ≠ .notFound ∧
    subtaskSpanText (updatedDoc (updateProgress c3doc (lit "1.1.1") (lit "n")))
        (lit "1.1.2") ≠
      subtaskSpanText c3doc (lit "1.1.2") := by decide

lemma updateProgress_eq (content sid notes : Str) (p : Nat) (u₂ : Str)
    (hgate : (findGate content sid).isSome = true)
    (hp : findPat (subtaskMarker sid) content = some p)
    (hns : sectionNotesStep (notesBlock sid notes)
      (replaceAll (lit "[ ]") (lit "[x]")
        ((content.drop p).take (sectionEndFrom content p - p))) = some u₂) :
    updateProgress content sid notes =
      .updated (replaceAll (trackPat sid) (trackRepl sid)
        (content.take p ++ u₂ ++ content.drop (sectionEndFrom content p))) := by
  unfold updateProgress
  rw [if_pos hgate, hp]
  show (match sectionNotesStep (notesBlock sid notes)
      (replaceAll (lit "[ ]") (lit "[x]")
        ((content.drop p).take (sectionEndFrom content p - p))) with
    | none => UpdateResult.raised
    | some upd₂ => UpdateResult.updated (replaceAll (trackPat sid) (trackRepl sid)
        (content.take p ++ upd₂ ++ content.drop (sectionEndFrom content p)))) =
    UpdateResult.updated (replaceAll (trackPat sid) (trackRepl sid)
      (content.take p ++ u₂ ++ content.drop (sectionEndFrom content p)))
  rw [hns]

set_option maxRecDepth 4000 in
/-- Dots map to dashes and digits to themselves, so the branch segment of a
well-formed id is backslash-free; the fixed block text is backslash-free;
hence the whole replacement template is backslash-free exactly when the
caller-supplied notes are. -/
lemma notesBlock_no_backslash (sid notes : Str)
    (hsid : wellFormedSubtaskId sid = true)
    (hn : ∀ c ∈ notes, c ≠ '\\') :
    ∀ c ∈ notesBlock sid notes, c ≠ '\\' := by
  intro c hc
  unfold notesBlock at hc
  simp only [List.mem_append] at hc
  rcases hc with ((((hc | hc) | hc) | hc) | hc)
  · have hall : ∀ x ∈ lit "**Completion Notes**:\n- **Implementation**: ", x ≠ '\\' := by
      decide
    exact hall c hc
  · exact hn c hc
  · have hall : ∀ x ∈ lit "\n- **Files Created**: (updated by Claude Code)\n- **Files Modified**: (updated by Claude Code)\n- **Tests**: (updated by Claude Code)\n- **Build**: ✅ Success\n- **Branch**: feature/", x ≠ '\\' := by
      decide
    exact hall c hc
  · rw [List.mem_map] at hc
    obtain ⟨a, ha, rfl⟩ := hc
    rcases wellFormed_sid_chars sid hsid a ha with hd | hd
    · by_cases hdot : a = '.'
      · rw [if_pos hdot]; decide
      · rw [if_neg hdot]
        intro he; rw [he] at hd; cases hd
    · rw [hd]; decide
  · have hall : ∀ x ∈ lit "\n- **Notes**: Marked complete via MCP\n\n", x ≠ '\\' := by
      decide
    exact hall c hc

/-- A backslash-free replacement template parses to its own literals, so the
notes step never raises and reduces to the literal scanner. -/
lemma sectionNotesStep_some (blk upd : Str) (h : ∀ c ∈ blk, c ≠ '\\') :
    sectionNotesStep blk upd = some
      (if containsPat notesMarker upd then notesScan blk upd
       else pyRstrip upd ++ lit "\n\n" ++ blk) := by
  unfold sectionNotesStep
  by_cases hc : containsPat notesMarker upd = true
  · rw [if_pos hc, if_pos hc, parseTemplate_no_backslash blk h, Option.map_some']
    unfold notesScan
    rw [nsGoE_map_lit]
  · rw [if_neg hc, if_neg hc]

lemma le_sectionEnd (content : Str) (q : Nat) (hq : q ≤ content.length) :
    q ≤ sectionEndFrom content q := by
  have he : sectionEndFrom content q =
      min (min content.length
        (((findSuffix subtaskMarkerAt (content.drop (q + 10))).map
          (fun r => q + 10 + r)).getD content.length))
        (((findSuffix taskHeadingAt (content.drop (q + 10))).map
          (fun r => q + 10 + r)).getD content.length) := rfl
  rw [he]
  cases h₁ : findSuffix subtaskMarkerAt (content.drop (q + 10)) <;>
    cases h₂ : findSuffix taskHeadingAt (content.drop (q + 10)) <;>
    simp only [Option.map_none', Option.map_some', Option.getD_none, Option.getD_some] <;>
    omega

/-- C3 (amended): patching a subtask leaves the entire text from the end of
its span (which is at or before the next subtask's marker) to the end of the
document unchanged, provided the tracking pattern `- [ ] <id>:` does not
occur in that suffix; in particular the span of every subtask whose marker
sits at or after that point — such as an adjacent following subtask — is
reproduced verbatim in the output, followed by the unchanged remainder. -/
theorem update_progress_locality (content sid notes : Str) (p : Nat)
    (hwf : wellFormedSubtaskId sid = true)
    (hnb : ∀ c ∈ notes, c ≠ '\\')
    (hp : findPat (subtaskMarker sid) content = some p)
    (hgate : (findGate content sid).isSome = true)
    (hno : containsPat (trackPat sid) (content.drop (sectionEndFrom content p)) = false) :
    ∃ u, updateProgress content sid notes =
        .updated (u ++ content.drop (sectionEndFrom content p)) ∧
      ∀ sid₂ q, findPat (subtaskMarker sid₂) content = some q →
        sectionEndFrom content p ≤ q →
        ∃ v, updateProgress content sid notes =
          .updated (v ++ (subtaskSpanText content sid₂).getD [] ++
            content.drop (sectionEndFrom content q)) := by
  have hnoP : ∀ i, (trackPat sid).isPrefixOf
      ((content.drop (sectionEndFrom content p)).drop i) = false := by
    intro i
    unfold containsPat at hno
    rw [findPat_eq_findSuffix] at hno
    have hnone : findSuffix (fun u => (trackPat sid).isPrefixOf u)
        (content.drop (sectionEndFrom content p)) = none := by
      cases hfs : findSuffix (fun u => (trackPat sid).isPrefixOf u)
          (content.drop (sectionEndFrom content p)) with
      | none => rfl
      | some k => rw [hfs] at hno; cases hno
    exact findSuffix_eq_none _ _ hnone i
  have hhead : content.drop (sectionEndFrom content p) = [] ∨
      ∃ t, content.drop (sectionEndFrom content p) = '*' :: t ∨
        content.drop (sectionEndFrom content p) = '#' :: t := by
    rcases sectionEnd_cases content p with hc | hc | hc
    · left; rw [hc]; exact List.drop_length content
    · right
      obtain ⟨t, ht⟩ := head_of_subtaskMarkerAt _ hc
      exact ⟨t, Or.inl ht⟩
    · right
      obtain ⟨t, ht⟩ := head_of_taskHeadingAt _ hc
      exact ⟨t, Or.inr ht⟩
  have hsplit := replaceAll_append_noocc (trackPat sid) (trackRepl sid)
    (content.drop (sectionEndFrom content p)) (trackPat_chars sid hwf) hnoP hhead
  obtain ⟨u₂, hns⟩ : ∃ u₂, sectionNotesStep (notesBlock sid notes)
      (replaceAll (lit "[ ]") (lit "[x]")
        ((content.drop p).take (sectionEndFrom content p - p))) = some u₂ :=
    ⟨_, sectionNotesStep_some _ _ (notesBlock_no_backslash sid notes hwf hnb)⟩
  have hchar := updateProgress_eq content sid notes p u₂ hgate hp hns
  refine ⟨replaceAll (trackPat sid) (trackRepl sid) (content.take p ++ u₂), ?_, ?_⟩
  · rw [hchar, hsplit]
  · intro sid₂ q hq hle
    have hqlen : q ≤ content.length := findPat_le_length _ _ _ hq
    have hqe : q ≤ sectionEndFrom content q := le_sectionEnd content q hqlen
    have hd1 : content.drop (sectionEndFrom content p) =
        (content.drop (sectionEndFrom content p)).take (q - sectionEndFrom content p) ++
          content.drop q := by
      conv_lhs => rw [← List.take_append_drop (q - sectionEndFrom content p)
        (content.drop (sectionEndFrom content p))]
      rw [List.drop_drop, show sectionEndFrom content p + (q - sectionEndFrom content p) = q
        from by omega]
    have hspan : (subtaskSpanText content sid₂).getD [] =
        (content.drop q).take (sectionEndFrom content q - q) := by
      unfold subtaskSpanText
      rw [hq]
      rfl
    have hd2 : content.drop q =
        (content.drop q).take (sectionEndFrom content q - q) ++
          content.drop (sectionEndFrom content q) := by
      conv_lhs => rw [← List.take_append_drop (sectionEndFrom content q - q)
        (content.drop q)]
      rw [List.drop_drop, show q + (sectionEndFrom content q - q) = sectionEndFrom content q
        from by omega]
    refine ⟨replaceAll (trackPat sid) (trackRepl sid) (content.take p ++ u₂) ++
        (content.drop (sectionEndFrom content p)).take (q - sectionEndFrom content p), ?_⟩
    rw [hchar, hsplit]
    congr 1
    rw [hspan]
    conv_lhs => rw [hd1, hd2]
    simp [List.append_assoc]

/-- Concrete instantiation of the amended C3 on a document with adjacent
subtasks 1.1.1 and 1.1.2 and no stray tracking text. -/
theorem update_progress_locality_witness :
    ∃ u, updateProgress (lit "**Subtask 1.1.1: A**\n- [ ] d\n**Subtask 1.1.2: B**\n- [ ] e\n")
        (lit "1.1.1") (lit "note") =
        .updated (u ++ (lit "**Subtask 1.1.1: A**\n- [ ] d\n**Subtask 1.1.2: B**\n- [ ] e\n").drop
          (sectionEndFrom (lit "**Subtask 1.1.1: A**\n- [ ] d\n**Subtask 1.1.2: B**\n- [ ] e\n") 0)) ∧
      ∀ sid₂ q, findPat (subtaskMarker sid₂)
          (lit "**Subtask 1.1.1: A**\n- [ ] d\n**Subtask 1.1.2: B**\n- [ ] e\n") = some q →
        sectionEndFrom (lit "**Subtask 1.1.1: A**\n- [ ] d\n**Subtask 1.1.2: B**\n- [ ] e\n") 0 ≤ q →
        ∃ v, updateProgress (lit "**Subtask 1.1.1: A**\n- [ ] d\n**Subtask 1.1.2: B**\n- [ ] e\n")
            (lit "1.1.1") (lit "note") =
          .updated (v ++ (subtaskSpanText
              (lit "**Subtask 1.1.1: A**\n- [ ] d\n**Subtask 1.1.2: B**\n- [ ] e\n") sid₂).getD [] ++
            (lit "**Subtask 1.1.1: A**\n- [ ] d\n**Subtask 1.1.2: B**\n- [ ] e\n").drop
              (sectionEndFrom (lit "**Subtask 1.1.1: A**\n- [ ] d\n**Subtask 1.1.2: B**\n- [ ] e\n") q)) :=
  update_progress_locality _ _ _ 0 (by decide) (by decide) (by decide) (by decide) (by decide)

/-! ### Claim C9: circular-dependency detection (`models.py`,
`DevelopmentPlan.validate_circular_dependencies`) -/

/-- Model of `prereq_graph` construction: `prereq_graph[subtask.id] =
subtask.prerequisites` over the plan traversal, with dict upsert
semantics. -/
def prereqGraph (plan : DevelopmentPlan) : List (Str × List Str) :=
  plan.phases.foldl (fun g phase =>
    phase.tasks.foldl (fun g task =>
      task.subtasks.foldl (fun g st => upsert st.id st.prerequisites g) g) g) []

/-- Model of `prereq_graph.get(node, [])`. -/
def lookupG (g : List (Str × List Str)) (n : Str) : List Str :=
  ((g.find? (fun e => decide (e.1 = n))).map Prod.snd).getD []

/-- One neighbor step of the `has_cycle` loop (`models.py`): a visited
neighbor on the recursion stack signals a cycle; a visited neighbor off the
stack is skipped; an unvisited neighbor is explored through `rec`.  A
signalled cycle short-circuits the remaining neighbors. -/
def cycleStepF (rec : Str → List Str → List Str → Bool × List Str × List Str)
    (acc : Bool × List Str × List Str) (m : Str) : Bool × List Str × List Str :=
  match acc with
  | (true, v, s) => (true, v, s)
  | (false, v, s) =>
    if m ∈ v then
      (if m ∈ s then (true, v, s) else (false, v, s))
    else rec m v s

/-- Model of `has_cycle` (`models.py`) with explicit state passing of the
shared mutable `visited` and `rec_stack` sets.  The fuel argument bounds the
recursion depth; since every recursive call enters an unvisited node and
adds it to `visited`, a fuel exceeding the number of node occurrences in the
graph is never exhausted (exhaustion conservatively reports a cycle).  As in
the source, the recursion stack is popped only on a `False` return. -/
def hasCycleNode (g : List (Str × List Str)) (fuel : Nat) (node : Str)
    (v s : List Str) : Bool × List Str × List Str :=
  match fuel with
  | 0 => (true, v, s)
  | fuel' + 1 =>
    match (lookupG g node).foldl
        (cycleStepF (fun m v s => hasCycleNode g fuel' m v s))
        (false, node :: v, node :: s) with
    | (true, v', s') => (true, v', s')
    | (false, v', s') => (false, v', s'.erase node)

/-- The error message appended per cycle-reporting entry point. -/
def cycleMsg (sid : Str) : Str :=
  lit "Circular dependency detected involving subtask " ++ sid

/-- One iteration of the outer loop of `validate_circular_dependencies`:
skip visited keys, otherwise run the traversal and report on `True`. -/
def cycleLoopStep (g : List (Str × List Str)) (fuel : Nat)
    (acc : List Str × List Str × List Str) (sid : Str) :
    List Str × List Str × List Str :=
  match acc with
  | (errors, v, s) =>
    if sid ∈ v then (errors, v, s)
    else
      match hasCycleNode g fuel sid v s with
      | (true, v', s') => (errors ++ [cycleMsg sid], v', s')
      | (false, v', s') => (errors, v', s')

/-- A fuel bound exceeding every possible recursion depth of `has_cycle`. -/
def graphFuel (g : List (Str × List Str)) : Nat :=
  (g.map (fun e => e.2.length)).sum + g.length + 1

/-- Model of `DevelopmentPlan.validate_circular_dependencies`
(`models.py`). -/
def validateCircularDependencies (plan : DevelopmentPlan) : List Str :=
  let g := prereqGraph plan
  (((g.map Prod.fst).foldl (cycleLoopStep g (graphFuel g)) ([], [], []))).1

/-- Paths of the prerequisite graph (reflexive-transitive closure of the
prerequisite edges). -/
inductive PathG (g : List (Str × List Str)) : Str → Str → Prop
  | refl (a : Str) : PathG g a a
  | step {a b c : Str} : b ∈ lookupG g a → PathG g b c → PathG g a c

/-- A cycle through node `n`: an edge from `n` into a path returning
to `n`. -/
def CycleThroughG (g : List (Str × List Str)) (n : Str) : Prop :=
  ∃ m, m ∈ lookupG g n ∧ PathG g m n

/-- The graph contains a cycle. -/
def HasCycleG (g : List (Str × List Str)) : Prop :=
  ∃ n, CycleThroughG g n

/-- The DFS invariant: the recursion stack is visited; every prerequisite of
a finished (visited, off-stack) node is itself finished; no finished node
lies on a cycle. -/
def GoodDFS (g : List (Str × List Str)) (V S : List Str) : Prop :=
  (∀ x ∈ S, x ∈ V) ∧
  (∀ x ∈ V, x ∉ S → ∀ y ∈ lookupG g x, y ∈ V ∧ y ∉ S) ∧
  (∀ x ∈ V, x ∉ S → ¬ CycleThroughG g x)

lemma black_path_black (g : List (Str × List Str)) (V S : List Str)
    (hBlack : ∀ x ∈ V, x ∉ S → ∀ y ∈ lookupG g x, y ∈ V ∧ y ∉ S) :
    ∀ x z, PathG g x z → x ∈ V → x ∉ S → z ∈ V ∧ z ∉ S := by
  intro x z hpath
  induction hpath with
  | refl a => intro hx hxs; exact ⟨hx, hxs⟩
  | step hedge _ ih =>
    intro hx hxs
    have hb := hBlack _ hx hxs _ hedge
    exact ih hb.1 hb.2

lemma enter_good (g : List (Str × List Str)) (node : Str) (V S : List Str)
    (hnV : node ∉ V) (hG : GoodDFS g V S) : GoodDFS g (node :: V) (node :: S) := by
  obtain ⟨hSV, hBlack, hCyc⟩ := hG
  refine ⟨?_, ?_, ?_⟩
  · intro x hx
    rcases List.mem_cons.mp hx with h | h
    · exact h ▸ List.mem_cons_self _ _
    · exact List.mem_cons_of_mem _ (hSV x h)
  · intro x hx hxs y hy
    have hxn : x ≠ node := fun h => hxs (h ▸ List.mem_cons_self _ _)
    have hxV : x ∈ V := (List.mem_cons.mp hx).resolve_left hxn
    have hxS : x ∉ S := fun h => hxs (List.mem_cons_of_mem _ h)
    have hb := hBlack x hxV hxS y hy
    refine ⟨List.mem_cons_of_mem _ hb.1, ?_⟩
    intro hc
    rcases List.mem_cons.mp hc with h | h
    · exact hnV (h ▸ hb.1)
    · exact hb.2 h
  · intro x hx hxs
    have hxn : x ≠ node := fun h => hxs (h ▸ List.mem_cons_self _ _)
    have hxV : x ∈ V := (List.mem_cons.mp hx).resolve_left hxn
    have hxS : x ∉ S := fun h => hxs (List.mem_cons_of_mem _ h)
    exact hCyc x hxV hxS

lemma exit_good (g : List (Str × List Str)) (node : Str) (V V₂ S : List Str)
    (hG₂ : GoodDFS g V₂ (node :: S))
    (hpost : ∀ m ∈ lookupG g node, m ∈ V₂ ∧ m ∉ node :: S) :
    GoodDFS g V₂ S := by
  obtain ⟨hSV, hBlack, hCyc⟩ := hG₂
  refine ⟨?_, ?_, ?_⟩
  · intro x hx
    exact hSV x (List.mem_cons_of_mem _ hx)
  · intro x hxV hxS y hy
    by_cases hxn : x = node
    · rw [hxn] at hy
      have hb := hpost y hy
      exact ⟨hb.1, fun hyS => hb.2 (List.mem_cons_of_mem _ hyS)⟩
    · have hxS' : x ∉ node :: S := by
        intro hc
        rcases List.mem_cons.mp hc with h | h
        · exact hxn h
        · exact hxS h
      have hb := hBlack x hxV hxS' y hy
      exact ⟨hb.1, fun hyS => hb.2 (List.mem_cons_of_mem _ hyS)⟩
  · intro x hxV hxS hcyc
    by_cases hxn : x = node
    · obtain ⟨m, hm, hpath⟩ := hcyc
      rw [hxn] at hm hpath
      have hmb := hpost m hm
      have hfin := black_path_black g V₂ (node :: S) hBlack m node hpath hmb.1 hmb.2
      exact hfin.2 (List.mem_cons_self _ _)
    · have hxS' : x ∉ node :: S := by
        intro hc
        rcases List.mem_cons.mp hc with h | h
        · exact hxn h
        · exact hxS h
      exact hCyc x hxV hxS' hcyc

lemma foldl_cycleStep_true (rec : Str → List Str → List Str →
    Bool × List Str × List Str) (ms : List Str) (v s : List Str) :
    List.foldl (cycleStepF rec) (true, v, s) ms = (true, v, s) := by
  induction ms with
  | nil => rfl
  | cons m ms ih => rw [List.foldl_cons]; exact ih

lemma foldl_cycleStep_false_sound (g : List (Str × List Str))
    (rec : Str → List Str → List Str → Bool × List Str × List Str)
    (hrec : ∀ m V S, m ∉ V → GoodDFS g V S → ∀ V' S',
      rec m V S = (false, V', S') →
      S' = S ∧ V ⊆ V' ∧ m ∈ V' ∧ GoodDFS g V' S) :
    ∀ ms V S, GoodDFS g V S → ∀ V' S',
      List.foldl (cycleStepF rec) (false, V, S) ms = (false, V', S') →
      S' = S ∧ V ⊆ V' ∧ GoodDFS g V' S ∧ ∀ m ∈ ms, m ∈ V' ∧ m ∉ S := by
  intro ms
  induction ms with
  | nil =>
    intro V S hG V' S' hf
    rw [List.foldl_nil] at hf
    obtain ⟨-, h2, h3⟩ := Prod.mk.injEq _ _ _ _ ▸ hf
    cases hf
    exact ⟨rfl, fun x hx => hx, hG, by simp⟩
  | cons m ms ih =>
    intro V S hG V' S' hf
    rw [List.foldl_cons] at hf
    by_cases hmV : m ∈ V
    · by_cases hmS : m ∈ S
      · rw [show cycleStepF rec (false, V, S) m = (true, V, S) from by
            simp [cycleStepF, hmV, hmS]] at hf
        rw [foldl_cycleStep_true] at hf
        cases hf
      · rw [show cycleStepF rec (false, V, S) m = (false, V, S) from by
            simp [cycleStepF, hmV, hmS]] at hf
        obtain ⟨h1, h2, h3, h4⟩ := ih V S hG V' S' hf
        refine ⟨h1, h2, h3, ?_⟩
        intro x hx
        rcases List.mem_cons.mp hx with h | h
        · exact h ▸ ⟨h2 hmV, hmS⟩
        · exact h4 x h
    · rw [show cycleStepF rec (false, V, S) m = rec m V S from by
          simp [cycleStepF, hmV]] at hf
      cases hr : rec m V S with
      | mk b rest =>
        obtain ⟨V₂, S₂⟩ := rest
        rw [hr] at hf
        cases b with
        | true => rw [foldl_cycleStep_true] at hf; cases hf
        | false =>
          obtain ⟨h1, h2, h3, h4⟩ := hrec m V S hmV hG V₂ S₂ hr
          rw [h1] at hf
          obtain ⟨g1, g2, g3, g4⟩ := ih V₂ S h4 V' S' hf
          refine ⟨g1, fun x hx => g2 (h2 hx), g3, ?_⟩
          intro x hx
          rcases List.mem_cons.mp hx with h | h
          · refine ⟨g2 (h ▸ h3), ?_⟩
            subst h
            intro hxS
            exact hmV ((hG.1) x hxS)
          · exact g4 x h

lemma hasCycleNode_false_sound (g : List (Str × List Str)) :
    ∀ fuel node V S, node ∉ V → GoodDFS g V S →
    ∀ V' S', hasCycleNode g fuel node V S = (false, V', S') →
    S' = S ∧ V ⊆ V' ∧ node ∈ V' ∧ GoodDFS g V' S := by
  intro fuel
  induction fuel with
  | zero =>
    intro node V S _ _ V' S' h
    rw [hasCycleNode] at h
    cases h
  | succ fuel ih =>
    intro node V S hnV hG V' S' h
    rw [hasCycleNode] at h
    have hG₁ : GoodDFS g (node :: V) (node :: S) := enter_good g node V S hnV hG
    cases hf : List.foldl (cycleStepF (fun m v s => hasCycleNode g fuel m v s))
        (false, node :: V, node :: S) (lookupG g node) with
    | mk b rest =>
      obtain ⟨V₂, S₂⟩ := rest
      rw [hf] at h
      cases b with
      | true => cases h
      | false =>
        obtain ⟨hV', hS'⟩ : V' = V₂ ∧ S' = S₂.erase node := by
          cases h; exact ⟨rfl, rfl⟩
        obtain ⟨h1, h2, h3, h4⟩ := foldl_cycleStep_false_sound g
          (fun m v s => hasCycleNode g fuel m v s)
          (fun m V S hm hGm V' S' hr => ih m V S hm hGm V' S' hr)
          (lookupG g node) (node :: V) (node :: S) hG₁ V₂ S₂ hf
        refine ⟨?_, ?_, ?_, ?_⟩
        · rw [hS', h1]
          exact List.erase_cons_head node S
        · rw [hV']
          exact fun x hx => h2 (List.mem_cons_of_mem _ hx)
        · rw [hV']
          exact h2 (List.mem_cons_self _ _)
        · rw [hV']
          exact exit_good g node V V₂ S h3 h4

lemma loop_errors_grow (g : List (Str × List Str)) (fuel : Nat) :
    ∀ keys errors V S, ∃ tail,
      (List.foldl (cycleLoopStep g fuel) (errors, V, S) keys).1 = errors ++ tail := by
  intro keys
  induction keys with
  | nil => intro errors V S; exact ⟨[], by simp⟩
  | cons k keys ih =>
    intro errors V S
    rw [List.foldl_cons]
    by_cases hk : k ∈ V
    · rw [show cycleLoopStep g fuel (errors, V, S) k = (errors, V, S) from by
        simp [cycleLoopStep, hk]]
      exact ih errors V S
    · cases hr : hasCycleNode g fuel k V S with
      | mk b rest =>
        obtain ⟨V₂, S₂⟩ := rest
        cases b with
        | true =>
          rw [show cycleLoopStep g fuel (errors, V, S) k =
              (errors ++ [cycleMsg k], V₂, S₂) from by
            simp [cycleLoopStep, hk, hr]]
          obtain ⟨tail, htail⟩ := ih (errors ++ [cycleMsg k]) V₂ S₂
          exact ⟨[cycleMsg k] ++ tail, by rw [htail, List.append_assoc]⟩
        | false =>
          rw [show cycleLoopStep g fuel (errors, V, S) k = (errors, V₂, S₂) from by
            simp [cycleLoopStep, hk, hr]]
          exact ih errors V₂ S₂

lemma loop_sound (g : List (Str × List Str)) (fuel : Nat) :
    ∀ keys errors V S, GoodDFS g V S →
    ∀ errors' V' S',
      List.foldl (cycleLoopStep g fuel) (errors, V, S) keys = (errors', V', S') →
      errors' = errors →
      GoodDFS g V' S ∧ V ⊆ V' ∧ ∀ k ∈ keys, k ∈ V' := by
  intro keys
  induction keys with
  | nil =>
    intro errors V S hG errors' V' S' hf _
    rw [List.foldl_nil] at hf
    cases hf
    exact ⟨hG, fun x hx => hx, by simp⟩
  | cons k keys ih =>
    intro errors V S hG errors' V' S' hf heq
    rw [List.foldl_cons] at hf
    by_cases hk : k ∈ V
    · rw [show cycleLoopStep g fuel (errors, V, S) k = (errors, V, S) from by
        simp [cycleLoopStep, hk]] at hf
      obtain ⟨hGg, hsub, hmem⟩ := ih errors V S hG errors' V' S' hf heq
      refine ⟨hGg, hsub, ?_⟩
      intro x hx
      rcases List.mem_cons.mp hx with h | h
      · exact h ▸ hsub hk
      · exact hmem x h
    · cases hr : hasCycleNode g fuel k V S with
      | mk b rest =>
        obtain ⟨V₂, S₂⟩ := rest
        cases b with
        | true =>
          rw [show cycleLoopStep g fuel (errors, V, S) k =
              (errors ++ [cycleMsg k], V₂, S₂) from by
            simp [cycleLoopStep, hk, hr]] at hf
          obtain ⟨tail, htail⟩ := loop_errors_grow g fuel keys (errors ++ [cycleMsg k]) V₂ S₂
          rw [hf] at htail
          simp only at htail
          rw [heq] at htail
          have := congrArg List.length htail
          simp at this
        | false =>
          rw [show cycleLoopStep g fuel (errors, V, S) k = (errors, V₂, S₂) from by
            simp [cycleLoopStep, hk, hr]] at hf
          obtain ⟨h1, h2, h3, h4⟩ :=
            hasCycleNode_false_sound g fuel k V S hk hG V₂ S₂ hr
          rw [h1] at hf
          obtain ⟨hGg, hsub, hmem⟩ := ih errors V₂ S h4 errors' V' S' hf heq
          refine ⟨hGg, fun x hx => hsub (h2 hx), ?_⟩
          intro x hx
          rcases List.mem_cons.mp hx with h | h
          · exact h ▸ hsub h3
          · exact hmem x h

lemma mem_keys_of_lookup (g : List (Str × List Str)) (n m : Str)
    (hm : m ∈ lookupG g n) : n ∈ g.map Prod.fst := by
  unfold lookupG at hm
  cases hf : g.find? (fun e => decide (e.1 = n)) with
  | none =>
    rw [hf] at hm
    cases hm
  | some e =>
    have hp := List.find?_some hf
    have hmem := List.mem_of_find?_eq_some hf
    rw [List.mem_map]
    exact ⟨e, hmem, by simpa using hp⟩

/-- A plan with one cycle (`1.1.3` and `1.1.4` require each other) reachable
from the two entry points `1.1.1` and `1.1.2`. -/
def c9plan : DevelopmentPlan :=
  ⟨lit "P",
   [⟨lit "1", lit "T", lit "g", [], [],
     [⟨lit "1.1", lit "t",
       [⟨lit "1.1.1", lit "A", [lit "1.1.3"]⟩,
        ⟨lit "1.1.2", lit "B", [lit "1.1.4"]⟩,
        ⟨lit "1.1.3", lit "X", [lit "1.1.4"]⟩,
        ⟨lit "1.1.4", lit "Y", [lit "1.1.3"]⟩]⟩]⟩],
   none⟩

/-- C9: the depth-first traversal with a recursion stack detects every
cycle of the prerequisite graph (a plan with a cycle always yields at least
one message), and reporting is per entry point without global
deduplication: the sample plan's single cycle, reachable from the two entry
points `1.1.1` and `1.1.2`, is reported twice. -/
theorem circular_dependency_detection :
    (∀ plan : DevelopmentPlan, HasCycleG (prereqGraph plan) →
      validateCircularDependencies plan ≠ []) ∧
    validateCircularDependencies c9plan =
      [cycleMsg (lit "1.1.1"), cycleMsg (lit "1.1.2")] := by
  constructor
  · intro plan hcyc hnil
    obtain ⟨n, m, hm, hpath⟩ := hcyc
    have hgood0 : GoodDFS (prereqGraph plan) [] [] := by
      refine ⟨?_, ?_, ?_⟩ <;> intro x hx <;> cases hx
    cases hres : List.foldl
        (cycleLoopStep (prereqGraph plan) (graphFuel (prereqGraph plan)))
        ([], [], []) ((prereqGraph plan).map Prod.fst) with
    | mk errors' rest =>
      obtain ⟨V', S'⟩ := rest
      have hval : validateCircularDependencies plan =
          (List.foldl (cycleLoopStep (prereqGraph plan) (graphFuel (prereqGraph plan)))
            ([], [], []) ((prereqGraph plan).map Prod.fst)).1 := rfl
      rw [hres] at hval
      have herr : errors' = [] := by simpa using hval.symm.trans hnil
      obtain ⟨hGfin, -, hkeys⟩ := loop_sound (prereqGraph plan)
        (graphFuel (prereqGraph plan)) ((prereqGraph plan).map Prod.fst)
        [] [] [] hgood0 errors' V' S' hres herr
      have hnV : n ∈ V' := hkeys n (mem_keys_of_lookup _ n m hm)
      exact hGfin.2.2 n hnV (by intro hc; cases hc) ⟨m, hm, hpath⟩
  · decide

/-- Concrete instantiation of C9 at the sample plan. -/
theorem circular_dependency_detection_witness :
    validateCircularDependencies c9plan ≠ [] :=
  circular_dependency_detection.1 c9plan
    ⟨lit "1.1.3", lit "1.1.4", by decide, PathG.step (by decide) (PathG.refl _)⟩

/-! ### Claim C10: JSON-first brief parsing (`server.py`,
`_parse_brief_content`) -/

/-- JSON values (the results of Python `json.loads`). -/
inductive Json where
  | null
  | bool (b : Bool)
  | num (lexeme : Str)
  | str (s : Str)
  | arr (xs : List Json)
  | obj (fields : List (Str × Json))

/-- JSON whitespace. -/
def jsonIsWs (c : Char) : Bool := c == ' ' || c == '\t' || c == '\n' || c == '\r'

/-- Skip JSON whitespace. -/
def skipWs (s : Str) : Str := s.dropWhile jsonIsWs

/-- The single-character string escapes of JSON. -/
def escChar : Char → Option Char
  | '"' => some '"'
  | '\\' => some '\\'
  | '/' => some '/'
  | 'b' => some '\x08'
  | 'f' => some '\x0c'
  | 'n' => some '\n'
  | 'r' => some '\r'
  | 't' => some '\t'
  | _ => none

/-- Hexadecimal digit value. -/
def hexVal (c : Char) : Option Nat :=
  if c.isDigit then some (c.toNat - 48)
  else if 'a' ≤ c ∧ c ≤ 'f' then some (c.toNat - 87)
  else if 'A' ≤ c ∧ c ≤ 'F' then some (c.toNat - 55)
  else none

/-- Body of a JSON string after the opening quote: strict mode (raw control
characters rejected), the standard escapes, and `\uXXXX` (decoded directly;
surrogate pairing of Python is not modelled). -/
def parseStringBody : Str → Option (Str × Str)
  | [] => none
  | '"' :: r => some ([], r)
  | '\\' :: 'u' :: h₁ :: h₂ :: h₃ :: h₄ :: r =>
    (match hexVal h₁, hexVal h₂, hexVal h₃, hexVal h₄ with
     | some a, some b, some d, some e =>
       (parseStringBody r).map
         (fun p => (Char.ofNat (((a * 16 + b) * 16 + d) * 16 + e) :: p.1, p.2))
     | _, _, _, _ => none)
  | '\\' :: c :: r =>
    (match escChar c with
     | some d => (parseStringBody r).map (fun p => (d :: p.1, p.2))
     | none => none)
  | c :: r =>
    if c.toNat < 32 then none
    else (parseStringBody r).map (fun p => (c :: p.1, p.2))

/-- A JSON number lexeme: optional sign, integer part without leading zero,
optional fraction and exponent. -/
def parseNumber (s : Str) : Option (Json × Str) :=
  let pre : Str × Str := match s with
    | '-' :: r => (['-'], r)
    | r => ([], r)
  let ds := pre.2.takeWhile Char.isDigit
  if ds = [] then none
  else if 1 < ds.length ∧ ds.headD '0' = '0' then none
  else
    let r₁ := pre.2.drop ds.length
    let step2 : Option (Str × Str) := match r₁ with
      | '.' :: rr =>
        let fs := rr.takeWhile Char.isDigit
        if fs = [] then none else some ('.' :: fs, rr.drop fs.length)
      | _ => some ([], r₁)
    match step2 with
    | none => none
    | some (fracLex, r₂) =>
      let step3 : Option (Str × Str) := match r₂ with
        | c :: rr =>
          if c = 'e' ∨ c = 'E' then
            let sgn : Str × Str := match rr with
              | '+' :: q => (['+'], q)
              | '-' :: q => (['-'], q)
              | q => ([], q)
            let es := sgn.2.takeWhile Char.isDigit
            if es = [] then none else some (c :: (sgn.1 ++ es), sgn.2.drop es.length)
          else some ([], c :: rr)
        | [] => some ([], [])
      match step3 with
      | none => none
      | some (expLex, r₃) => some (.num (pre.1 ++ ds ++ fracLex ++ expLex), r₃)

/-- Parser modes: a value, the elements of an array after the first bracket,
or the members of an object (accumulated with dict upsert semantics, so a
repeated key keeps the last value as `json.loads` does). -/
inductive PMode where
  | value
  | elems (acc : List Json)
  | members (acc : List (Str × Json))

/-- Recursive-descent JSON parser (model of `json.loads`), structural in a
fuel argument so that it is computable by the kernel; the caller passes fuel
exceeding the input length, which bounds every recursion chain because each
level consumes at least one character. -/
def parseJ : Nat → PMode → Str → Option (Json × Str)
  | 0, _, _ => none
  | fuel + 1, .value, s =>
    (match skipWs s with
     | 'n' :: 'u' :: 'l' :: 'l' :: r => some (.null, r)
     | 't' :: 'r' :: 'u' :: 'e' :: r => some (.bool true, r)
     | 'f' :: 'a' :: 'l' :: 's' :: 'e' :: r => some (.bool false, r)
     | '"' :: r => (parseStringBody r).map (fun p => (.str p.1, p.2))
     | '[' :: r =>
       (match skipWs r with
        | ']' :: r₂ => some (.arr [], r₂)
        | r₂ => parseJ fuel (.elems []) r₂)
     | '\x7b' :: r =>
       (match skipWs r with
        | '\x7d' :: r₂ => some (.obj [], r₂)
        | r₂ => parseJ fuel (.members []) r₂)
     | c :: r =>
       if c = '-' ∨ c.isDigit then parseNumber (c :: r) else none
     | [] => none)
  | fuel + 1, .elems acc, s =>
    (match parseJ fuel .value s with
     | none => none
     | some (v, r) =>
       match skipWs r with
       | ',' :: r₂ => parseJ fuel (.elems (acc ++ [v])) r₂
       | ']' :: r₂ => some (.arr (acc ++ [v]), r₂)
       | _ => none)
  | fuel + 1, .members acc, s =>
    (match skipWs s with
     | '"' :: r =>
       (match parseStringBody r with
        | none => none
        | some (k, r₂) =>
          match skipWs r₂ with
          | ':' :: r₃ =>
            (match parseJ fuel .value r₃ with
             | none => none
             | some (v, r₄) =>
               match skipWs r₄ with
               | ',' :: r₅ => parseJ fuel (.members (upsert k v acc)) r₅
               | '\x7d' :: r₅ => some (.obj (upsert k v acc), r₅)
               | _ => none)
          | _ => none)
     | _ => none)

/-- Model of `json.loads`: one JSON value followed only by whitespace;
`none` models `JSONDecodeError`. -/
def jsonLoads (s : Str) : Option Json :=
  match parseJ (s.length + 1) .value s with
  | some (v, r) => if skipWs r = [] then some v else none
  | none => none

/-- The two exception classes `_parse_brief_content` distinguishes on the
JSON path: `TypeError` (from splatting a non-mapping) is caught and falls
back to markdown; pydantic `ValidationError` is not caught. -/
inductive PyErr where
  | typeErr
  | validationErr
deriving DecidableEq

/-- Dict lookup on parsed object fields. -/
def lookupJson (fields : List (Str × Json)) (k : Str) : Option Json :=
  (fields.find? (fun e => decide (e.1 = k))).map Prod.snd

/-- A required pydantic string field: present, a string, non-empty after
stripping; anything else is a `ValidationError`. -/
def jreqStr (fields : List (Str × Json)) (name : String) : Except PyErr Str :=
  match lookupJson fields (lit name) with
  | some (.str s) =>
    if pyStrip s = [] then .error .validationErr else .ok (pyStrip s)
  | some _ => .error .validationErr
  | none => .error .validationErr

/-- An optional pydantic `list[str]` field (default empty). -/
def jStrList (fields : List (Str × Json)) (name : String) : Except PyErr (List Str) :=
  match lookupJson fields (lit name) with
  | none => .ok []
  | some (.arr xs) =>
    xs.foldr (fun j acc =>
      match j, acc with
      | .str s, .ok l => .ok (pyStrip s :: l)
      | _, _ => .error .validationErr) (.ok [])
  | some _ => .error .validationErr

/-- Model of `ProjectBrief(**data)` (`server.py` line 263) on a decoded JSON
value, restricted to the modelled fields: a non-object raises `TypeError`;
an object is validated by pydantic, whose failures (missing or invalid
required fields) raise `ValidationError`.  Extra keys are ignored, as
pydantic does by default. -/
def briefOfJson : Json → Except PyErr ProjectBrief
  | .obj fields => do
    let project_name ← jreqStr fields "project_name"
    let project_type ← jreqStr fields "project_type"
    let primary_goal ← jreqStr fields "primary_goal"
    let target_users ← jreqStr fields "target_users"
    let timeline ← jreqStr fields "timeline"
    let team_size ← (match lookupJson fields (lit "team_size") with
      | none => Except.ok (lit "1")
      | some (.str s) => Except.ok (pyStrip s)
      | some _ => Except.error PyErr.validationErr)
    let key_features ← jStrList fields "key_features"
    let nice ← jStrList fields "nice_to_have_features"
    let must ← jStrList fields "must_use_tech"
    let cannot ← jStrList fields "cannot_use_tech"
    let dep ← (match lookupJson fields (lit "deployment_target") with
      | none => Except.ok none
      | some Json.null => Except.ok none
      | some (.str s) => Except.ok (some (pyStrip s))
      | some _ => Except.error PyErr.validationErr)
    .ok { project_name := project_name, project_type := project_type,
          primary_goal := primary_goal, target_users := target_users,
          timeline := timeline, team_size := team_size,
          key_features := key_features, nice_to_have_features := nice,
          must_use_tech := must, cannot_use_tech := cannot,
          deployment_target := dep }
  | _ => .error .typeErr

/-- The control-flow outcomes of `_parse_brief_content` (`server.py`): a
brief from the JSON path, a propagated pydantic `ValidationError` (markdown
parsing never attempted), or the markdown fallback (taken only on
`JSONDecodeError` or `TypeError`). -/
inductive BriefParseOutcome where
  | fromJson (b : ProjectBrief)
  | jsonValidationError
  | fromMarkdown
deriving DecidableEq

/-- Model of `_parse_brief_content` (`server.py`): try `json.loads` and
`ProjectBrief(**data)`, catching only `JSONDecodeError` and `TypeError` (the
markdown path `parse_project_brief` is then taken); a pydantic
`ValidationError` propagates. -/
def parseBriefContent (content : Str) : BriefParseOutcome :=
  match jsonLoads content with
  | none => .fromMarkdown
  | some v =>
    match briefOfJson v with
    | .ok b => .fromJson b
    | .error .typeErr => .fromMarkdown
    | .error .validationErr => .jsonValidationError

/-- C10: the markdown fallback happens only when the input fails to decode
as JSON or decodes to a non-object (`TypeError` on splatting); a valid JSON
object missing the required `project_name` makes the pydantic
`ValidationError` propagate and markdown parsing is never attempted. -/
theorem json_validation_error_propagates :
    (∀ content fields, jsonLoads content = some (.obj fields) →
      lookupJson fields (lit "project_name") = none →
      parseBriefContent content = .jsonValidationError) ∧
    (∀ content v, jsonLoads content = some v → (∀ fields, v ≠ .obj fields) →
      parseBriefContent content = .fromMarkdown) ∧
    (∀ content, jsonLoads content = none →
      parseBriefContent content = .fromMarkdown) := by
  refine ⟨?_, ?_, ?_⟩
  · intro content fields hj hmiss
    unfold parseBriefContent
    rw [hj]
    have hb : briefOfJson (.obj fields) = .error .validationErr := by
      have h1 : jreqStr fields "project_name" = .error .validationErr := by
        unfold jreqStr
        rw [hmiss]
      simp only [briefOfJson]
      rw [h1]
      rfl
    show (match briefOfJson (Json.obj fields) with
      | Except.ok b => BriefParseOutcome.fromJson b
      | Except.error PyErr.typeErr => BriefParseOutcome.fromMarkdown
      | Except.error PyErr.validationErr => BriefParseOutcome.jsonValidationError) =
        BriefParseOutcome.jsonValidationError
    rw [hb]
  · intro content v hj hnotobj
    unfold parseBriefContent
    rw [hj]
    have hb : briefOfJson v = .error .typeErr := by
      cases v with
      | obj fields => exact absurd rfl (hnotobj fields)
      | null => rfl
      | bool b => rfl
      | num l => rfl
      | str s => rfl
      | arr xs => rfl
    show (match briefOfJson v with
      | Except.ok b => BriefParseOutcome.fromJson b
      | Except.error PyErr.typeErr => BriefParseOutcome.fromMarkdown
      | Except.error PyErr.validationErr => BriefParseOutcome.jsonValidationError) =
        BriefParseOutcome.fromMarkdown
    rw [hb]
  · intro content hj
    unfold parseBriefContent
    rw [hj]

/-- Concrete instantiation of C10: a JSON object missing `project_name`
propagates the validation error; a JSON array falls back to markdown. -/
theorem json_validation_error_propagates_witness :
    parseBriefContent (lit "\x7b\"project_type\": \"cli\"\x7d") = .jsonValidationError ∧
    parseBriefContent (lit "[1, 2]") = .fromMarkdown :=
  ⟨json_validation_error_propagates.1 _ [(lit "project_type", .str (lit "cli"))]
      (by with_unfolding_all rfl) (by with_unfolding_all rfl),
    json_validation_error_propagates.2.1 _ (.arr [.num (lit "1"), .num (lit "2")])
      (by with_unfolding_all rfl) (by intro fields h; cases h)⟩

/-- Concrete instantiation of C2 at a brief with a conflicting entry. -/
theorem generate_conflict_error_witness :
    ∃ cs, generatePlan
      { project_name := lit "Foo", project_type := lit "CLI Tool",
        primary_goal := lit "g", target_users := lit "u", timeline := lit "2 weeks",
        team_size := lit "1", key_features := [], nice_to_have_features := [],
        must_use_tech := [lit "Python"], cannot_use_tech := [lit "python"],
        deployment_target := none } = .error (.conflict cs) ∧
      ∀ s, s ∈ cs ↔ s ∈ [lit "Python"].map lowerStr ∧ s ∈ [lit "python"].map lowerStr :=
  (generate_conflict_error _).1 ⟨lit "python", by decide, by decide⟩


/-! ### Claim C4 infrastructure: occurrence bookkeeping for concatenations -/

lemma prefix_trans_bool (p q s : Str) (hpq : p.isPrefixOf q = true)
    (hqs : q.isPrefixOf s = true) : p.isPrefixOf s = true := by
  rw [List.isPrefixOf_iff_prefix] at *
  exact hpq.trans hqs

lemma prefix_append_bool (p u v : Str) (h : p.isPrefixOf u = true) :
    p.isPrefixOf (u ++ v) = true := by
  rw [List.isPrefixOf_iff_prefix] at *
  exact h.trans (List.prefix_append u v)

lemma prefix_drop_bool (p s : Str) (k : Nat) (h : p.isPrefixOf s = true) :
    (p.drop k).isPrefixOf (s.drop k) = true := by
  rw [List.isPrefixOf_iff_prefix] at *
  obtain ⟨r, hr⟩ := h
  by_cases hk : k ≤ p.length
  · exact ⟨r, by rw [← hr, List.drop_append_of_le_length hk]⟩
  · rw [List.drop_eq_nil_of_le (Nat.le_of_not_le hk)]
    exact List.nil_prefix

/-- A matcher that is false on every suffix in the bounded range is false on
every suffix (suffixes past the end coincide with the empty suffix). -/
lemma allDrops_of_bounded (m : Str → Bool) (s : Str)
    (h : (List.range (s.length + 1)).all (fun i => ! m (s.drop i)) = true) :
    ∀ i, m (s.drop i) = false := by
  intro i
  rw [List.all_eq_true] at h
  by_cases hi : i ≤ s.length
  · have := h i (List.mem_range.mpr (Nat.lt_succ_of_le hi))
    simpa using this
  · have hd : s.drop i = s.drop s.length := by
      rw [List.drop_length, List.drop_eq_nil_of_le (Nat.le_of_not_le hi)]
    rw [hd]
    have := h s.length (List.mem_range.mpr (Nat.lt_succ_of_le (Nat.le_refl _)))
    simpa using this

lemma boundedDrops_of (m : Str → Bool) (u : Str)
    (h : (List.range u.length).all (fun i => ! m (u.drop i)) = true) :
    ∀ i, i < u.length → m (u.drop i) = false := by
  intro i hi
  rw [List.all_eq_true] at h
  have := h i (List.mem_range.mpr hi)
  simpa using this

/-- A prefix of a concatenation lies inside the first part or splits across
the boundary. -/
lemma isPrefixOf_append_split (p u v : Str) (h : p.isPrefixOf (u ++ v) = true) :
    p.isPrefixOf u = true ∨
    (u.length < p.length ∧ u = p.take u.length ∧
      (p.drop u.length).isPrefixOf v = true) := by
  rw [List.isPrefixOf_iff_prefix] at h
  by_cases hl : p.length ≤ u.length
  · left
    rw [List.isPrefixOf_iff_prefix]
    rw [List.prefix_iff_eq_take] at h
    rw [List.take_append_of_le_length hl] at h
    rw [h]
    exact List.take_prefix _ _
  · right
    refine ⟨Nat.lt_of_not_le hl, ?_, ?_⟩
    · rw [List.prefix_iff_eq_take] at h
      rw [h, List.take_take,
        Nat.min_eq_left (Nat.le_of_lt (Nat.lt_of_not_le hl)), List.take_left]
    · rw [List.isPrefixOf_iff_prefix]
      rw [List.prefix_iff_eq_take] at h
      rw [h, List.drop_take, List.drop_left]
      exact List.take_prefix _ _


/-- No occurrence of `pat` starts inside `u` in the concatenation `u ++ v`:
occurrences fitting inside `u` are excluded by `hu`, and straddling
occurrences are excluded boundary-wise by `hstr`. -/
lemma no_prefix_at_lt (p u v : Str)
    (hu : ∀ i, i < u.length → p.isPrefixOf (u.drop i) = false)
    (hstr : ∀ k, 0 < k → k < p.length →
      (p.take k).isSuffixOf u = false ∨ (p.drop k).isPrefixOf v = false) :
    ∀ i, i < u.length → p.isPrefixOf ((u ++ v).drop i) = false := by
  intro i hi
  rw [List.drop_append_of_le_length (Nat.le_of_lt hi)]
  by_contra hocc
  have hocc' : p.isPrefixOf (u.drop i ++ v) = true := by
    cases h : p.isPrefixOf (u.drop i ++ v)
    · exact absurd h hocc
    · rfl
  rcases isPrefixOf_append_split p (u.drop i) v hocc' with hin | ⟨hlt, heq, hrest⟩
  · rw [hu i hi] at hin
    cases hin
  · have hlen : (u.drop i).length = u.length - i := List.length_drop i u
    have hk0 : 0 < (u.drop i).length := by
      rw [List.length_drop]
      omega
    rcases hstr (u.drop i).length hk0 hlt with hs | hs
    · have : (p.take (u.drop i).length).isSuffixOf u = true := by
        rw [List.isSuffixOf_iff_suffix, ← heq]
        exact (List.drop_suffix i u)
      rw [hs] at this
      cases this
    · rw [hs] at hrest
      cases hrest


/-- No occurrence of `pat` anywhere in `u ++ v`, assembled from per-part
absence and boundary exclusion. -/
lemma no_prefix_append (p u v : Str)
    (hu : ∀ i, i < u.length → p.isPrefixOf (u.drop i) = false)
    (hv : ∀ i, p.isPrefixOf (v.drop i) = false)
    (hstr : ∀ k, 0 < k → k < p.length →
      (p.take k).isSuffixOf u = false ∨ (p.drop k).isPrefixOf v = false) :
    ∀ i, p.isPrefixOf ((u ++ v).drop i) = false := by
  intro i
  by_cases hi : i < u.length
  · exact no_prefix_at_lt p u v hu hstr i hi
  · have : (u ++ v).drop i = v.drop (i - u.length) := by
      rw [show i = u.length + (i - u.length) from by omega, List.drop_append]
      congr 1
      omega
    rw [this]
    exact hv _

/-- `re.sub` with a literal pattern leaves a prefix free of occurrences
untouched and recurses on the remainder. -/
lemma replaceAll_append_frame (pat repl u v : Str)
    (h : ∀ i, i < u.length → pat.isPrefixOf ((u ++ v).drop i) = false) :
    replaceAll pat repl (u ++ v) = u ++ replaceAll pat repl v := by
  induction u with
  | nil => rw [List.nil_append, List.nil_append]
  | cons c u ih =>
    rw [List.cons_append, replaceAll_cons_neg, List.cons_append, ih]
    · intro i hi
      have := h (i + 1) (by simpa using Nat.succ_lt_succ hi)
      rw [List.cons_append] at this
      simpa using this
    · rintro ⟨-, hpre⟩
      have := h 0 (by simp)
      rw [List.cons_append, List.drop_zero] at this
      rw [this] at hpre
      cases hpre


lemma notesScan_cons_neg (blk : Str) (c : Char) (t : Str)
    (h : notesMarker.isPrefixOf (c :: t) = false) :
    notesScan blk (c :: t) = c :: notesScan blk t := by
  unfold notesScan
  rw [nsGo, if_neg]
  rw [h]
  exact Bool.false_ne_true

lemma notesScan_append_frame (blk u v : Str)
    (h : ∀ i, i < u.length → notesMarker.isPrefixOf ((u ++ v).drop i) = false) :
    notesScan blk (u ++ v) = u ++ notesScan blk v := by
  induction u with
  | nil => rw [List.nil_append, List.nil_append]
  | cons c u ih =>
    rw [List.cons_append, notesScan_cons_neg, List.cons_append, ih]
    · intro i hi
      have := h (i + 1) (by simpa using Nat.succ_lt_succ hi)
      rw [List.cons_append] at this
      simpa using this
    · have := h 0 (by simp)
      rw [List.cons_append, List.drop_zero] at this
      exact this

/-- When the completion-notes marker sits at the head and no stop sequence
occurs afterwards, the minimal match extends to the end of the string and the
whole string is replaced by the block. -/
lemma notesScan_match_to_end (blk t : Str)
    (hstop : findSuffix notesStop ((notesMarker ++ t).drop notesMarker.length) = none) :
    notesScan blk (notesMarker ++ t) = blk := by
  have hsplit : notesMarker ++ t = '*' :: (lit "*Completion Notes**:" ++ t) := rfl
  rw [hsplit]
  unfold notesScan
  rw [nsGo, if_pos]
  · rw [List.drop_left] at hstop
    rw [← hsplit, List.drop_left, hstop]
    simp only [Option.getD_none]
    rw [nsGo_skip]
    have hL : notesMarker.length + t.length - 1 = (lit "*Completion Notes**:" ++ t).length := by
      rw [List.length_append]
      have h1 : notesMarker.length = 21 := by decide
      have h2 : (lit "*Completion Notes**:").length = 20 := by decide
      omega
    rw [hL, List.drop_length]
    rw [show nsGo blk [] 0 = [] from rfl, List.append_nil]
  · rw [← hsplit]
    exact prefix_append_bool _ _ _ (by decide)


lemma findSuffix_eq_none_of (m : Str → Bool) (s : Str)
    (h : ∀ i, m (s.drop i) = false) : findSuffix m s = none := by
  induction s with
  | nil =>
    unfold findSuffix
    rw [if_neg]
    have := h 0
    rw [List.drop_nil] at this
    rw [this]
    exact Bool.false_ne_true
  | cons c t ih =>
    unfold findSuffix
    rw [if_neg, ih fun i => by simpa using h (i + 1), Option.map_none']
    have := h 0
    rw [List.drop_zero] at this
    rw [this]
    exact Bool.false_ne_true


lemma findPat_some_zero (pat s : Str) (hs : s ≠ [])
    (h : pat.isPrefixOf s = true) : findPat pat s = some 0 := by
  cases s with
  | nil => exact absurd rfl hs
  | cons c t =>
    unfold findPat
    rw [if_pos h]

/-- The first occurrence of a pattern absent from the first part but heading
the second part is at the boundary. -/
lemma findPat_append_first (pat u v : Str)
    (hu : ∀ i, i < u.length → pat.isPrefixOf ((u ++ v).drop i) = false)
    (hv : pat.isPrefixOf v = true) :
    findPat pat (u ++ v) = some u.length := by
  induction u with
  | nil =>
    rw [List.nil_append]
    cases v with
    | nil =>
      unfold findPat
      rw [if_pos]
      · rfl
      · cases pat with
        | nil => rfl
        | cons a b => simp at hv
    | cons c t => exact findPat_some_zero _ _ (by simp) hv
  | cons c u ih =>
    rw [List.cons_append]
    unfold findPat
    rw [if_neg, ih, Option.map_some']
    · rfl
    · intro i hi
      have := hu (i + 1) (by simpa using Nat.succ_lt_succ hi)
      rw [List.cons_append] at this
      simpa using this
    · have := hu 0 (by simp)
      rw [List.cons_append, List.drop_zero] at this
      rw [this]
      exact Bool.false_ne_true

lemma containsPat_of_occurs (pat s : Str) (i : Nat)
    (h : pat.isPrefixOf (s.drop i) = true) : containsPat pat s = true := by
  unfold containsPat
  rw [findPat_eq_findSuffix]
  cases hf : findSuffix (fun u => pat.isPrefixOf u) s with
  | none =>
    have := findSuffix_eq_none _ _ hf i
    rw [h] at this
    cases this
  | some j => rfl

/-- Absence of a sub-pattern propagates to absence of any pattern containing
it. -/
lemma no_prefix_of_subpattern (p q s : Str) (k : Nat)
    (hk : q.isPrefixOf (p.drop k) = true)
    (hq : ∀ i, q.isPrefixOf (s.drop i) = false) :
    ∀ i, p.isPrefixOf (s.drop i) = false := by
  intro i
  by_contra hocc
  have hocc' : p.isPrefixOf (s.drop i) = true := by
    cases h : p.isPrefixOf (s.drop i)
    · exact absurd h hocc
    · rfl
  have h1 : (p.drop k).isPrefixOf ((s.drop i).drop k) = true :=
    prefix_drop_bool _ _ _ hocc'
  have h2 : q.isPrefixOf ((s.drop i).drop k) = true :=
    prefix_trans_bool _ _ _ hk h1
  rw [List.drop_drop] at h2
  rw [hq (i + k)] at h2
  cases h2


lemma findGate_zero (content sid : Str)
    (h : subtaskTitleGateAt content sid 0 = true) :
    findGate content sid = some 0 := by
  unfold findGate
  rw [List.range_succ_eq_map, List.find?_cons_of_pos]
  exact h

lemma sectionEndFrom_zero_full (content : Str)
    (h1 : ∀ i, subtaskMarkerAt ((content.drop 10).drop i) = false)
    (h2 : ∀ i, taskHeadingAt ((content.drop 10).drop i) = false) :
    sectionEndFrom content 0 = content.length := by
  have he : sectionEndFrom content 0 =
      min (min content.length
        (((findSuffix subtaskMarkerAt (content.drop (0 + 10))).map
          (fun r => 0 + 10 + r)).getD content.length))
        (((findSuffix taskHeadingAt (content.drop (0 + 10))).map
          (fun r => 0 + 10 + r)).getD content.length) := rfl
  rw [he, findSuffix_eq_none_of _ _ (by simpa using h1),
    findSuffix_eq_none_of _ _ (by simpa using h2)]
  simp

lemma takeWhile_append_stop (p : Char → Bool) (u v : Str)
    (h : (u.takeWhile p).length < u.length) :
    (u ++ v).takeWhile p = u.takeWhile p := by
  induction u with
  | nil => simp at h
  | cons c u ih =>
    by_cases hc : p c
    · rw [List.cons_append, List.takeWhile_cons_of_pos hc,
        List.takeWhile_cons_of_pos hc, ih]
      rw [List.takeWhile_cons_of_pos hc] at h
      simpa using h
    · rw [List.cons_append, List.takeWhile_cons_of_neg hc,
        List.takeWhile_cons_of_neg hc]

lemma subtaskMarkerAt_false_of (u : Str)
    (h : (lit "**Subtask ").isPrefixOf u = false) : subtaskMarkerAt u = false := by
  unfold subtaskMarkerAt
  rw [h]
  rfl

lemma taskHeadingAt_false_of (u : Str)
    (h : (lit "### Task ").isPrefixOf u = false) : taskHeadingAt u = false := by
  unfold taskHeadingAt
  rw [h]
  rfl

lemma notesStop_false_of (u : Str)
    (h1 : (lit "---").isPrefixOf u = false)
    (h2 : (lit "**Subtask").isPrefixOf u = false) : notesStop u = false := by
  unfold notesStop
  rw [h1, h2]
  rfl



/-- A single-subtask document with one unchecked deliverable checkbox. -/
def c4doc : Str := lit "**Subtask 1.1.1: T**\n- [ ] d1\n"

/-- The subtask id of the C4 document. -/
def c4sid : Str := lit "1.1.1"

/-- The fixed tail of the completion-notes block for subtask 1.1.1
(everything after the caller-supplied notes text). -/
def c4T : Str := lit "\n- **Files Created**: (updated by Claude Code)\n- **Files Modified**: (updated by Claude Code)\n- **Tests**: (updated by Claude Code)\n- **Build**: ✅ Success\n- **Branch**: feature/1-1-1\n- **Notes**: Marked complete via MCP\n\n"

lemma c4blk (notes : Str) :
    notesBlock c4sid notes =
      lit "**Completion Notes**:\n- **Implementation**: " ++ (notes ++ c4T) := by
  unfold notesBlock
  simp only [List.append_assoc]
  congr 1

lemma not_prefix_of_ext (p q s : Str) (hpq : p.isPrefixOf q = true)
    (h : p.isPrefixOf s = false) : q.isPrefixOf s = false := by
  cases hq : q.isPrefixOf s
  · rfl
  · rw [prefix_trans_bool p q s hpq hq] at h
    cases h


set_option maxRecDepth 4000 in
/-- No lookahead stop sequence occurs after the completion-notes marker of
the patched document: the minimal match extends to the end of the string. -/
lemma c4_stop_absent (notes : Str)
    (hstop : ∀ i, notesStop (notes.drop i) = false) :
    ∀ i, notesStop ((lit "\n- **Implementation**: " ++ (notes ++ c4T)).drop i) = false := by
  have hnd : ∀ i, (lit "---").isPrefixOf (notes.drop i) = false := by
    intro i
    have h := hstop i
    unfold notesStop at h
    exact (Bool.or_eq_false_iff.mp h).1
  have hns : ∀ i, (lit "**Subtask").isPrefixOf (notes.drop i) = false := by
    intro i
    have h := hstop i
    unfold notesStop at h
    exact (Bool.or_eq_false_iff.mp h).2
  have hTd : ∀ i, (lit "---").isPrefixOf (c4T.drop i) = false :=
    allDrops_of_bounded (fun u => (lit "---").isPrefixOf u) c4T (by decide)
  have hTds : ∀ k, k < (lit "---").length → 0 < k →
      ((lit "---").drop k).isPrefixOf c4T = false := by decide
  have hNd : ∀ i, (lit "---").isPrefixOf ((notes ++ c4T).drop i) = false :=
    no_prefix_append _ notes c4T (fun i _ => hnd i) hTd
      (fun k h1 h2 => Or.inr (hTds k h2 h1))
  have hTs : ∀ i, (lit "**Subtask").isPrefixOf (c4T.drop i) = false :=
    allDrops_of_bounded (fun u => (lit "**Subtask").isPrefixOf u) c4T (by decide)
  have hTss : ∀ k, k < (lit "**Subtask").length → 0 < k →
      ((lit "**Subtask").drop k).isPrefixOf c4T = false := by decide
  have hNs : ∀ i, (lit "**Subtask").isPrefixOf ((notes ++ c4T).drop i) = false :=
    no_prefix_append _ notes c4T (fun i _ => hns i) hTs
      (fun k h1 h2 => Or.inr (hTss k h2 h1))
  have hId : ∀ i, i < (lit "\n- **Implementation**: ").length →
      (lit "---").isPrefixOf ((lit "\n- **Implementation**: ").drop i) = false :=
    boundedDrops_of (fun u => (lit "---").isPrefixOf u) _ (by decide)
  have hIds : ∀ k, k < (lit "---").length → 0 < k →
      ((lit "---").take k).isSuffixOf (lit "\n- **Implementation**: ") = false := by decide
  have hIs : ∀ i, i < (lit "\n- **Implementation**: ").length →
      (lit "**Subtask").isPrefixOf ((lit "\n- **Implementation**: ").drop i) = false :=
    boundedDrops_of (fun u => (lit "**Subtask").isPrefixOf u) _ (by decide)
  have hIss : ∀ k, k < (lit "**Subtask").length → 0 < k →
      ((lit "**Subtask").take k).isSuffixOf (lit "\n- **Implementation**: ") = false := by decide
  have hd : ∀ i, (lit "---").isPrefixOf
      ((lit "\n- **Implementation**: " ++ (notes ++ c4T)).drop i) = false :=
    no_prefix_append _ _ _ hId hNd (fun k h1 h2 => Or.inl (hIds k h2 h1))
  have hs : ∀ i, (lit "**Subtask").isPrefixOf
      ((lit "\n- **Implementation**: " ++ (notes ++ c4T)).drop i) = false :=
    no_prefix_append _ _ _ hIs hNs (fun k h1 h2 => Or.inl (hIss k h2 h1))
  intro i
  exact notesStop_false_of _ (hd i) (hs i)



lemma extractSubtaskFromPlan_eq (content sid : Str) (i : Nat)
    (hg : findGate content sid = some i) :
    extractSubtaskFromPlan content sid =
      some { id := sid,
             title := pyStrip ((content.drop (i + (subtaskMarker sid).length)).takeWhile
               (fun c => c != '*')),
             completed := containsPat (lit "[x]")
                 ((content.drop i).take (sectionEndFrom content i - i)) &&
               ! containsPat (lit "[ ]") (beforeFirst (lit "**Completion Notes**")
                 ((content.drop i).take (sectionEndFrom content i - i))) } := by
  unfold extractSubtaskFromPlan
  rw [hg]


lemma isPrefixOf_cons_ne (a b : Char) (as bs : Str) (h : a ≠ b) :
    (a :: as).isPrefixOf (b :: bs) = false := by
  simp [List.isPrefixOf_cons₂, h]

/-- A pattern whose head character does not occur in `u` cannot match at any
position inside `u`, straddling included. -/
lemma no_occ_head (c₀ : Char) (p₀ u v : Str) (hu : ∀ c ∈ u, c ≠ c₀) :
    ∀ i, i < u.length → (c₀ :: p₀).isPrefixOf ((u ++ v).drop i) = false := by
  intro i hi
  rw [List.drop_append_of_le_length (Nat.le_of_lt hi),
    List.drop_eq_getElem_cons hi, List.cons_append]
  exact isPrefixOf_cons_ne _ _ _ _ (fun he => hu _ (List.getElem_mem hi) he.symm)

/-- The standalone variant of `no_occ_head`: no match at any position of `u`
itself. -/
lemma no_occ_head_alone (c₀ : Char) (p₀ u : Str) (hu : ∀ c ∈ u, c ≠ c₀) :
    ∀ i, (c₀ :: p₀).isPrefixOf (u.drop i) = false := by
  intro i
  by_cases hi : i < u.length
  · rw [List.drop_eq_getElem_cons hi]
    exact isPrefixOf_cons_ne _ _ _ _ (fun he => hu _ (List.getElem_mem hi) he.symm)
  · rw [List.drop_eq_nil_of_le (Nat.le_of_not_lt hi)]
    rfl

/-- Glue a no-occurrence fact over positions inside `u` with one over `v`
into a no-occurrence fact over the whole concatenation. -/
lemma no_prefix_glue (p u v : Str)
    (hu : ∀ i, i < u.length → p.isPrefixOf ((u ++ v).drop i) = false)
    (hv : ∀ i, p.isPrefixOf (v.drop i) = false) :
    ∀ i, p.isPrefixOf ((u ++ v).drop i) = false := by
  intro i
  by_cases hi : i < u.length
  · exact hu i hi
  · have : (u ++ v).drop i = v.drop (i - u.length) := by
      rw [show i = u.length + (i - u.length) from by omega, List.drop_append]
      congr 1
      omega
    rw [this]
    exact hv _

/-- An occurrence inside `u` is an occurrence inside `u ++ v`
(contrapositive transfer of absence facts to a prefix). -/
lemma no_occ_restrict (p u v : Str)
    (h : ∀ i, p.isPrefixOf ((u ++ v).drop i) = false) :
    ∀ i, p.isPrefixOf (u.drop i) = false := by
  intro i
  by_cases hi : i ≤ u.length
  · cases hocc : p.isPrefixOf (u.drop i) with
    | false => rfl
    | true =>
      have := prefix_append_bool p (u.drop i) v hocc
      rw [← List.drop_append_of_le_length hi] at this
      rw [h i] at this
      cases this
  · rw [List.drop_eq_nil_of_le (by omega)]
    cases p with
    | nil =>
      have := h 0
      rw [List.drop_zero] at this
      cases hocc : List.isPrefixOf [] (u ++ v) with
      | false => simp at hocc
      | true => rw [hocc] at this; cases this
    | cons a b => rfl


/-- `str.rstrip()` returns a prefix of its argument. -/
lemma pyRstrip_prefix (s : Str) : pyRstrip s <+: s := by
  unfold pyRstrip
  rw [← List.reverse_reverse s]
  rw [List.reverse_prefix, List.reverse_reverse]
  exact List.dropWhile_suffix pyIsSpace

/-- Absence of occurrences transfers from a string to its rstripped prefix. -/
lemma no_occ_pyRstrip (p s : Str)
    (h : ∀ i, p.isPrefixOf (s.drop i) = false) :
    ∀ i, p.isPrefixOf ((pyRstrip s).drop i) = false := by
  intro i
  obtain ⟨t, ht⟩ := pyRstrip_prefix s
  cases hocc : p.isPrefixOf ((pyRstrip s).drop i) with
  | false => rfl
  | true =>
    exfalso
    by_cases hi : i ≤ (pyRstrip s).length
    · have h1 : p.isPrefixOf ((pyRstrip s).drop i ++ t) = true :=
        prefix_append_bool _ _ _ hocc
      rw [← List.drop_append_of_le_length hi, ht, h i] at h1
      cases h1
    · rw [List.drop_eq_nil_of_le (by omega)] at hocc
      cases p with
      | nil =>
        have h0 := h 0
        rw [List.drop_zero] at h0
        have htriv : List.isPrefixOf ([] : Str) s = true := by simp
        rw [htriv] at h0
        cases h0
      | cons a b => simp at hocc

/-- The whitespace tail removed by `str.rstrip()`. -/
lemma pyRstrip_spec (s : Str) :
    ∃ t, s = pyRstrip s ++ t ∧ ∀ c ∈ t, pyIsSpace c = true := by
  refine ⟨(s.reverse.takeWhile pyIsSpace).reverse, ?_, ?_⟩
  · unfold pyRstrip
    rw [← List.reverse_append]
    conv_lhs => rw [← List.reverse_reverse s]
    rw [List.reverse_inj]
    exact (List.takeWhile_append_dropWhile (p := pyIsSpace) (l := s.reverse)).symm ▸ rfl
  · intro c hc
    rw [List.mem_reverse] at hc
    exact List.mem_takeWhile_imp hc


/-- `str.rstrip()` on a concatenation whose right part does not strip to
nothing leaves the left part intact. -/
lemma pyRstrip_append (u v : Str) (hv : pyRstrip v ≠ []) :
    pyRstrip (u ++ v) = u ++ pyRstrip v := by
  unfold pyRstrip
  rw [List.reverse_append, List.dropWhile_append]
  have hne : (v.reverse.dropWhile pyIsSpace).isEmpty = false := by
    cases hd : v.reverse.dropWhile pyIsSpace with
    | nil =>
      exfalso
      apply hv
      unfold pyRstrip
      rw [hd]
      rfl
    | cons a b => rfl
  rw [hne, if_neg Bool.false_ne_true, List.reverse_append, List.reverse_reverse]

/-- Characters of a `re.sub` output come from the subject or the
replacement. -/
lemma replaceAll_chars (pat repl : Str) : ∀ (s : Str) (c : Char),
    c ∈ replaceAll pat repl s → c ∈ s ∨ c ∈ repl := by
  have main : ∀ n (s : Str), s.length = n → ∀ c : Char,
      c ∈ replaceAll pat repl s → c ∈ s ∨ c ∈ repl := by
    intro n
    induction n using Nat.strong_induction_on with
    | _ n ih =>
      intro s hlen c hc
      cases s with
      | nil =>
        rw [show replaceAll pat repl [] = [] from rfl] at hc
        cases hc
      | cons d t =>
        by_cases h : pat ≠ [] ∧ pat.isPrefixOf (d :: t)
        · rw [replaceAll_cons_pos _ _ _ _ h] at hc
          rw [List.mem_append] at hc
          rcases hc with hc | hc
          · exact Or.inr hc
          · have hlt : ((d :: t).drop pat.length).length < n := by
              rw [List.length_drop, List.length_cons]
              have : 1 ≤ pat.length := by
                cases hpn : pat with
                | nil => exact absurd hpn h.1
                | cons a b => simp
              simp only [List.length_cons] at hlen
              omega
            rcases ih _ hlt _ rfl c hc with hm | hm
            · exact Or.inl (List.mem_of_mem_drop hm)
            · exact Or.inr hm
        · rw [replaceAll_cons_neg _ _ _ _ h] at hc
          rcases List.mem_cons.mp hc with hc | hc
          · exact Or.inl (hc ▸ List.mem_cons_self d t)
          · have hlt : t.length < n := by
              simp only [List.length_cons] at hlen
              omega
            rcases ih _ hlt _ rfl c hc with hm | hm
            · exact Or.inl (List.mem_cons_of_mem d hm)
            · exact Or.inr hm
  intro s
  exact main s.length s rfl

/-- `str.strip()` ignores a leading space. -/
lemma pyStrip_cons_space (s : Str) : pyStrip (' ' :: s) = pyStrip s := by
  unfold pyStrip pyLstrip
  rw [List.dropWhile_cons_of_pos (by decide)]

lemma takeWhile_append_all (p : Char → Bool) (u v : Str)
    (hu : ∀ c ∈ u, p c = true) :
    (u ++ v).takeWhile p = u ++ v.takeWhile p := by
  induction u with
  | nil => rw [List.nil_append, List.nil_append]
  | cons c t ih =>
    rw [List.cons_append, List.takeWhile_cons_of_pos (hu c (List.mem_cons_self c t)),
      ih fun x hx => hu x (List.mem_cons_of_mem c hx), List.cons_append]


lemma prefix_cons_elim (a b : Char) (as bs : Str)
    (h : (a :: as).isPrefixOf (b :: bs) = true) :
    a = b ∧ as.isPrefixOf bs = true := by
  rw [List.isPrefixOf_cons₂, Bool.and_eq_true] at h
  exact ⟨by simpa using h.1, h.2⟩

/-- The checkbox flip leaves no unchecked checkbox behind: `re.sub` replaces
every occurrence and the replacement cannot recreate the pattern. -/
lemma flip_no_residual : ∀ (s : Str) (i : Nat),
    (lit "[ ]").isPrefixOf
      ((replaceAll (lit "[ ]") (lit "[x]") s).drop i) = false := by
  have hpat : lit "[ ]" = '[' :: ' ' :: ']' :: ([] : Str) := by decide
  have main : ∀ n (s : Str), s.length = n → ∀ i,
      (lit "[ ]").isPrefixOf ((replaceAll (lit "[ ]") (lit "[x]") s).drop i) = false := by
    intro n
    induction n using Nat.strong_induction_on with
    | _ n ih =>
      intro s hlen i
      cases s with
      | nil =>
        rw [show replaceAll (lit "[ ]") (lit "[x]") [] = [] from rfl, List.drop_nil, hpat]
        rfl
      | cons d t =>
        by_cases hpre : (lit "[ ]").isPrefixOf (d :: t) = true
        · obtain ⟨r, hr⟩ := List.isPrefixOf_iff_prefix.mp hpre
          rw [hpat] at hr
          simp only [List.cons_append, List.nil_append] at hr
          injection hr with hd1 hr
          subst hd1
          subst hr
          rw [replaceAll_cons_pos _ _ _ _ ⟨by decide, hpre⟩]
          rw [show (('[' :: ' ' :: ']' :: r : Str)).drop (lit "[ ]").length = r from by
            rw [show (lit "[ ]").length = 3 from by decide]
            rfl]
          rw [show lit "[x]" = '[' :: 'x' :: ']' :: ([] : Str) from by decide]
          simp only [List.cons_append, List.nil_append]
          rcases i with _ | _ | _ | i₃
          · rw [List.drop_zero]
            simp [hpat, List.isPrefixOf_cons₂]
          · show (lit "[ ]").isPrefixOf
              ('x' :: ']' :: replaceAll (lit "[ ]") (lit "[x]") r) = false
            simp [hpat, List.isPrefixOf_cons₂]
          · show (lit "[ ]").isPrefixOf
              (']' :: replaceAll (lit "[ ]") (lit "[x]") r) = false
            simp [hpat, List.isPrefixOf_cons₂]
          · show (lit "[ ]").isPrefixOf
              ((replaceAll (lit "[ ]") (lit "[x]") r).drop i₃) = false
            refine ih r.length ?_ r rfl i₃
            simp only [List.length_cons] at hlen
            omega
        · rw [replaceAll_cons_neg _ _ _ _ (fun hc => hpre hc.2)]
          cases i with
          | succ i₁ =>
            show (lit "[ ]").isPrefixOf
              ((replaceAll (lit "[ ]") (lit "[x]") t).drop i₁) = false
            refine ih t.length ?_ t rfl i₁
            simp only [List.length_cons] at hlen
            omega
          | zero =>
            rw [List.drop_zero]
            cases hocc : (lit "[ ]").isPrefixOf
                (d :: replaceAll (lit "[ ]") (lit "[x]") t) with
            | false => rfl
            | true =>
              exfalso
              nth_rewrite 1 [hpat] at hocc
              obtain ⟨hd1, hocc₂⟩ := prefix_cons_elim _ _ _ _ hocc
              cases t with
              | nil =>
                rw [show replaceAll (lit "[ ]") (lit "[x]") [] = [] from rfl] at hocc₂
                simp at hocc₂
              | cons e t₂ =>
                by_cases hpre₂ : (lit "[ ]").isPrefixOf (e :: t₂) = true
                · rw [replaceAll_cons_pos _ _ _ _ ⟨by decide, hpre₂⟩,
                    show lit "[x]" = '[' :: 'x' :: ']' :: ([] : Str) from by decide] at hocc₂
                  simp only [List.cons_append, List.nil_append] at hocc₂
                  obtain ⟨hbad, -⟩ := prefix_cons_elim _ _ _ _ hocc₂
                  exact absurd hbad (by decide)
                · rw [replaceAll_cons_neg _ _ _ _ (fun hc => hpre₂ hc.2)] at hocc₂
                  obtain ⟨he, hocc₃⟩ := prefix_cons_elim _ _ _ _ hocc₂
                  cases t₂ with
                  | nil =>
                    rw [show replaceAll (lit "[ ]") (lit "[x]") [] = [] from rfl] at hocc₃
                    simp at hocc₃
                  | cons f t₃ =>
                    by_cases hpre₃ : (lit "[ ]").isPrefixOf (f :: t₃) = true
                    · rw [replaceAll_cons_pos _ _ _ _ ⟨by decide, hpre₃⟩,
                        show lit "[x]" = '[' :: 'x' :: ']' :: ([] : Str) from by decide] at hocc₃
                      simp only [List.cons_append, List.nil_append] at hocc₃
                      obtain ⟨hbad, -⟩ := prefix_cons_elim _ _ _ _ hocc₃
                      exact absurd hbad (by decide)
                    · rw [replaceAll_cons_neg _ _ _ _ (fun hc => hpre₃ hc.2)] at hocc₃
                      obtain ⟨hf, -⟩ := prefix_cons_elim _ _ _ _ hocc₃
                      apply hpre
                      rw [hpat, ← hd1, ← he, ← hf, List.isPrefixOf_iff_prefix]
                      exact ⟨t₃, rfl⟩
  intro s
  exact main s.length s rfl


/-- The checkbox flip of a section containing an unchecked checkbox produces
a checked one. -/
lemma flip_has_x : ∀ (s : Str), containsPat (lit "[ ]") s = true →
    ∃ i, (lit "[x]").isPrefixOf
      ((replaceAll (lit "[ ]") (lit "[x]") s).drop i) = true := by
  intro s
  induction s with
  | nil => intro h; exact absurd h (by decide)
  | cons d t ih =>
    intro h
    by_cases hpre : (lit "[ ]").isPrefixOf (d :: t) = true
    · refine ⟨0, ?_⟩
      rw [List.drop_zero, replaceAll_cons_pos _ _ _ _ ⟨by decide, hpre⟩]
      exact prefix_append_bool _ _ _ (by decide)
    · rw [replaceAll_cons_neg _ _ _ _ (fun hc => hpre hc.2)]
      have ht : containsPat (lit "[ ]") t = true := by
        unfold containsPat findPat at h
        rw [if_neg hpre] at h
        unfold containsPat
        cases hft : findPat (lit "[ ]") t with
        | none => rw [hft] at h; cases h
        | some k => rfl
      obtain ⟨i, hi⟩ := ih ht
      exact ⟨i + 1, hi⟩

/-- An occurrence of a whitespace-free pattern survives `str.rstrip()`. -/
lemma occ_pyRstrip_of_nonws (p s : Str) (i : Nat) (hp : p ≠ [])
    (hnw : ∀ c ∈ p, pyIsSpace c = false)
    (h : p.isPrefixOf (s.drop i) = true) :
    ∃ j, p.isPrefixOf ((pyRstrip s).drop j) = true := by
  obtain ⟨t, hts, htw⟩ := pyRstrip_spec s
  by_cases hi : i ≤ (pyRstrip s).length
  · have hsplit : s.drop i = (pyRstrip s).drop i ++ t := by
      conv_lhs => rw [hts]
      rw [List.drop_append_of_le_length hi]
    rw [hsplit] at h
    rcases isPrefixOf_append_split _ _ _ h with hin | ⟨hlt, heq, hrest⟩
    · exact ⟨i, hin⟩
    · exfalso
      cases hpd : p.drop ((pyRstrip s).drop i).length with
      | nil =>
        have hlen := congrArg List.length hpd
        rw [List.length_drop] at hlen
        simp only [List.length_nil] at hlen
        omega
      | cons c p₂ =>
        rw [hpd] at hrest
        obtain ⟨r, hr⟩ := List.isPrefixOf_iff_prefix.mp hrest
        have hct : c ∈ t := by
          rw [← hr]
          exact List.mem_append.mpr (Or.inl (List.mem_cons_self _ _))
        have hcp : c ∈ p := by
          have : c ∈ p.drop ((pyRstrip s).drop i).length := by
            rw [hpd]
            exact List.mem_cons_self _ _
          exact List.mem_of_mem_drop this
        have h1 := htw c hct
        have h2 := hnw c hcp
        rw [h1] at h2
        cases h2
  · exfalso
    have hsplit : s.drop i = t.drop (i - (pyRstrip s).length) := by
      have h0 : s.drop i = ((pyRstrip s) ++ t).drop i := by rw [← hts]
      rw [h0, show i = (pyRstrip s).length + (i - (pyRstrip s).length) from by omega,
        List.drop_append]
      congr 1
      omega
    rw [hsplit] at h
    cases p with
    | nil => exact hp rfl
    | cons c p₂ =>
      obtain ⟨r, hr⟩ := List.isPrefixOf_iff_prefix.mp h
      have hct : c ∈ t := by
        have : c ∈ t.drop (i - (pyRstrip s).length) := by
          rw [← hr]
          exact List.mem_append.mpr (Or.inl (List.mem_cons_self _ _))
        exact List.mem_of_mem_drop this
      have h1 := htw c hct
      have h2 := hnw c (List.mem_cons_self _ _)
      rw [h1] at h2
      cases h2


/-- A single-subtask document for subtask 1.1.1 with an arbitrary title and
an arbitrary section body. -/
def c4Doc (title body : Str) : Str :=
  lit "**Subtask 1.1.1: " ++ (title ++ (lit "**\n" ++ body))

/-- The once-patched C4 document up to the completion-notes block: the
original heading, the flipped and right-stripped body, and a blank line. -/
def c4Pre (title body : Str) : Str :=
  lit "**Subtask 1.1.1: " ++ (title ++ (lit "**\n" ++
    (pyRstrip (replaceAll (lit "[ ]") (lit "[x]") body) ++ lit "\n\n")))

/-- The once-patched C4 document: the pre-block part followed by the
completion-notes block. -/
def c4Patched (title body notes : Str) : Str :=
  lit "**Subtask 1.1.1: " ++ (title ++ (lit "**\n" ++
    (pyRstrip (replaceAll (lit "[ ]") (lit "[x]") body) ++
      (lit "\n\n" ++ notesBlock c4sid notes))))

lemma c4Patched_decomp (title body notes : Str) :
    c4Patched title body notes = c4Pre title body ++ notesBlock c4sid notes := by
  unfold c4Patched c4Pre
  simp [List.append_assoc]

lemma not_prefix_two (a₁ a₂ : Char) (p₂ : Str) (b₁ b₂ : Char) (w : Str)
    (h : ¬(a₁ = b₁ ∧ a₂ = b₂)) :
    (a₁ :: a₂ :: p₂).isPrefixOf (b₁ :: b₂ :: w) = false := by
  cases hocc : (a₁ :: a₂ :: p₂).isPrefixOf (b₁ :: b₂ :: w) with
  | false => rfl
  | true =>
    obtain ⟨h1, h2⟩ := prefix_cons_elim _ _ _ _ hocc
    obtain ⟨h3, -⟩ := prefix_cons_elim _ _ _ _ h2
    exact absurd ⟨h1, h3⟩ h

lemma not_prefix_three (a₁ a₂ a₃ : Char) (p₃ : Str) (b₁ b₂ b₃ : Char) (w : Str)
    (h : ¬(a₁ = b₁ ∧ a₂ = b₂ ∧ a₃ = b₃)) :
    (a₁ :: a₂ :: a₃ :: p₃).isPrefixOf (b₁ :: b₂ :: b₃ :: w) = false := by
  cases hocc : (a₁ :: a₂ :: a₃ :: p₃).isPrefixOf (b₁ :: b₂ :: b₃ :: w) with
  | false => rfl
  | true =>
    obtain ⟨h1, h2⟩ := prefix_cons_elim _ _ _ _ hocc
    obtain ⟨h3, h4⟩ := prefix_cons_elim _ _ _ _ h2
    obtain ⟨h5, -⟩ := prefix_cons_elim _ _ _ _ h4
    exact absurd ⟨h1, h3, h5⟩ h

/-- Straddling refutation: past a positive offset the pattern remainder
would have to start with the first character of the right-hand part, which
does not occur in the pattern. -/
lemma hstr_head_notin (p v : Str) (c₁ : Char) (w : Str) (hv : v = c₁ :: w)
    (hnc : ∀ c ∈ p, c ≠ c₁) :
    ∀ k, 0 < k → k < p.length → (p.drop k).isPrefixOf v = false := by
  intro k h0 hk
  cases hpd : p.drop k with
  | nil =>
    have hlen := congrArg List.length hpd
    rw [List.length_drop] at hlen
    simp only [List.length_nil] at hlen
    omega
  | cons a b =>
    have ha : a ∈ p := by
      have : a ∈ p.drop k := by rw [hpd]; exact List.mem_cons_self _ _
      exact List.mem_of_mem_drop this
    rw [hv]
    exact isPrefixOf_cons_ne _ _ _ _ (hnc a ha)

/-- Shift an occurrence across a left context. -/
lemma occ_shift (p u X : Str) (j : Nat) (h : p.isPrefixOf (X.drop j) = true) :
    p.isPrefixOf ((u ++ X).drop (u.length + j)) = true := by
  have he : (u ++ X).drop (u.length + j) = X.drop j := by
    rw [List.drop_append]
  rw [he]
  exact h


/-- The title gate matches at position 0 of any document of the
single-subtask shape: the marker, a star-free title padded by the heading
space, and the closing `**`. -/
lemma c4_gate_shape (title Z : Str) (ht : ∀ c ∈ title, c ≠ '*') :
    subtaskTitleGateAt
      (lit "**Subtask 1.1.1: " ++ (title ++ (lit "**\n" ++ Z))) c4sid 0 = true := by
  set D := lit "**Subtask 1.1.1: " ++ (title ++ (lit "**\n" ++ Z)) with hD
  have heq : subtaskTitleGateAt D c4sid 0 =
      (occursAt (subtaskMarker c4sid) D 0 &&
       (decide ((D.drop (0 + (subtaskMarker c4sid).length)).takeWhile
           (fun c => c != '*') ≠ []) &&
        (lit "**").isPrefixOf
          ((D.drop (0 + (subtaskMarker c4sid).length)).drop
            ((D.drop (0 + (subtaskMarker c4sid).length)).takeWhile
              (fun c => c != '*')).length))) := rfl
  have hocc0 : occursAt (subtaskMarker c4sid) D 0 = true := by
    unfold occursAt
    rw [List.drop_zero, hD]
    exact prefix_append_bool _ _ _ (by decide)
  have hrest : D.drop (0 + (subtaskMarker c4sid).length) =
      ' ' :: (title ++ (lit "**\n" ++ Z)) := by
    rw [hD, show 0 + (subtaskMarker c4sid).length = 16 from by decide,
      List.drop_append_of_le_length (by decide),
      show (lit "**Subtask 1.1.1: ").drop 16 = lit " " from by decide]
    rfl
  have hrun : (' ' :: (title ++ (lit "**\n" ++ Z))).takeWhile (fun c => c != '*') =
      ' ' :: title := by
    rw [show ((' ' :: (title ++ (lit "**\n" ++ Z))) : Str) =
      ([' '] ++ title) ++ (lit "**\n" ++ Z) from by simp]
    rw [takeWhile_append_all _ _ _ (by
      intro c hc
      rcases List.mem_append.mp hc with hc | hc
      · rcases List.mem_singleton.mp hc with rfl
        decide
      · exact bne_iff_ne.mpr (ht c hc))]
    rw [show (lit "**\n" ++ Z) = '*' :: ('*' :: ('\n' :: Z)) from rfl,
      List.takeWhile_cons_of_neg (by decide)]
    simp
  rw [heq, hocc0, hrest, hrun]
  have hne : decide ((' ' :: title : Str) ≠ []) = true := by
    rw [decide_eq_true_eq]
    exact List.cons_ne_nil _ _
  rw [hne]
  have hdrop : ((' ' :: (title ++ (lit "**\n" ++ Z))) : Str).drop
      ((' ' :: title : Str)).length = lit "**\n" ++ Z := by
    rw [List.length_cons]
    show ((title ++ (lit "**\n" ++ Z)) : Str).drop title.length = lit "**\n" ++ Z
    exact List.drop_left _ _
  rw [hdrop, prefix_append_bool _ _ _ (by decide : (lit "**").isPrefixOf (lit "**\n") = true)]
  rfl


lemma no_occ_glue_head (c₀ : Char) (p₀ u v : Str) (hu : ∀ c ∈ u, c ≠ c₀)
    (hv : ∀ i, (c₀ :: p₀).isPrefixOf (v.drop i) = false) :
    ∀ i, (c₀ :: p₀).isPrefixOf ((u ++ v).drop i) = false :=
  no_prefix_glue _ u v (no_occ_head c₀ p₀ u v hu) hv

/-- No subtask marker matches inside `**\n` followed by a marker-free
remainder. -/
lemma midZ_no_marker (Z : Str)
    (hZ : ∀ i, (lit "**Subtask ").isPrefixOf (Z.drop i) = false) :
    ∀ i, (lit "**Subtask ").isPrefixOf ((lit "**\n" ++ Z).drop i) = false := by
  intro i
  rcases i with _ | _ | _ | i₃
  · rw [List.drop_zero, show (lit "**\n" ++ Z : Str) = '*' :: ('*' :: ('\n' :: Z)) from rfl,
      show lit "**Subtask " = '*' :: ('*' :: ('S' :: lit "ubtask ")) from by decide]
    exact not_prefix_three _ _ _ _ _ _ _ _ (by decide)
  · rw [show ((lit "**\n" ++ Z : Str)).drop 1 = '*' :: ('\n' :: Z) from rfl,
      show lit "**Subtask " = '*' :: ('*' :: ('S' :: lit "ubtask ")) from by decide]
    exact not_prefix_two _ _ _ _ _ _ (by decide)
  · rw [show ((lit "**\n" ++ Z : Str)).drop 2 = '\n' :: Z from rfl,
      show lit "**Subtask " = '*' :: ('*' :: ('S' :: lit "ubtask ")) from by decide]
    exact isPrefixOf_cons_ne _ _ _ _ (by decide)
  · rw [show ((lit "**\n" ++ Z : Str)).drop (i₃ + 3) = Z.drop i₃ from rfl]
    exact hZ i₃

/-- Section-end of a single-subtask document is the document length:
no subtask marker or task heading matches at or past index 10. -/
lemma c4_secend_shape (title Z : Str)
    (ht : ∀ c ∈ title, c ≠ '*' ∧ c ≠ '#')
    (hZs : ∀ i, (lit "**Subtask ").isPrefixOf (Z.drop i) = false)
    (hZt : ∀ i, (lit "### Task ").isPrefixOf (Z.drop i) = false) :
    sectionEndFrom (lit "**Subtask 1.1.1: " ++ (title ++ (lit "**\n" ++ Z))) 0 =
      (lit "**Subtask 1.1.1: " ++ (title ++ (lit "**\n" ++ Z))).length := by
  have hps : lit "**Subtask " = '*' :: lit "*Subtask " := by decide
  have hpt : lit "### Task " = '#' :: lit "## Task " := by decide
  have hdrop : (lit "**Subtask 1.1.1: " ++ (title ++ (lit "**\n" ++ Z))).drop 10 =
      lit "1.1.1: " ++ (title ++ (lit "**\n" ++ Z)) := by
    rw [List.drop_append_of_le_length (by decide),
      show (lit "**Subtask 1.1.1: ").drop 10 = lit "1.1.1: " from by decide]
  apply sectionEndFrom_zero_full
  · intro i
    apply subtaskMarkerAt_false_of
    rw [hdrop, hps]
    exact no_occ_glue_head '*' (lit "*Subtask ") (lit "1.1.1: ") _ (by decide)
      (no_occ_glue_head '*' (lit "*Subtask ") title _ (fun c hc => (ht c hc).1)
        (fun j => by rw [← hps]; exact midZ_no_marker Z hZs j)) i
  · intro i
    apply taskHeadingAt_false_of
    rw [hdrop, hpt]
    exact no_occ_glue_head '#' (lit "## Task ") (lit "1.1.1: ") _ (by decide)
      (no_occ_glue_head '#' (lit "## Task ") title _ (fun c hc => (ht c hc).2)
        (no_occ_glue_head '#' (lit "## Task ") (lit "**\n") _ (by decide)
          (fun j => by rw [← hpt]; exact hZt j))) i


lemma bounded_glue (p u X : Str) (B : Nat)
    (hu : ∀ i, i < u.length → p.isPrefixOf ((u ++ X).drop i) = false)
    (hX : ∀ i, i < B → p.isPrefixOf (X.drop i) = false) :
    ∀ i, i < u.length + B → p.isPrefixOf ((u ++ X).drop i) = false := by
  intro i hi
  by_cases hiu : i < u.length
  · exact hu i hiu
  · have he : (u ++ X).drop i = X.drop (i - u.length) := by
      rw [show i = u.length + (i - u.length) from by omega, List.drop_append]
      congr 1
      omega
    rw [he]
    exact hX _ (by omega)

lemma containsPat_eq_false_of (pat s : Str)
    (h : ∀ i, pat.isPrefixOf (s.drop i) = false) : containsPat pat s = false := by
  unfold containsPat
  rw [findPat_eq_findSuffix, findSuffix_eq_none_of _ _ (fun i => h i)]
  rfl

/-- The notes text admits no subtask-marker match: the stop-sequence
hypothesis excludes the prefix `**Subtask`. -/
lemma notes_no_submarker (notes : Str)
    (hstop : ∀ i, notesStop (notes.drop i) = false) :
    ∀ i, (lit "**Subtask ").isPrefixOf (notes.drop i) = false := by
  intro i
  apply not_prefix_of_ext (lit "**Subtask") _ _ (by decide)
  have h := hstop i
  unfold notesStop at h
  exact (Bool.or_eq_false_iff.mp h).2

/-- Characters of the flipped and stripped body avoid markup characters
whenever the body does. -/
lemma c4R_chars (body : Str) (hbody : ∀ c ∈ body, c ≠ '*' ∧ c ≠ '#' ∧ c ≠ '\\') :
    ∀ c ∈ pyRstrip (replaceAll (lit "[ ]") (lit "[x]") body), c ≠ '*' ∧ c ≠ '#' := by
  intro c hc
  have hc2 : c ∈ replaceAll (lit "[ ]") (lit "[x]") body := by
    obtain ⟨t, ht⟩ := pyRstrip_prefix (replaceAll (lit "[ ]") (lit "[x]") body)
    rw [← ht]
    exact List.mem_append.mpr (Or.inl hc)
  rcases replaceAll_chars _ _ _ c hc2 with hm | hm
  · exact ⟨(hbody c hm).1, (hbody c hm).2.1⟩
  · have hall : ∀ x ∈ lit "[x]", x ≠ '*' ∧ x ≠ '#' := by decide
    exact hall c hm

set_option maxRecDepth 8000 in
/-- No unchecked checkbox occurs anywhere in the patched document. -/
lemma c4_box_absent (title body notes : Str)
    (htitle : ∀ c ∈ title, c ≠ '*' ∧ c ≠ '#' ∧ c ≠ '[' ∧ c ≠ '\\')
    (hn1 : ∀ i, (lit "[ ]").isPrefixOf (notes.drop i) = false) :
    ∀ i, (lit "[ ]").isPrefixOf ((c4Patched title body notes).drop i) = false := by
  have hpb : lit "[ ]" = '[' :: lit " ]" := by decide
  have hT : ∀ i, (lit "[ ]").isPrefixOf (c4T.drop i) = false := by
    intro i
    rw [hpb]
    exact no_occ_head_alone '[' (lit " ]") c4T (by decide) i
  have hNotes : ∀ i, (lit "[ ]").isPrefixOf ((notes ++ c4T).drop i) = false := by
    apply no_prefix_glue _ notes c4T _ hT
    apply no_prefix_at_lt _ notes c4T (fun i _ => hn1 i)
    intro k h0 hk
    refine Or.inr (hstr_head_notin _ _ '\n' (lit "- **Files Created**: (updated by Claude Code)\n- **Files Modified**: (updated by Claude Code)\n- **Tests**: (updated by Claude Code)\n- **Build**: ✅ Success\n- **Branch**: feature/1-1-1\n- **Notes**: Marked complete via MCP\n\n") (by decide) (by decide) k h0 hk)
  have hBlkH : ∀ i, (lit "[ ]").isPrefixOf
      ((lit "**Completion Notes**:\n- **Implementation**: " ++ (notes ++ c4T)).drop i) = false := by
    rw [hpb]
    exact no_occ_glue_head '[' (lit " ]") _ _ (by decide) (fun i => by rw [← hpb]; exact hNotes i)
  have hBlk : ∀ i, (lit "[ ]").isPrefixOf ((notesBlock c4sid notes).drop i) = false := by
    intro i
    rw [c4blk]
    exact hBlkH i
  unfold c4Patched
  rw [hpb]
  apply no_occ_glue_head '[' (lit " ]") _ _ (by decide)
  apply no_occ_glue_head '[' (lit " ]") _ _ (fun c hc => (htitle c hc).2.2.1)
  apply no_occ_glue_head '[' (lit " ]") _ _ (by decide)
  apply no_prefix_glue
  · -- inside the flipped and stripped body
    apply no_prefix_at_lt
    · intro i _
      rw [← hpb]
      exact no_occ_pyRstrip _ _ (flip_no_residual body) i
    · intro k h0 hk
      refine Or.inr (hstr_head_notin _ _ '\n'
        ('\n' :: notesBlock c4sid notes) rfl (by rw [← hpb]; decide) k h0 hk)
  · apply no_occ_glue_head '[' (lit " ]") _ _ (by decide)
    intro i
    rw [← hpb]
    exact hBlk i


set_option maxRecDepth 8000 in
/-- No subtask marker matches anywhere in the patched tail (flipped body,
blank line and completion-notes block). -/
lemma c4_Z_no_sub (body notes : Str)
    (hbody : ∀ c ∈ body, c ≠ '*' ∧ c ≠ '#' ∧ c ≠ '\\')
    (hstop : ∀ i, notesStop (notes.drop i) = false) :
    ∀ i, (lit "**Subtask ").isPrefixOf
      ((pyRstrip (replaceAll (lit "[ ]") (lit "[x]") body) ++
        (lit "\n\n" ++ notesBlock c4sid notes)).drop i) = false := by
  have hps : lit "**Subtask " = '*' :: lit "*Subtask " := by decide
  have hT : ∀ i, (lit "**Subtask ").isPrefixOf (c4T.drop i) = false :=
    allDrops_of_bounded (fun u => (lit "**Subtask ").isPrefixOf u) c4T (by decide)
  have hNT : ∀ i, (lit "**Subtask ").isPrefixOf ((notes ++ c4T).drop i) = false := by
    apply no_prefix_glue _ notes c4T _ hT
    apply no_prefix_at_lt _ notes c4T (fun i _ => notes_no_submarker notes hstop i)
    intro k h0 hk
    refine Or.inr (hstr_head_notin _ _ '\n' (lit "- **Files Created**: (updated by Claude Code)\n- **Files Modified**: (updated by Claude Code)\n- **Tests**: (updated by Claude Code)\n- **Build**: ✅ Success\n- **Branch**: feature/1-1-1\n- **Notes**: Marked complete via MCP\n\n") (by decide) (by decide) k h0 hk)
  have hBlk : ∀ i, (lit "**Subtask ").isPrefixOf ((notesBlock c4sid notes).drop i) = false := by
    intro i
    rw [c4blk]
    refine no_prefix_glue _ _ _ ?_ hNT i
    apply no_prefix_at_lt
    · exact boundedDrops_of (fun u => (lit "**Subtask ").isPrefixOf u) _ (by decide)
    · intro k h0 hk
      have hs : ∀ k, k < (lit "**Subtask ").length → 0 < k →
          ((lit "**Subtask ").take k).isSuffixOf
            (lit "**Completion Notes**:\n- **Implementation**: ") = false := by decide
      exact Or.inl (hs k hk h0)
  rw [hps]
  apply no_occ_glue_head '*' (lit "*Subtask ") _ _
    (fun c hc => (c4R_chars body hbody c hc).1)
  apply no_occ_glue_head '*' (lit "*Subtask ") _ _ (by decide)
  intro i
  rw [← hps]
  exact hBlk i

set_option maxRecDepth 8000 in
/-- No task heading matches anywhere in the patched tail. -/
lemma c4_Z_no_task (body notes : Str)
    (hbody : ∀ c ∈ body, c ≠ '*' ∧ c ≠ '#' ∧ c ≠ '\\')
    (hn3 : ∀ i, (lit "### Task ").isPrefixOf (notes.drop i) = false) :
    ∀ i, (lit "### Task ").isPrefixOf
      ((pyRstrip (replaceAll (lit "[ ]") (lit "[x]") body) ++
        (lit "\n\n" ++ notesBlock c4sid notes)).drop i) = false := by
  have hpt : lit "### Task " = '#' :: lit "## Task " := by decide
  have hT : ∀ i, (lit "### Task ").isPrefixOf (c4T.drop i) = false := by
    intro i
    rw [hpt]
    exact no_occ_head_alone '#' (lit "## Task ") c4T (by decide) i
  have hNT : ∀ i, (lit "### Task ").isPrefixOf ((notes ++ c4T).drop i) = false := by
    apply no_prefix_glue _ notes c4T _ hT
    apply no_prefix_at_lt _ notes c4T (fun i _ => hn3 i)
    intro k h0 hk
    refine Or.inr (hstr_head_notin _ _ '\n' (lit "- **Files Created**: (updated by Claude Code)\n- **Files Modified**: (updated by Claude Code)\n- **Tests**: (updated by Claude Code)\n- **Build**: ✅ Success\n- **Branch**: feature/1-1-1\n- **Notes**: Marked complete via MCP\n\n") (by decide) (by decide) k h0 hk)
  have hBlk : ∀ i, (lit "### Task ").isPrefixOf ((notesBlock c4sid notes).drop i) = false := by
    intro i
    rw [c4blk, hpt]
    refine no_occ_glue_head '#' (lit "## Task ") _ _ (by decide)
      (fun j => by rw [← hpt]; exact hNT j) i
  rw [hpt]
  apply no_occ_glue_head '#' (lit "## Task ") _ _
    (fun c hc => (c4R_chars body hbody c hc).2)
  apply no_occ_glue_head '#' (lit "## Task ") _ _ (by decide)
  intro i
  rw [← hpt]
  exact hBlk i


/-- `re.sub` is the identity on a subject without an occurrence of the
pattern. -/
lemma replaceAll_id (pat repl s : Str)
    (h : ∀ i, pat.isPrefixOf (s.drop i) = false) :
    replaceAll pat repl s = s := by
  have hf := replaceAll_append_frame pat repl s []
    (fun i hi => by rw [List.append_nil]; exact h i)
  rw [List.append_nil] at hf
  rw [hf, show replaceAll pat repl [] = [] from rfl, List.append_nil]

/-- The checkbox pattern cannot match at a position inside a
bracket-free segment. -/
lemma no_occ_box (u v : Str) (hu : ∀ c ∈ u, c ≠ '[') :
    ∀ i, i < u.length → (lit "[ ]").isPrefixOf ((u ++ v).drop i) = false := by
  intro i hi
  rw [show lit "[ ]" = '[' :: lit " ]" from by decide]
  exact no_occ_head '[' (lit " ]") u v hu i hi

/-- A star-headed pattern satisfying the concrete side conditions on the
literal heading and the closing `**` cannot match at any position inside the
pre-block part of the once-patched document. -/
lemma c4_pre_bounded (title body notes : Str) (p₀ : Str)
    (htitle : ∀ c ∈ title, c ≠ '*')
    (hbody : ∀ c ∈ body, c ≠ '*' ∧ c ≠ '#' ∧ c ≠ '\\')
    (hHu : ∀ i, i < (lit "**Subtask 1.1.1: ").length →
      ('*' :: p₀).isPrefixOf ((lit "**Subtask 1.1.1: ").drop i) = false)
    (hHs : ∀ k, k < ('*' :: p₀).length → 0 < k →
      (('*' :: p₀).take k).isSuffixOf (lit "**Subtask 1.1.1: ") = false)
    (hMu : ∀ i, i < (lit "**\n").length →
      ('*' :: p₀).isPrefixOf ((lit "**\n").drop i) = false)
    (hMs : ∀ k, k < ('*' :: p₀).length → 0 < k →
      (('*' :: p₀).take k).isSuffixOf (lit "**\n") = false) :
    ∀ i, i < (c4Pre title body).length →
      ('*' :: p₀).isPrefixOf
        ((c4Pre title body ++ notesBlock c4sid notes).drop i) = false := by
  have hNN : ∀ i, i < (lit "\n\n").length →
      ('*' :: p₀).isPrefixOf
        ((lit "\n\n" ++ notesBlock c4sid notes).drop i) = false :=
    no_occ_head '*' p₀ (lit "\n\n") _ (by decide)
  have b2 := bounded_glue ('*' :: p₀)
    (pyRstrip (replaceAll (lit "[ ]") (lit "[x]") body))
    (lit "\n\n" ++ notesBlock c4sid notes) (lit "\n\n").length
    (no_occ_head '*' p₀ _ _ (fun c hc => (c4R_chars body hbody c hc).1)) hNN
  have b3 := bounded_glue ('*' :: p₀) (lit "**\n")
    (pyRstrip (replaceAll (lit "[ ]") (lit "[x]") body) ++
      (lit "\n\n" ++ notesBlock c4sid notes))
    ((pyRstrip (replaceAll (lit "[ ]") (lit "[x]") body)).length +
      (lit "\n\n").length)
    (no_prefix_at_lt _ _ _ hMu (fun k h0 hk => Or.inl (hMs k hk h0))) b2
  have b4 := bounded_glue ('*' :: p₀) title
    (lit "**\n" ++ (pyRstrip (replaceAll (lit "[ ]") (lit "[x]") body) ++
      (lit "\n\n" ++ notesBlock c4sid notes)))
    ((lit "**\n").length +
      ((pyRstrip (replaceAll (lit "[ ]") (lit "[x]") body)).length +
        (lit "\n\n").length))
    (no_occ_head '*' p₀ title _ htitle) b3
  have b5 := bounded_glue ('*' :: p₀) (lit "**Subtask 1.1.1: ")
    (title ++ (lit "**\n" ++ (pyRstrip (replaceAll (lit "[ ]") (lit "[x]") body) ++
      (lit "\n\n" ++ notesBlock c4sid notes))))
    (title.length + ((lit "**\n").length +
      ((pyRstrip (replaceAll (lit "[ ]") (lit "[x]") body)).length +
        (lit "\n\n").length)))
    (no_prefix_at_lt _ _ _ hHu (fun k h0 hk => Or.inl (hHs k hk h0))) b4
  intro i hi
  rw [← c4Patched_decomp]
  show ('*' :: p₀).isPrefixOf
    ((lit "**Subtask 1.1.1: " ++ (title ++ (lit "**\n" ++
      (pyRstrip (replaceAll (lit "[ ]") (lit "[x]") body) ++
        (lit "\n\n" ++ notesBlock c4sid notes))))).drop i) = false
  apply b5
  have hlen : (c4Pre title body).length = (lit "**Subtask 1.1.1: ").length +
      (title.length + ((lit "**\n").length +
        ((pyRstrip (replaceAll (lit "[ ]") (lit "[x]") body)).length +
          (lit "\n\n").length))) := by
    unfold c4Pre
    simp [List.length_append]
  rw [hlen] at hi
  exact hi

set_option maxRecDepth 4000 in
/-- The completion-notes marker does not occur at any position inside the
pre-block part of the once-patched document. -/
lemma c4_pre_no_marker (title body notes : Str)
    (htitle : ∀ c ∈ title, c ≠ '*')
    (hbody : ∀ c ∈ body, c ≠ '*' ∧ c ≠ '#' ∧ c ≠ '\\') :
    ∀ i, i < (c4Pre title body).length →
      notesMarker.isPrefixOf
        ((c4Pre title body ++ notesBlock c4sid notes).drop i) = false := by
  intro i hi
  rw [show notesMarker = '*' :: lit "*Completion Notes**:" from by decide]
  exact c4_pre_bounded title body notes (lit "*Completion Notes**:") htitle hbody
    (by decide) (by decide) (by decide) (by decide) i hi

set_option maxRecDepth 4000 in
/-- The completion-notes split key of the extractor does not occur at any
position inside the pre-block part of the once-patched document. -/
lemma c4_pre_no_p20 (title body notes : Str)
    (htitle : ∀ c ∈ title, c ≠ '*')
    (hbody : ∀ c ∈ body, c ≠ '*' ∧ c ≠ '#' ∧ c ≠ '\\') :
    ∀ i, i < (c4Pre title body).length →
      (lit "**Completion Notes**").isPrefixOf
        ((c4Pre title body ++ notesBlock c4sid notes).drop i) = false := by
  intro i hi
  rw [show lit "**Completion Notes**" = '*' :: lit "*Completion Notes**" from by decide]
  exact c4_pre_bounded title body notes (lit "*Completion Notes**") htitle hbody
    (by decide) (by decide) (by decide) (by decide) i hi


lemma append_ne_nil_left (u v : Str) (hu : u ≠ []) : u ++ v ≠ [] := by
  intro h
  cases u with
  | nil => exact hu rfl
  | cons a t => simp at h

lemma append_ne_nil_right (u v : Str) (hv : v ≠ []) : u ++ v ≠ [] := by
  intro h
  cases u with
  | nil => exact hv h
  | cons a t => simp at h

set_option maxRecDepth 4000 in
/-- First run on the single-subtask family: the section is the whole
document, every checkbox is flipped, the completion-notes block is appended
(no marker is present yet), and the tracking rewrite finds no unchecked
tracking entry in the result. -/
lemma c4_run1 (title body notes : Str)
    (htitle : ∀ c ∈ title, c ≠ '*' ∧ c ≠ '#' ∧ c ≠ '[' ∧ c ≠ '\\')
    (hbody : ∀ c ∈ body, c ≠ '*' ∧ c ≠ '#' ∧ c ≠ '\\')
    (hbox : containsPat (lit "[ ]") body = true)
    (hn1 : ∀ i, (lit "[ ]").isPrefixOf (notes.drop i) = false)
    (hn4 : ∀ c ∈ notes, c ≠ '\\') :
    updateProgress (c4Doc title body) c4sid notes =
      .updated (c4Patched title body notes) := by
  have ht1 : ∀ c ∈ title, c ≠ '*' := fun c hc => (htitle c hc).1
  have hgate0 : findGate (c4Doc title body) c4sid = some 0 :=
    findGate_zero _ _ (by unfold c4Doc; exact c4_gate_shape title body ht1)
  have hgate : (findGate (c4Doc title body) c4sid).isSome = true := by
    rw [hgate0]; rfl
  have hp : findPat (subtaskMarker c4sid) (c4Doc title body) = some 0 := by
    apply findPat_some_zero
    · unfold c4Doc
      exact append_ne_nil_left _ _ (by decide)
    · unfold c4Doc
      exact prefix_append_bool _ _ _ (by decide)
  have he : sectionEndFrom (c4Doc title body) 0 = (c4Doc title body).length := by
    unfold c4Doc
    apply c4_secend_shape title body
      (fun c hc => ⟨(htitle c hc).1, (htitle c hc).2.1⟩)
    · intro i
      rw [show lit "**Subtask " = '*' :: lit "*Subtask " from by decide]
      exact no_occ_head_alone '*' _ body (fun c hc => (hbody c hc).1) i
    · intro i
      rw [show lit "### Task " = '#' :: lit "## Task " from by decide]
      exact no_occ_head_alone '#' _ body (fun c hc => (hbody c hc).2.1) i
  have hsect : ((c4Doc title body).drop 0).take
      (sectionEndFrom (c4Doc title body) 0 - 0) = c4Doc title body := by
    rw [he, List.drop_zero, Nat.sub_zero, List.take_length]
  have f1 := replaceAll_append_frame (lit "[ ]") (lit "[x]")
    (lit "**Subtask 1.1.1: ") (title ++ (lit "**\n" ++ body))
    (no_occ_box _ _ (by decide))
  have f2 := replaceAll_append_frame (lit "[ ]") (lit "[x]")
    title (lit "**\n" ++ body)
    (no_occ_box _ _ (fun c hc => (htitle c hc).2.2.1))
  have f3 := replaceAll_append_frame (lit "[ ]") (lit "[x]")
    (lit "**\n") body (no_occ_box _ _ (by decide))
  have hflip : replaceAll (lit "[ ]") (lit "[x]") (c4Doc title body) =
      lit "**Subtask 1.1.1: " ++ (title ++ (lit "**\n" ++
        replaceAll (lit "[ ]") (lit "[x]") body)) := by
    unfold c4Doc
    rw [f1, f2, f3]
  obtain ⟨i₀, hi₀⟩ := flip_has_x body hbox
  obtain ⟨j₀, hj₀⟩ :=
    occ_pyRstrip_of_nonws (lit "[x]") _ i₀ (by decide) (by decide) hi₀
  have hRne : pyRstrip (replaceAll (lit "[ ]") (lit "[x]") body) ≠ [] := by
    intro hR
    rw [hR, List.drop_nil] at hj₀
    exact absurd hj₀ (by decide)
  have e3 : pyRstrip (lit "**\n" ++ replaceAll (lit "[ ]") (lit "[x]") body) =
      lit "**\n" ++ pyRstrip (replaceAll (lit "[ ]") (lit "[x]") body) :=
    pyRstrip_append _ _ hRne
  have e2 : pyRstrip (title ++ (lit "**\n" ++
      replaceAll (lit "[ ]") (lit "[x]") body)) =
      title ++ pyRstrip (lit "**\n" ++ replaceAll (lit "[ ]") (lit "[x]") body) :=
    pyRstrip_append _ _ (by rw [e3]; exact append_ne_nil_left _ _ (by decide))
  have e1 : pyRstrip (lit "**Subtask 1.1.1: " ++ (title ++ (lit "**\n" ++
      replaceAll (lit "[ ]") (lit "[x]") body))) =
      lit "**Subtask 1.1.1: " ++ pyRstrip (title ++ (lit "**\n" ++
        replaceAll (lit "[ ]") (lit "[x]") body)) :=
    pyRstrip_append _ _ (by
      rw [e2, e3]
      exact append_ne_nil_right _ _ (append_ne_nil_left _ _ (by decide)))
  have hrstrip : pyRstrip (lit "**Subtask 1.1.1: " ++ (title ++ (lit "**\n" ++
      replaceAll (lit "[ ]") (lit "[x]") body))) =
      lit "**Subtask 1.1.1: " ++ (title ++ (lit "**\n" ++
        pyRstrip (replaceAll (lit "[ ]") (lit "[x]") body))) := by
    rw [e1, e2, e3]
  have hFB : ∀ c ∈ replaceAll (lit "[ ]") (lit "[x]") body, c ≠ '*' := by
    intro c hc
    rcases replaceAll_chars (lit "[ ]") (lit "[x]") body c hc with h | h
    · exact (hbody c h).1
    · intro he'
      rw [he'] at h
      revert h
      decide
  have hmk : notesMarker = '*' :: lit "*Completion Notes**:" := by decide
  have hMs : ∀ k, k < notesMarker.length → 0 < k →
      (notesMarker.take k).isSuffixOf (lit "**\n") = false := by decide
  have hHsk : ∀ k, k < notesMarker.length → 0 < k →
      (notesMarker.take k).isSuffixOf (lit "**Subtask 1.1.1: ") = false := by decide
  have hM3 : ∀ i, notesMarker.isPrefixOf ((lit "**\n" ++
      replaceAll (lit "[ ]") (lit "[x]") body).drop i) = false := by
    refine no_prefix_glue _ _ _ ?_ ?_
    · apply no_prefix_at_lt
      · exact boundedDrops_of (fun u => notesMarker.isPrefixOf u) _ (by decide)
      · intro k h0 hk
        exact Or.inl (hMs k hk h0)
    · intro j
      rw [hmk]
      exact no_occ_head_alone '*' _ _ hFB j
  have hM2 : ∀ i, notesMarker.isPrefixOf ((title ++ (lit "**\n" ++
      replaceAll (lit "[ ]") (lit "[x]") body)).drop i) = false := by
    refine no_prefix_glue _ _ _ ?_ hM3
    intro i hi
    rw [hmk]
    exact no_occ_head '*' _ title _ ht1 i hi
  have hM1 : ∀ i, notesMarker.isPrefixOf ((lit "**Subtask 1.1.1: " ++
      (title ++ (lit "**\n" ++
        replaceAll (lit "[ ]") (lit "[x]") body))).drop i) = false := by
    refine no_prefix_glue _ _ _ ?_ hM2
    apply no_prefix_at_lt
    · exact boundedDrops_of (fun u => notesMarker.isPrefixOf u) _ (by decide)
    · intro k h0 hk
      exact Or.inl (hHsk k hk h0)
  have hnomk : containsPat notesMarker (lit "**Subtask 1.1.1: " ++
      (title ++ (lit "**\n" ++ replaceAll (lit "[ ]") (lit "[x]") body))) = false :=
    containsPat_eq_false_of _ _ hM1
  have hblkbs : ∀ c ∈ notesBlock c4sid notes, c ≠ '\\' :=
    notesBlock_no_backslash c4sid notes (by decide) hn4
  have hsns := sectionNotesStep_some (notesBlock c4sid notes)
    (lit "**Subtask 1.1.1: " ++ (title ++ (lit "**\n" ++
      replaceAll (lit "[ ]") (lit "[x]") body))) hblkbs
  rw [if_neg (by rw [hnomk]; exact Bool.false_ne_true)] at hsns
  have hns : sectionNotesStep (notesBlock c4sid notes)
      (replaceAll (lit "[ ]") (lit "[x]") (((c4Doc title body).drop 0).take
        (sectionEndFrom (c4Doc title body) 0 - 0))) =
      some (c4Pre title body ++ notesBlock c4sid notes) := by
    rw [hsect, hflip, hsns, hrstrip]
    unfold c4Pre
    simp [List.append_assoc]
  have heq := updateProgress_eq (c4Doc title body) c4sid notes 0 _ hgate hp hns
  rw [heq, he, List.drop_length, List.take_zero, List.nil_append, List.append_nil,
    ← c4Patched_decomp,
    replaceAll_id _ _ _ (no_prefix_of_subpattern (trackPat c4sid) (lit "[ ]") _ 2
      (by decide) (c4_box_absent title body notes htitle hn1))]


set_option maxRecDepth 4000 in
/-- Second run on the single-subtask family: the once-patched document is a
fixed point.  The flip finds no unchecked checkbox, the completion-notes
marker now occurs, its minimal match extends to the end of the document and
is replaced by the identical block, and the tracking rewrite again finds
nothing. -/
lemma c4_run2 (title body notes : Str)
    (htitle : ∀ c ∈ title, c ≠ '*' ∧ c ≠ '#' ∧ c ≠ '[' ∧ c ≠ '\\')
    (hbody : ∀ c ∈ body, c ≠ '*' ∧ c ≠ '#' ∧ c ≠ '\\')
    (hstop : ∀ i, notesStop (notes.drop i) = false)
    (htask : ∀ i, (lit "### Task ").isPrefixOf (notes.drop i) = false)
    (hn1 : ∀ i, (lit "[ ]").isPrefixOf (notes.drop i) = false)
    (hn4 : ∀ c ∈ notes, c ≠ '\\') :
    updateProgress (c4Patched title body notes) c4sid notes =
      .updated (c4Patched title body notes) := by
  have ht1 : ∀ c ∈ title, c ≠ '*' := fun c hc => (htitle c hc).1
  have hgate0 : findGate (c4Patched title body notes) c4sid = some 0 :=
    findGate_zero _ _ (by unfold c4Patched; exact c4_gate_shape title _ ht1)
  have hgate : (findGate (c4Patched title body notes) c4sid).isSome = true := by
    rw [hgate0]; rfl
  have hp : findPat (subtaskMarker c4sid) (c4Patched title body notes) = some 0 := by
    apply findPat_some_zero
    · unfold c4Patched
      exact append_ne_nil_left _ _ (by decide)
    · unfold c4Patched
      exact prefix_append_bool _ _ _ (by decide)
  have he : sectionEndFrom (c4Patched title body notes) 0 =
      (c4Patched title body notes).length := by
    unfold c4Patched
    exact c4_secend_shape title _
      (fun c hc => ⟨(htitle c hc).1, (htitle c hc).2.1⟩)
      (c4_Z_no_sub body notes hbody hstop)
      (c4_Z_no_task body notes hbody htask)
  have hsect : ((c4Patched title body notes).drop 0).take
      (sectionEndFrom (c4Patched title body notes) 0 - 0) =
      c4Patched title body notes := by
    rw [he, List.drop_zero, Nat.sub_zero, List.take_length]
  have hboxa := c4_box_absent title body notes htitle hn1
  have hflipid : replaceAll (lit "[ ]") (lit "[x]")
      (c4Patched title body notes) = c4Patched title body notes :=
    replaceAll_id _ _ _ hboxa
  have hocc : notesMarker.isPrefixOf
      ((c4Patched title body notes).drop (c4Pre title body).length) = true := by
    rw [c4Patched_decomp, List.drop_left, c4blk]
    exact prefix_append_bool _ _ _ (by decide)
  have hcm : containsPat notesMarker (c4Patched title body notes) = true :=
    containsPat_of_occurs _ _ _ hocc
  have hblkbs : ∀ c ∈ notesBlock c4sid notes, c ≠ '\\' :=
    notesBlock_no_backslash c4sid notes (by decide) hn4
  have hblk2 : notesBlock c4sid notes = notesMarker ++
      (lit "\n- **Implementation**: " ++ (notes ++ c4T)) := by
    rw [c4blk, show lit "**Completion Notes**:\n- **Implementation**: " =
      notesMarker ++ lit "\n- **Implementation**: " from by decide,
      List.append_assoc]
  have hscan : notesScan (notesBlock c4sid notes) (c4Patched title body notes) =
      c4Patched title body notes := by
    rw [c4Patched_decomp,
      notesScan_append_frame _ _ _ (c4_pre_no_marker title body notes ht1 hbody)]
    congr 1
    nth_rewrite 2 [hblk2]
    rw [notesScan_match_to_end]
    rw [List.drop_left]
    exact findSuffix_eq_none_of _ _ (c4_stop_absent notes hstop)
  have hsns := sectionNotesStep_some (notesBlock c4sid notes)
    (c4Patched title body notes) hblkbs
  rw [if_pos hcm, hscan] at hsns
  have hns : sectionNotesStep (notesBlock c4sid notes)
      (replaceAll (lit "[ ]") (lit "[x]") (((c4Patched title body notes).drop 0).take
        (sectionEndFrom (c4Patched title body notes) 0 - 0))) =
      some (c4Patched title body notes) := by
    rw [hsect, hflipid]
    exact hsns
  have heq := updateProgress_eq (c4Patched title body notes) c4sid notes 0 _
    hgate hp hns
  rw [heq, he, List.drop_length, List.take_zero, List.nil_append, List.append_nil,
    replaceAll_id _ _ _ (no_prefix_of_subpattern (trackPat c4sid) (lit "[ ]") _ 2
      (by decide) hboxa)]

set_option maxRecDepth 4000 in
/-- The extractor on the once-patched document: the gate matches at the
head, the title is the trimmed heading text, and the completion flag is
true — a checked box occurs in the span and no unchecked box occurs before
the completion-notes marker. -/
lemma c4_extract (title body notes : Str)
    (htitle : ∀ c ∈ title, c ≠ '*' ∧ c ≠ '#' ∧ c ≠ '[' ∧ c ≠ '\\')
    (hbody : ∀ c ∈ body, c ≠ '*' ∧ c ≠ '#' ∧ c ≠ '\\')
    (hbox : containsPat (lit "[ ]") body = true)
    (hstop : ∀ i, notesStop (notes.drop i) = false)
    (htask : ∀ i, (lit "### Task ").isPrefixOf (notes.drop i) = false)
    (hn1 : ∀ i, (lit "[ ]").isPrefixOf (notes.drop i) = false) :
    extractSubtaskFromPlan (c4Patched title body notes) c4sid =
      some { id := c4sid, title := pyStrip title, completed := true } := by
  have ht1 : ∀ c ∈ title, c ≠ '*' := fun c hc => (htitle c hc).1
  have hgate0 : findGate (c4Patched title body notes) c4sid = some 0 :=
    findGate_zero _ _ (by unfold c4Patched; exact c4_gate_shape title _ ht1)
  have hrest : (c4Patched title body notes).drop
      (0 + (subtaskMarker c4sid).length) = ' ' :: (title ++ (lit "**\n" ++
        (pyRstrip (replaceAll (lit "[ ]") (lit "[x]") body) ++
          (lit "\n\n" ++ notesBlock c4sid notes)))) := by
    unfold c4Patched
    rw [show 0 + (subtaskMarker c4sid).length = 16 from by decide,
      List.drop_append_of_le_length (by decide),
      show (lit "**Subtask 1.1.1: ").drop 16 = lit " " from by decide]
    rfl
  have hrun : ((' ' :: (title ++ (lit "**\n" ++
      (pyRstrip (replaceAll (lit "[ ]") (lit "[x]") body) ++
        (lit "\n\n" ++ notesBlock c4sid notes))))) : Str).takeWhile
      (fun c => c != '*') = ' ' :: title := by
    rw [show ((' ' :: (title ++ (lit "**\n" ++
        (pyRstrip (replaceAll (lit "[ ]") (lit "[x]") body) ++
          (lit "\n\n" ++ notesBlock c4sid notes))))) : Str) =
      ([' '] ++ title) ++ (lit "**\n" ++
        (pyRstrip (replaceAll (lit "[ ]") (lit "[x]") body) ++
          (lit "\n\n" ++ notesBlock c4sid notes))) from by simp]
    rw [takeWhile_append_all _ _ _ (by
      intro c hc
      rcases List.mem_append.mp hc with hc | hc
      · rcases List.mem_singleton.mp hc with rfl
        decide
      · exact bne_iff_ne.mpr (ht1 c hc))]
    rw [show (lit "**\n" ++ (pyRstrip (replaceAll (lit "[ ]") (lit "[x]") body) ++
        (lit "\n\n" ++ notesBlock c4sid notes))) = '*' :: ('*' :: ('\n' ::
        (pyRstrip (replaceAll (lit "[ ]") (lit "[x]") body) ++
          (lit "\n\n" ++ notesBlock c4sid notes)))) from rfl,
      List.takeWhile_cons_of_neg (by decide)]
    simp
  have he : sectionEndFrom (c4Patched title body notes) 0 =
      (c4Patched title body notes).length := by
    unfold c4Patched
    exact c4_secend_shape title _
      (fun c hc => ⟨(htitle c hc).1, (htitle c hc).2.1⟩)
      (c4_Z_no_sub body notes hbody hstop)
      (c4_Z_no_task body notes hbody htask)
  have hsect : ((c4Patched title body notes).drop 0).take
      (sectionEndFrom (c4Patched title body notes) 0 - 0) =
      c4Patched title body notes := by
    rw [he, List.drop_zero, Nat.sub_zero, List.take_length]
  obtain ⟨i₀, hi₀⟩ := flip_has_x body hbox
  obtain ⟨j₀, hj₀⟩ :=
    occ_pyRstrip_of_nonws (lit "[x]") _ i₀ (by decide) (by decide) hi₀
  have hj : j₀ ≤ (pyRstrip (replaceAll (lit "[ ]") (lit "[x]") body)).length := by
    by_contra h
    rw [List.drop_eq_nil_of_le (by omega)] at hj₀
    exact absurd hj₀ (by decide)
  have o1 : (lit "[x]").isPrefixOf
      ((pyRstrip (replaceAll (lit "[ ]") (lit "[x]") body) ++
        (lit "\n\n" ++ notesBlock c4sid notes)).drop j₀) = true := by
    rw [List.drop_append_of_le_length hj]
    exact prefix_append_bool _ _ _ hj₀
  have o2 := occ_shift (lit "[x]") (lit "**\n") _ j₀ o1
  have o3 := occ_shift (lit "[x]") title _ _ o2
  have o4 := occ_shift (lit "[x]") (lit "**Subtask 1.1.1: ") _ _ o3
  have hX : containsPat (lit "[x]") (c4Patched title body notes) = true :=
    containsPat_of_occurs _ _ _ (by unfold c4Patched; exact o4)
  have hfp : findPat (lit "**Completion Notes**") (c4Patched title body notes) =
      some (c4Pre title body).length := by
    rw [c4Patched_decomp]
    apply findPat_append_first
    · exact c4_pre_no_p20 title body notes ht1 hbody
    · rw [c4blk]
      exact prefix_append_bool _ _ _ (by decide)
  have hbefore : beforeFirst (lit "**Completion Notes**")
      (c4Patched title body notes) = c4Pre title body := by
    unfold beforeFirst
    rw [hfp]
    show (c4Patched title body notes).take (c4Pre title body).length =
      c4Pre title body
    rw [c4Patched_decomp]
    exact List.take_left _ _
  have hboxa := c4_box_absent title body notes htitle hn1
  have hno : containsPat (lit "[ ]") (c4Pre title body) = false :=
    containsPat_eq_false_of _ _ (no_occ_restrict _ _ (notesBlock c4sid notes)
      (fun i => by rw [← c4Patched_decomp]; exact hboxa i))
  rw [extractSubtaskFromPlan_eq _ _ 0 hgate0, hrest, hrun, pyStrip_cons_space,
    hsect, hX, hbefore, hno]
  rfl


/-- C4 (amended, corrected): patch idempotence holds on the single-subtask
family `c4Doc title body` — an arbitrary star/hash/bracket/backslash-free
title, an arbitrary star/hash/backslash-free body with at least one
unchecked checkbox in the span — for benign notes: notes free of the
lookahead stop sequences (`---`, `**Subtask`), of task headings
(`### Task `), of the checkbox pattern (`[ ]`) and of backslashes.  The
first patch yields the flipped, rstripped document with the
completion-notes block appended; the second identical patch maps that
document to itself; and extraction from the result reports the trimmed
title with `completed = true`. -/
theorem update_progress_idempotent_benign (title body notes : Str)
    (htitle : ∀ c ∈ title, c ≠ '*' ∧ c ≠ '#' ∧ c ≠ '[' ∧ c ≠ '\\')
    (hbody : ∀ c ∈ body, c ≠ '*' ∧ c ≠ '#' ∧ c ≠ '\\')
    (hbox : containsPat (lit "[ ]") body = true)
    (hstop : ∀ i, notesStop (notes.drop i) = false)
    (htask : ∀ i, (lit "### Task ").isPrefixOf (notes.drop i) = false)
    (hn1 : ∀ i, (lit "[ ]").isPrefixOf (notes.drop i) = false)
    (hn4 : ∀ c ∈ notes, c ≠ '\\') :
    ∃ d, updateProgress (c4Doc title body) c4sid notes = .updated d ∧
      updateProgress d c4sid notes = .updated d ∧
      extractSubtaskFromPlan d c4sid =
        some { id := c4sid, title := pyStrip title, completed := true } :=
  ⟨c4Patched title body notes,
    c4_run1 title body notes htitle hbody hbox hn1 hn4,
    c4_run2 title body notes htitle hbody hstop htask hn1 hn4,
    c4_extract title body notes htitle hbody hbox hstop htask hn1⟩

theorem update_progress_idempotent_benign_witness :
    ∃ d, updateProgress (c4Doc (lit "T") (lit "- [ ] d1\n")) c4sid (lit "done") =
        .updated d ∧
      updateProgress d c4sid (lit "done") = .updated d ∧
      extractSubtaskFromPlan d c4sid =
        some { id := c4sid, title := pyStrip (lit "T"), completed := true } :=
  update_progress_idempotent_benign (lit "T") (lit "- [ ] d1\n") (lit "done")
    (by decide) (by decide) (by decide)
    (allDrops_of_bounded (fun u => notesStop u) (lit "done") (by decide))
    (allDrops_of_bounded (fun u => (lit "### Task ").isPrefixOf u) (lit "done")
      (by decide))
    (allDrops_of_bounded (fun u => (lit "[ ]").isPrefixOf u) (lit "done")
      (by decide))
    (by decide)

/-- A single-subtask document whose body already contains the literal text
`**Completion Notes**: old` above its checkbox. -/
def c4docM : Str :=
  lit "**Subtask 1.1.1: T**\n**Completion Notes**: old\n- [ ] d1\n"

set_option maxRecDepth 200000 in
set_option maxHeartbeats 2000000 in
/-- C4 (counterexample): the unrestricted claim fails although each failing
document has a checkbox in the subtask span.
(1) With notes `---` — a lookahead stop sequence — the second patch's block
rewrite stops inside the previously inserted block and duplicates its tail:
the twice-patched document differs from the once-patched one.
(2) With notes `\q` the first patch appends the block by plain string
concatenation and succeeds, but the second patch reaches `re.sub`, whose
replacement-template parse rejects the bad escape `\q`: the source raises
`re.error` instead of returning a document.
(3) With notes `\t` both patches succeed, but the template parse of the
second patch turns the two characters `\t` into a tab while the first
patch's append kept them literally: the documents differ silently.
(4) With a document whose body already contains `**Completion Notes**:`
above its checkbox, the first patch's block rewrite swallows the checkbox
(the minimal match extends to the end of the document), so extraction after
the patch reports `completed = false`. -/
theorem update_progress_not_idempotent_cex :
    (containsPat (lit "[ ]") c4doc = true ∧
      updatedDoc (updateProgress (updatedDoc (updateProgress c4doc c4sid
        (lit "---"))) c4sid (lit "---")) ≠
      updatedDoc (updateProgress c4doc c4sid (lit "---"))) ∧
    (updateProgress c4doc c4sid (lit "\\q") ≠ .raised ∧
      updateProgress (updatedDoc (updateProgress c4doc c4sid (lit "\\q")))
        c4sid (lit "\\q") = .raised) ∧
    (updateProgress (updatedDoc (updateProgress c4doc c4sid (lit "\\t")))
        c4sid (lit "\\t") ≠ .raised ∧
      updatedDoc (updateProgress (updatedDoc (updateProgress c4doc c4sid
        (lit "\\t"))) c4sid (lit "\\t")) ≠
      updatedDoc (updateProgress c4doc c4sid (lit "\\t"))) ∧
    (containsPat (lit "[ ]") c4docM = true ∧
      extractSubtaskFromPlan (updatedDoc (updateProgress c4docM c4sid
        (lit "done"))) c4sid =
        some { id := c4sid, title := lit "T", completed := false }) := by
  decide

end DevPlanMCP
